import Mathlib

/-!
# gosbench: configuration validation, weighted operation selection and result reduction

A shallow embedding of the parts of `common/configFile.go`, `driver/workItems.go`,
`driver/prometheus.go`, `driver/s3.go` and `server/main.go` that the verified properties talk
about.

Conventions of the embedding
* `uint64` values are natural numbers; every `uint64` multiplication is reduced modulo `2 ^ 64`.
* `int`, `int64` and `Duration` values are integers.
* A Go `error` result is an `Option String` (`none` is `nil`) or an `Except String _`.
* A function that mutates its argument through a pointer returns the new value of the argument.
* A Go run-time panic (index out of range, integer division by zero, a method call on a nil
  interface) is the result `none`.
-/

namespace Gosbench

/-! ## common/configFile.go -/

/-- The constant block `BYTE = 1 << (10 * iota)`, `KILOBYTE`, ... , `TERABYTE`. -/
def BYTE : Nat := 1 <<< (10 * 0)
def KILOBYTE : Nat := 1 <<< (10 * 1)
def MEGABYTE : Nat := 1 <<< (10 * 2)
def GIGABYTE : Nat := 1 <<< (10 * 3)
def TERABYTE : Nat := 1 <<< (10 * 4)

/-- Product of two `uint64` values as Go computes it: modulo `2 ^ 64`. -/
def mulUint64 (a b : Nat) : Nat := (a * b) % 2 ^ 64

/-- The anonymous struct of the field `Objects` of `TestCaseConfiguration`. -/
structure ObjectsConfiguration where
  SizeMin : Nat
  SizeMax : Nat
  SizeLast : Nat
  SizeDistribution : String
  NumberMin : Nat
  NumberMax : Nat
  NumberLast : Nat
  NumberDistribution : String
  Unit : String
deriving DecidableEq, Repr

/-- The anonymous struct of the field `Buckets` of `TestCaseConfiguration`. -/
structure BucketsConfiguration where
  NumberMin : Nat
  NumberMax : Nat
  NumberLast : Nat
  NumberDistribution : String
deriving DecidableEq, Repr

/-- The anonymous struct of the field `Multipart` of `TestCaseConfiguration`. -/
structure MultipartConfiguration where
  WriteMPUEnabled : Bool
  WritePartSize : Nat
  WriteConcurrency : Int
  WriteUnit : String
  ReadMPUEnabled : Bool
  ReadPartSize : Nat
  ReadConcurrency : Int
  ReadUnit : String
deriving DecidableEq, Repr

/-- TestCaseConfiguration is the configuration of a performance test. -/
structure TestCaseConfiguration where
  Objects : ObjectsConfiguration
  Buckets : BucketsConfiguration
  Multipart : MultipartConfiguration
  Name : String
  BucketPrefix : String
  ObjectPrefix : String
  Runtime : Int
  OpsDeadline : Nat
  Drivers : Int
  DriversShareBuckets : Bool
  Workers : Int
  CleanAfter : Bool
  ReadWeight : Int
  ExistingReadWeight : Int
  WriteWeight : Int
  ListWeight : Int
  DeleteWeight : Int
deriving DecidableEq, Repr

/-- ASCII upper-casing of a string. `strings.ToUpper` maps every rune to its Unicode upper
case; no rune outside `a`..`z` has one of the letters `B`, `K`, `M`, `G`, `T` as its upper
case, so on the question which branch of `getByteMultiplier` is taken the two agree. -/
def toUpper (s : String) : String := String.mk (s.data.map Char.toUpper)

/-- Checks if a given string is of type distribution. -/
def checkDistribution (distribution : String) (keyname : String) : Option String :=
  match distribution with
  | "constant" | "random" | "sequential" => none
  | _ => some (keyname ++ " is not a valid distribution. Allowed options are constant, random, sequential")

/-- The switch of `getByteMultiplier` over the upper-cased unit. -/
def getByteMultiplier (unit : String) : Except String Nat :=
  match toUpper unit with
  | "B" => .ok BYTE
  | "KB" | "K" => .ok KILOBYTE
  | "MB" | "M" => .ok MEGABYTE
  | "GB" | "G" => .ok GIGABYTE
  | "TB" | "T" => .ok TERABYTE
  | _ => .error "Could not parse unit size - please use one of B/KB/MB/GB/TB"

/-- The validation `checkTestCase`. The first component is the returned error, the second the
test case as it is stored behind the pointer when the call returns (the sizes are overwritten
as soon as their unit has been parsed, also when a later unit is rejected). -/
def checkTestCase (testcase : TestCaseConfiguration) : Option String × TestCaseConfiguration :=
  if testcase.Runtime = 0 ∧ testcase.OpsDeadline = 0 then
    (some "Either stop_with_runtime or stop_with_ops needs to be set", testcase)
  else if testcase.ReadWeight = 0 ∧ testcase.WriteWeight = 0 ∧ testcase.ListWeight = 0
      ∧ testcase.DeleteWeight = 0 ∧ testcase.ExistingReadWeight = 0 then
    (some "At least one weight needs to be set - Read / Write / List / Delete", testcase)
  else if testcase.ExistingReadWeight ≠ 0 ∧ testcase.BucketPrefix = "" then
    (some "When using existing_read_weight, setting the bucket_prefix is mandatory", testcase)
  else if testcase.Buckets.NumberMin = 0 then
    (some "Please set minimum number of Buckets", testcase)
  else if testcase.Objects.SizeMin = 0 then
    (some "Please set minimum size of Objects", testcase)
  else if testcase.Objects.SizeMax = 0 then
    (some "Please set maximum size of Objects", testcase)
  else if testcase.Objects.NumberMin = 0 then
    (some "Please set minimum number of Objects", testcase)
  else
  match checkDistribution testcase.Objects.SizeDistribution "Object size_distribution" with
  | some err => (some err, testcase)
  | none =>
  match checkDistribution testcase.Objects.NumberDistribution "Object number_distribution" with
  | some err => (some err, testcase)
  | none =>
  match checkDistribution testcase.Buckets.NumberDistribution "Bucket number_distribution" with
  | some err => (some err, testcase)
  | none =>
  if testcase.Objects.Unit = "" then
    (some "Please set the Objects unit", testcase)
  else
  match getByteMultiplier testcase.Objects.Unit with
  | .error err => (some err, testcase)
  | .ok toByteMultiplicator =>
  let testcase1 : TestCaseConfiguration :=
    { testcase with Objects :=
        { testcase.Objects with
          SizeMin := mulUint64 testcase.Objects.SizeMin toByteMultiplicator
          SizeMax := mulUint64 testcase.Objects.SizeMax toByteMultiplicator } }
  match getByteMultiplier testcase1.Multipart.WriteUnit with
  | .error err => (some err, testcase1)
  | .ok toByteMultiplicatorW =>
  let testcase2 : TestCaseConfiguration :=
    { testcase1 with Multipart :=
        { testcase1.Multipart with
          WritePartSize := mulUint64 testcase1.Multipart.WritePartSize toByteMultiplicatorW } }
  match getByteMultiplier testcase2.Multipart.ReadUnit with
  | .error err => (some err, testcase2)
  | .ok toByteMultiplicatorR =>
  (none,
    { testcase2 with Multipart :=
        { testcase2.Multipart with
          ReadPartSize := mulUint64 testcase2.Multipart.ReadPartSize toByteMultiplicatorR } })

/-- The exponent of 1024 that the specification attaches to each unit name. -/
def specUnitExponent (unit : String) : Option Nat :=
  if unit = "B" then some 0
  else if unit = "KB" then some 1
  else if unit = "MB" then some 2
  else if unit = "GB" then some 3
  else if unit = "TB" then some 4
  else none

/-- A test case with `size_min = 4` and object unit `KB`, stopped after 400 operations. -/
def exampleTestCase : TestCaseConfiguration where
  Objects :=
    { SizeMin := 4, SizeMax := 8, SizeLast := 0, SizeDistribution := "constant",
      NumberMin := 10, NumberMax := 10, NumberLast := 0, NumberDistribution := "constant",
      Unit := "KB" }
  Buckets := { NumberMin := 1, NumberMax := 1, NumberLast := 0, NumberDistribution := "constant" }
  Multipart :=
    { WriteMPUEnabled := false, WritePartSize := 5, WriteConcurrency := 5, WriteUnit := "MB",
      ReadMPUEnabled := false, ReadPartSize := 3, ReadConcurrency := 5, ReadUnit := "B" }
  Name := "example"
  BucketPrefix := "gosbench-"
  ObjectPrefix := "obj"
  Runtime := 0
  OpsDeadline := 400
  Drivers := 1
  DriversShareBuckets := false
  Workers := 4
  CleanAfter := true
  ReadWeight := 3
  ExistingReadWeight := 0
  WriteWeight := 1
  ListWeight := 0
  DeleteWeight := 0

/-! ## driver/workItems.go -/

/-- ReadOperation stands for a read operation. -/
structure ReadOperation where
  TestName : String
  Bucket : String
  ObjectName : String
  ObjectSize : Nat
  WorksOnPreexistingObject : Bool
  MPUEnabled : Bool
  PartSize : Nat
  MPUConcurrency : Int
deriving DecidableEq, Repr

/-- The fields shared by `WriteOperation`, `ListOperation` and `DeleteOperation`. -/
structure ObjectOperation where
  TestName : String
  Bucket : String
  ObjectName : String
  ObjectSize : Nat
  MPUEnabled : Bool
  PartSize : Nat
  MPUConcurrency : Int
deriving DecidableEq, Repr

/-- WorkItem: the implementations of the interface, a read, write, list or delete operation
or a stopper. -/
inductive WorkItem where
  | ReadOperation (op : ReadOperation)
  | WriteOperation (op : ObjectOperation)
  | ListOperation (op : ObjectOperation)
  | DeleteOperation (op : ObjectOperation)
  | Stopper
deriving DecidableEq, Repr

/-- KV is a simple key-value struct. The value type is a parameter: the comparison of
`GetNextOperation` needs a linear order (the `float64` values without NaN), the weighted
selection is stated over exact rationals. -/
structure KV (α : Type) where
  Key : String
  Value : α
deriving DecidableEq, Repr

/-- Workqueue contains the Queue and the valid operation values. -/
structure Workqueue (α : Type) where
  OperationValues : List (KV α)
  Queue : List WorkItem

/-- The contract of `sort.Slice` called with `less i j := Value i < Value j`: the slice is
rearranged (it need not be stable) so that no element is less than an element before it. -/
structure SliceSorter (α : Type) [LT α] where
  run : List (KV α) → List (KV α)
  perm : ∀ l, (run l).Perm l
  sorted : ∀ l, (run l).Pairwise (fun a b => ¬ b.Value < a.Value)

/-- Insertion sort by `Value`, an executable instance of the `sort.Slice` contract. -/
def insertionSorter (α : Type) [LinearOrder α] : SliceSorter α where
  run := fun l => l.insertionSort (fun a b => a.Value ≤ b.Value)
  perm := fun l => List.perm_insertionSort _ l
  sorted := fun l => by
    haveI : IsTotal (KV α) (fun a b => a.Value ≤ b.Value) := ⟨fun a b => le_total a.Value b.Value⟩
    haveI : IsTrans (KV α) (fun a b => a.Value ≤ b.Value) :=
      ⟨fun a b c hab hbc => le_trans hab hbc⟩
    exact (List.sorted_insertionSort (fun a b : KV α => a.Value ≤ b.Value) l).imp
      (fun hab => not_lt.mpr hab)

/-- GetNextOperation evaluates the operation values and returns which operation should happen
next. The slice is sorted in place, so the reordered queue is returned too; indexing entry 0
of an empty slice panics. -/
def GetNextOperation {α : Type} [LT α] (sorter : SliceSorter α) (Queue : Workqueue α) :
    Option (String × Workqueue α) :=
  match sorter.run Queue.OperationValues with
  | [] => none
  | kv :: rest => some (kv.Key, { Queue with OperationValues := kv :: rest })

/-- The loop of `IncreaseOperationValue` over the entries: the first entry with the requested
key gets the value added; `none` when the loop ends without a match. -/
def increaseFirstMatch {α : Type} [Add α] (operation : String) (value : α) :
    List (KV α) → Option (List (KV α))
  | [] => none
  | kv :: rest =>
    if kv.Key = operation then some ({ kv with Value := kv.Value + value } :: rest)
    else
      match increaseFirstMatch operation value rest with
      | some rest1 => some (kv :: rest1)
      | none => none

/-- IncreaseOperationValue increases the given operation value by the set amount. The first
component is the returned error, the second the queue after the call. -/
def IncreaseOperationValue {α : Type} [Add α] (operation : String) (value : α)
    (Queue : Workqueue α) : Option String × Workqueue α :=
  match increaseFirstMatch operation value Queue.OperationValues with
  | some values => (none, { Queue with OperationValues := values })
  | none => (some ("Could not find requested operation " ++ operation), Queue)

/-- The configured weight of an operation kind in a list of enabled kinds; 0 for a kind that
is not enabled. -/
def weightOf : List (String × Nat) → String → Nat
  | [], _ => 0
  | (kind, weight) :: rest, operation =>
    if kind = operation then weight else weightOf rest operation

/-- Modelled from the spec: the queue the dispatcher starts from (the dispatcher is in the
driver's `main.go`, which is not among the sources): one counter per enabled kind, all 0. -/
def initialWorkqueue (weights : List (String × Nat)) : Workqueue ℚ where
  OperationValues := weights.map (fun kw => ⟨kw.1, 0⟩)
  Queue := []

/-- Modelled from the spec: one selection of the dispatcher (driver's `main.go`, not among the
sources): "select the counter with minimum current weight; after selection, increment by
1/weight_configured". -/
def selectStep (weights : List (String × Nat)) (sorter : SliceSorter ℚ) (Queue : Workqueue ℚ) :
    Option (String × Workqueue ℚ) :=
  match GetNextOperation sorter Queue with
  | none => none
  | some (nextOp, Queue1) =>
    some (nextOp, (IncreaseOperationValue nextOp (1 / (weightOf weights nextOp : ℚ)) Queue1).2)

/-- Modelled from the spec: the first `N` selections of the dispatcher, starting from counters
0; step `i` sorts with `sorters i`, so ties may be broken differently at every step. The
result is the final queue and the kinds in the order they were selected. -/
def selectOperations (weights : List (String × Nat)) (sorters : Nat → SliceSorter ℚ) :
    Nat → Option (Workqueue ℚ × List String)
  | 0 => some (initialWorkqueue weights, [])
  | N + 1 =>
    match selectOperations weights sorters N with
    | none => none
    | some (Queue, selected) =>
      match selectStep weights (sorters N) Queue with
      | none => none
      | some (nextOp, Queue1) => some (Queue1, selected ++ [nextOp])

/-- The number of times a kind is selected in the first `N` selections. -/
def selectionCount (weights : List (String × Nat)) (sorters : Nat → SliceSorter ℚ)
    (operation : String) (N : Nat) : Nat :=
  match selectOperations weights sorters N with
  | some (_, selected) => selected.count operation
  | none => 0

/-- The invariant of the dispatcher loop: the counters are those of the enabled kinds, each
counter is the number of selections of its kind divided by the weight, and no counter exceeds
another by more than one increment of its own. -/
structure SelectionInv (weights : List (String × Nat)) (Queue : Workqueue ℚ)
    (selected : List String) : Prop where
  keys : (Queue.OperationValues.map KV.Key).Perm (weights.map Prod.fst)
  value : ∀ kv ∈ Queue.OperationValues,
    kv.Value = (selected.count kv.Key : ℚ) / (weightOf weights kv.Key : ℚ)
  close : ∀ a ∈ Queue.OperationValues, ∀ b ∈ Queue.OperationValues,
    a.Value ≤ b.Value + 1 / (weightOf weights a.Key : ℚ)
  known : ∀ s ∈ selected, s ∈ weights.map Prod.fst

/-! ## float64 -/

/-- The `float64` values as far as the reductions need them: NaN, the two infinities and the
finite values. A finite result is the exact rational result of the operation; the value that
Go stores is its rounding, see `Float64Rounding`, and a property that rounding can decide (the
success ratio being 1) is stated for the rounded value as well. Overflow is not modelled, and
zero carries no sign (every zero divisor below is a sum of non-negative counters started at
`+0`). -/
inductive F64 where
  | nan
  | posInf
  | negInf
  | finite (q : ℚ)
deriving DecidableEq

/-- IEEE 754 addition on `F64`. -/
def F64.add : F64 → F64 → F64
  | .nan, _ => .nan
  | _, .nan => .nan
  | .posInf, .negInf => .nan
  | .negInf, .posInf => .nan
  | .posInf, _ => .posInf
  | _, .posInf => .posInf
  | .negInf, _ => .negInf
  | _, .negInf => .negInf
  | .finite a, .finite b => .finite (a + b)

/-- IEEE 754 division on `F64`: `0 / 0` is NaN, a non-zero finite value divided by zero is
an infinity of its sign. -/
def F64.div : F64 → F64 → F64
  | .nan, _ => .nan
  | _, .nan => .nan
  | .posInf, .posInf => .nan
  | .posInf, .negInf => .nan
  | .negInf, .posInf => .nan
  | .negInf, .negInf => .nan
  | .posInf, .finite b => if 0 ≤ b then .posInf else .negInf
  | .negInf, .finite b => if 0 ≤ b then .negInf else .posInf
  | .finite _, .posInf => .finite 0
  | .finite _, .negInf => .finite 0
  | .finite a, .finite b =>
    if b = 0 then
      if a = 0 then .nan else if 0 < a then .posInf else .negInf
    else .finite (a / b)

instance : Add F64 := ⟨F64.add⟩

instance : Div F64 := ⟨F64.div⟩

/-- The conversion `int(x)` of a `float64`: the fraction is discarded (truncation toward
zero). For NaN and the infinities Go leaves the result to the implementation; 0 is used. -/
def F64.toInt : F64 → Int
  | .finite q => Int.tdiv q.num q.den
  | _ => 0

/-- The test `0 <= x && x <= 1` on a `float64`; false for NaN. -/
def F64.inUnitInterval : F64 → Prop
  | .finite q => 0 ≤ q ∧ q ≤ 1
  | _ => False

instance (x : F64) : Decidable x.inUnitInterval := by
  cases x <;> unfold F64.inUnitInterval <;> infer_instance

/-- The sum of a list of `float64` values, added in list order onto `float64(0)`. -/
def F64.sum (l : List F64) : F64 := l.foldl (fun acc x => acc + x) (.finite 0)

/-- The rounding of `float64` arithmetic (IEEE 754 binary64, round to nearest): an operation
with the exact finite result `q` stores `round q`. Two properties of the rounding are used:
it is monotone, and a value `m * 2 ^ e` with `|m| ≤ 2 ^ 53` and `-1074 ≤ e ≤ 970` is a
`float64` and is stored as it is. -/
structure Float64Rounding where
  round : ℚ → ℚ
  mono : ∀ a b : ℚ, a ≤ b → round a ≤ round b
  exact : ∀ m e : ℤ, |m| ≤ 2 ^ 53 → -1074 ≤ e → e ≤ 970 →
    round ((m : ℚ) * (2 : ℚ) ^ e) = (m : ℚ) * (2 : ℚ) ^ e

/-- Addition of two Go `int` values (64 bit, two's complement, wrapping). -/
def wrapInt64 (x : Int) : Int := (x + 2 ^ 63) % 2 ^ 64 - 2 ^ 63

/-! ## driver/prometheus.go -/

/-- BenchmarkResult (declared in `common/configFile.go`); times are nanoseconds. -/
structure BenchmarkResult where
  Host : String
  TestName : String
  OperationName : String
  ObjectSize : F64
  Operations : F64
  FailedOperations : F64
  OpsPerSecond : F64
  Workers : Int
  Bytes : F64
  Bandwidth : F64
  LatencyAvg : F64
  SuccessRatio : F64
  StartTime : Int
  StopTime : Int
  Duration : Int
  Options : String
deriving DecidableEq

/-- The zero value `common.BenchmarkResult{}`. -/
def BenchmarkResult.zero : BenchmarkResult where
  Host := ""
  TestName := ""
  OperationName := ""
  ObjectSize := .finite 0
  Operations := .finite 0
  FailedOperations := .finite 0
  OpsPerSecond := .finite 0
  Workers := 0
  Bytes := .finite 0
  Bandwidth := .finite 0
  LatencyAvg := .finite 0
  SuccessRatio := .finite 0
  StartTime := 0
  StopTime := 0
  Duration := 0
  Options := ""

/-- A label of a gathered metric (`promModel.LabelPair`). -/
structure LabelPair where
  Name : String
  Value : String
deriving DecidableEq

/-- The histogram of a gathered metric: sum and number of the observations. -/
structure Histogram where
  SampleSum : F64
  SampleCount : Nat
deriving DecidableEq

/-- A gathered metric (`promModel.Metric`) with the parts that are read: its labels, the
value of its counter and its histogram. -/
structure Metric where
  Label : List LabelPair
  Counter : F64
  Histogram : Histogram
deriving DecidableEq

/-- A gathered metric family (`promModel.MetricFamily`). -/
structure MetricFamily where
  Name : String
  Metric : List Metric
deriving DecidableEq

/-- The function `strings.TrimRight`: all trailing characters that occur in the cutset are
removed. -/
def trimRight (s : String) (cutset : String) : String :=
  String.mk (s.data.reverse.dropWhile (fun c => cutset.data.contains c)).reverse

/-- The inner loop of `sumCounterForTest` over the labels of one metric. -/
def sumCounterLabels (metric : Metric) (testName : String) (sum : F64) : F64 :=
  metric.Label.foldl (fun sum label =>
    if label.Name = "testName" ∧ label.Value = testName then sum + metric.Counter else sum) sum

/-- The loop of `sumCounterForTest`. -/
def sumCounterForTest (metrics : List Metric) (testName : String) : F64 :=
  metrics.foldl (fun sum metric => sumCounterLabels metric testName sum) (.finite 0)

/-- The inner loop of `averageHistogramForTest` over the labels of one metric; the state is
the pair `(sum, count)`. -/
def averageHistogramLabels (metric : Metric) (testName : String) (acc : F64 × F64) :
    F64 × F64 :=
  metric.Label.foldl (fun acc label =>
    if label.Name = "testName" ∧ label.Value = testName then
      (acc.1 + metric.Histogram.SampleSum, acc.2 + .finite (metric.Histogram.SampleCount : ℚ))
    else acc) acc

/-- The function `averageHistogramForTest`: `sum / count` without a guard. -/
def averageHistogramForTest (metrics : List Metric) (testName : String) : F64 :=
  let acc := metrics.foldl (fun acc metric => averageHistogramLabels metric testName acc)
    (.finite 0, .finite 0)
  acc.1 / acc.2

/-- The function `getOperationName`. The entry for `delete` is built from `readWt`, as in the
source. Weights are converted to `float64` and back exactly (below `2 ^ 53`). -/
def getOperationName (readWt excistingReadWt writeWt listWt deleteWt : Int) : String :=
  let kvList : List (KV F64) := []
  let kvList := if readWt > 0 then kvList ++ [⟨"read", .finite (readWt : ℚ)⟩] else kvList
  let kvList :=
    if excistingReadWt > 0 then kvList ++ [⟨"existingRead", .finite (excistingReadWt : ℚ)⟩]
    else kvList
  let kvList := if writeWt > 0 then kvList ++ [⟨"write", .finite (writeWt : ℚ)⟩] else kvList
  let kvList := if listWt > 0 then kvList ++ [⟨"list", .finite (listWt : ℚ)⟩] else kvList
  let kvList := if deleteWt > 0 then kvList ++ [⟨"delete", .finite (readWt : ℚ)⟩] else kvList
  match kvList with
  | [] => "Unknown"
  | [kv] => kv.Key
  | _ =>
    trimRight
      (kvList.foldl (fun op kv => op ++ kv.Key ++ "(" ++ toString kv.Value.toInt ++ ")-") "")
      "-"

/-- The reference for `getOperationName` in the words of the specification: the kinds with
positive weight in the order read, existingRead, write, list, delete; a single kind gives its
bare name, otherwise the strings `kind(weight)`, each with its own weight, joined by `-`. -/
def specOperationName (readWt existingReadWt writeWt listWt deleteWt : Int) : String :=
  let enabled := [("read", readWt), ("existingRead", existingReadWt), ("write", writeWt),
    ("list", listWt), ("delete", deleteWt)].filter (fun kw => 0 < kw.2)
  match enabled with
  | [kw] => kw.1
  | _ => "-".intercalate (enabled.map (fun kw => kw.1 ++ "(" ++ toString kw.2 ++ ")"))

/-- The function `getTestOptionString`. -/
def getTestOptionString (testConfig : TestCaseConfiguration) : String :=
  trimRight
    ("object_size_min=" ++ toString testConfig.Objects.SizeMin ++ "~"
      ++ "object_size_max=" ++ toString testConfig.Objects.SizeMax ++ "~"
      ++ "object_size_distribution=" ++ testConfig.Objects.SizeDistribution ++ "~"
      ++ "multipart_write_enabled=" ++ toString testConfig.Multipart.WriteMPUEnabled ++ "~"
      ++ "multipart_write_part_size=" ++ toString testConfig.Multipart.WritePartSize ++ "~"
      ++ "multipart_write_unit=" ++ testConfig.Multipart.WriteUnit ++ "~"
      ++ "multipart_read_enabled=" ++ toString testConfig.Multipart.ReadMPUEnabled ++ "~"
      ++ "multipart_read_part_size=" ++ toString testConfig.Multipart.ReadPartSize ++ "~"
      ++ "multipart_read_unit=" ++ testConfig.Multipart.ReadUnit ++ "~")
    "~"

/-- The map `resultmap` read at one name: the metrics of the last gathered family with that
name, the empty slice when there is none. -/
def resultmap (result : List MetricFamily) (name : String) : List Metric :=
  result.foldl (fun found family => if family.Name = name then family.Metric else found) []

/-- The function `getCurrentPromValues`; the host name and the gathered metric families are
arguments. -/
def getCurrentPromValues (host : String) (result : List MetricFamily)
    (testConfig : TestCaseConfiguration) : BenchmarkResult :=
  let testName := testConfig.Name
  let benchResult : BenchmarkResult :=
    { BenchmarkResult.zero with
      Host := host
      TestName := testName
      OperationName := getOperationName testConfig.ReadWeight testConfig.ExistingReadWeight
        testConfig.WriteWeight testConfig.ListWeight testConfig.DeleteWeight
      Workers := testConfig.Workers
      Options := getTestOptionString testConfig }
  let benchResult := { benchResult with
    Operations := sumCounterForTest (resultmap result "gosbench_finished_ops") testName }
  let benchResult := { benchResult with
    FailedOperations := sumCounterForTest (resultmap result "gosbench_failed_ops") testName }
  let benchResult := { benchResult with
    SuccessRatio := benchResult.Operations
      / (benchResult.Operations + benchResult.FailedOperations) }
  let benchResult := { benchResult with
    Bytes := sumCounterForTest (resultmap result "gosbench_uploaded_bytes") testName
      + sumCounterForTest (resultmap result "gosbench_downloaded_bytes") testName }
  let benchResult := { benchResult with
    ObjectSize := benchResult.Bytes / (benchResult.Operations + benchResult.FailedOperations) }
  { benchResult with
    LatencyAvg := averageHistogramForTest (resultmap result "gosbench_ops_latency") testName }

/-- Whether a metric carries the label `testName` with the given value. -/
def Metric.hasTestName (metric : Metric) (testName : String) : Bool :=
  metric.Label.any (fun label => label.Name = "testName" ∧ label.Value = testName)

/-- The sum of the counters of the metrics that carry the label `testName = testName`. -/
def specCounterSum (metrics : List Metric) (testName : String) : F64 :=
  F64.sum ((metrics.filter (fun metric => metric.hasTestName testName)).map Metric.Counter)

/-- The sum of the histogram sums and the sum of the histogram counts of the metrics that
carry the label `testName = testName`. -/
def specHistogramSums (metrics : List Metric) (testName : String) : F64 × F64 :=
  (F64.sum ((metrics.filter (fun metric => metric.hasTestName testName)).map
      (fun metric => metric.Histogram.SampleSum)),
    F64.sum ((metrics.filter (fun metric => metric.hasTestName testName)).map
      (fun metric => F64.finite (metric.Histogram.SampleCount : ℚ))))

/-- Label names are unique within every metric, as they are in gathered metrics. -/
def uniqueLabelNames (metrics : List Metric) : Prop :=
  ∀ metric ∈ metrics, (metric.Label.map LabelPair.Name).Nodup

instance (metrics : List Metric) : Decidable (uniqueLabelNames metrics) := by
  unfold uniqueLabelNames
  infer_instance

/-! ## server/main.go -/

/-- The loop body of `sumBenchmarkResults`; the state is `sum` with the three local
accumulators `bandwidthAverages`, `latencyAverages`, `objectSizeAverages`. -/
def sumBenchmarkStep (acc : BenchmarkResult × F64 × F64 × F64) (result : BenchmarkResult) :
    BenchmarkResult × F64 × F64 × F64 :=
  let sum := acc.1
  let bandwidthAverages := acc.2.1
  let latencyAverages := acc.2.2.1
  let objectSizeAverages := acc.2.2.2
  ({ sum with
      Bytes := sum.Bytes + result.Bytes
      Operations := sum.Operations + result.Operations
      FailedOperations := sum.FailedOperations + result.FailedOperations
      OpsPerSecond := sum.OpsPerSecond + result.OpsPerSecond
      Workers := wrapInt64 (sum.Workers + result.Workers) },
    bandwidthAverages + result.Bandwidth,
    latencyAverages + result.LatencyAvg,
    objectSizeAverages + result.ObjectSize)

/-- The function `sumBenchmarkResults`; `results[0]` panics on an empty slice. -/
def sumBenchmarkResults (results : List BenchmarkResult) : Option BenchmarkResult :=
  let acc := results.foldl sumBenchmarkStep
    (BenchmarkResult.zero, F64.finite 0, F64.finite 0, F64.finite 0)
  let sum := acc.1
  let sum := { sum with
    SuccessRatio := sum.Operations / (sum.Operations + sum.FailedOperations) }
  let sum := { sum with LatencyAvg := acc.2.2.1 / F64.finite (results.length : ℚ) }
  let sum := { sum with ObjectSize := acc.2.2.2 / F64.finite (results.length : ℚ) }
  match results with
  | [] => none
  | first :: _ =>
    some { sum with
      TestName := first.TestName
      OperationName := first.OperationName
      Options := first.Options
      Bandwidth := acc.2.1 }

/-! ## common/configFile.go: distributions -/

/-- Difference of two `uint64` values as Go computes it: modulo `2 ^ 64`. -/
def subUint64 (a b : Nat) : Nat := (a + (2 ^ 64 - b % 2 ^ 64)) % 2 ^ 64

/-- Sum of two `uint64` values as Go computes it: modulo `2 ^ 64`. -/
def addUint64 (a b : Nat) : Nat := (a + b) % 2 ^ 64

/-- EvaluateDistribution looks at the given distribution and returns a meaningful next
number. The argument `random` is the value of `rand.Uint64()`. The result is the returned
number together with the value stored in `*lastNumber` when the call returns; `none` is the
run-time panic of the integer division by zero in `rand.Uint64() % validSize`. -/
def EvaluateDistribution (min max lastNumber increment : Nat) (distribution : String)
    (random : Nat) : Option (Nat × Nat) :=
  if distribution = "constant" then some (min, lastNumber)
  else if distribution = "random" then
    let validSize := subUint64 max min
    if validSize = 0 then none
    else some (addUint64 (random % validSize) min, lastNumber)
  else if distribution = "sequential" then
    if addUint64 lastNumber increment > max then some (max, lastNumber)
    else some (addUint64 lastNumber increment, addUint64 lastNumber increment)
  else some (0, lastNumber)

/-! ## common/configFile.go: durations read from YAML -/

/-- The interface value handed to the decoder callback `unmarshal func(interface{}) error`:
it holds either a copy of a `time.Duration` or a pointer to a `time.Duration` variable. -/
inductive YamlTarget where
  | value (copy : Int)
  | pointer
deriving DecidableEq

/-- What a decoder callback does: the error it returns and the duration it stores through
the pointer it was given; a callback that was given a copy has nothing to store into. -/
structure YamlOutcome where
  err : Option String
  stored : Option Int
deriving DecidableEq

/-- The method `Duration.UnmarshalYAML`. The local `yamlDuration` is handed to the callback
by value (`unmarshal(yamlDuration)`), so the call leaves it at its zero value. The result is
the returned error and the receiver `*d` after the call. -/
def Duration.UnmarshalYAML (d : Int) (unmarshal : YamlTarget → YamlOutcome) :
    Option String × Int :=
  let yamlDuration : Int := 0
  match (unmarshal (YamlTarget.value yamlDuration)).err with
  | some err => (some err, d)
  | none => (none, yamlDuration)

/-- A hand-written decoder callback for a YAML node that holds the duration `node` (in
nanoseconds): it succeeds, and stores `node` when it is given a pointer. It tolerates a target
that is not a pointer; the callback of `yaml.v2` does not (it panics when it sets the value),
so it is one of the callbacks `UnmarshalYAML` may be called with, not the library's own. -/
def decodeDurationNode (node : Int) : YamlTarget → YamlOutcome
  | .pointer => { err := none, stored := some node }
  | .value _ => { err := none, stored := none }

/-! ## server/main.go: scheduling -/

/-- S3Configuration contains all information to connect to a certain S3 endpoint. -/
structure S3Configuration where
  AccessKey : String
  SecretKey : String
  Region : String
  Endpoint : String
  Timeout : Int
  SkipSSLVerify : Bool
  ProxyHost : String
deriving DecidableEq, Repr

/-- GrafanaConfiguration contains all information necessary to add annotations. -/
structure GrafanaConfiguration where
  Username : String
  Password : String
  Endpoint : String
deriving DecidableEq, Repr

/-- Testconf contains all the information necessary to set up a distributed test. -/
structure Testconf where
  S3Config : List S3Configuration
  GrafanaConfig : Option GrafanaConfiguration
  Tests : List TestCaseConfiguration
deriving DecidableEq, Repr

/-- DriverConf is the configuration that is sent to each driver. -/
structure DriverConf where
  S3Config : S3Configuration
  Test : TestCaseConfiguration
  DriverID : String
deriving DecidableEq, Repr

/-- DriverMessage is the struct that is exchanged between server and driver. -/
structure DriverMessage where
  Message : String
  Config : Option DriverConf
  BenchResult : BenchmarkResult
deriving DecidableEq

/-- The struct literal `&common.DriverConf{...}` of `scheduleTests` for slot `driver`;
`none` is the panic of `driver % len(config.S3Config)` on an empty credentials list. -/
def newDriverConf (config : Testconf) (test : TestCaseConfiguration) (driver : Nat) :
    Option DriverConf :=
  if config.S3Config.length = 0 then none
  else
    match config.S3Config.get? (driver % config.S3Config.length) with
    | none => none
    | some s3Config =>
      some { Test := test, S3Config := s3Config, DriverID := "d" ++ toString driver }

/-- What `decoder.Decode(&response)` yields for one reply of the driver: an error, or the
contents of `response` after the reply has been decoded into it. -/
inductive Reply where
  | decodeError (err : String)
  | message (response : DriverMessage)
deriving DecidableEq

/-- A control connection of a driver that has announced itself; `replies` are the replies
its driver sends, in order. -/
structure Conn where
  remoteAddr : String
  replies : List Reply
deriving DecidableEq

/-- The first loop of `scheduleTests` for one test, run to its end: slot `driver` gets its
configuration and the next ready connection. `remaining` counts the iterations left, so the
loop over `driver < test.Drivers` is `stageLoop config test test.Drivers 0`. With no ready
connection left the loop waits; the slots staged so far are returned. -/
def stageLoop (config : Testconf) (test : TestCaseConfiguration) :
    Nat → Nat → List Conn → Option (List (Conn × DriverConf))
  | 0, _, _ => some []
  | remaining + 1, driver, readyDrivers =>
    match newDriverConf config test driver with
    | none => none
    | some driverConfig =>
      match readyDrivers with
      | [] => some []
      | driverConnection :: rest =>
        match stageLoop config test remaining (driver + 1) rest with
        | none => none
        | some staged => some ((driverConnection, driverConfig) :: staged)

/-- The driver assignments that `scheduleTests` builds for one test; `none` is a panic (a
negative channel size, or an empty credentials list with at least one driver). -/
def stageDrivers (config : Testconf) (test : TestCaseConfiguration) (readyDrivers : List Conn) :
    Option (List (Conn × DriverConf)) :=
  if test.Drivers < 0 then none
  else stageLoop config test test.Drivers.toNat 0 readyDrivers

/-! ## server/main.go: the session of one driver and the barriers -/

/-- The places of `executeTestOnDriver` at which a session can stand. -/
inductive SessionPC where
  | encodeInit
  | decode
  | signalPrep
  | awaitContinue
  | encodeStart
  | signalWork
  | sendResult
  | closeAfterWork
  | closeAfterError
  | returned
deriving DecidableEq, Repr

/-- One running `executeTestOnDriver`. `replies` are the replies its driver still sends and
`response` is the variable of that name. The other fields record what has happened: the
`Message` of every message encoded to the driver and of every reply decoded, whether the
connection has been closed, and how often the session has sent on `doneChannel` and received
from `continueDrivers`. -/
structure Session where
  config : DriverConf
  pc : SessionPC
  replies : List Reply
  response : DriverMessage
  sent : List String
  received : List String
  closed : Bool
  signals : Nat
  continues : Nat
deriving DecidableEq

/-- The channel operation that a step of a session performs. -/
inductive ChannelOp where
  | noOp
  | signalDone
  | awaitContinue
  | sendResult (result : BenchmarkResult)
deriving DecidableEq

/-- The session that `go executeTestOnDriver(...)` starts on a ready connection. -/
def newSession (conn : Conn) (config : DriverConf) : Session where
  config := config
  pc := .encodeInit
  replies := conn.replies
  response := { Message := "", Config := none, BenchResult := BenchmarkResult.zero }
  sent := []
  received := []
  closed := false
  signals := 0
  continues := 0

/-- One step of `executeTestOnDriver`: the session after the step and the channel operation
the step performs; `none` when the session has returned or waits for a reply that has not
been sent. The `switch` over `response.Message` has no default case. -/
def Session.next (session : Session) : Option (ChannelOp × Session) :=
  match session.pc with
  | .encodeInit =>
    some (.noOp, { session with sent := session.sent ++ ["init"], pc := .decode })
  | .decode =>
    match session.replies with
    | [] => none
    | .decodeError _ :: rest =>
      some (.noOp, { session with replies := rest, pc := .closeAfterError })
    | .message response :: rest =>
      if response.Message = "preparations done" then
        some (.noOp, { session with
          replies := rest, response := response
          received := session.received ++ [response.Message], pc := .signalPrep })
      else if response.Message = "work done" then
        some (.noOp, { session with
          replies := rest, response := response
          received := session.received ++ [response.Message], pc := .signalWork })
      else
        some (.noOp, { session with
          replies := rest, response := response
          received := session.received ++ [response.Message], pc := .decode })
  | .signalPrep =>
    some (.signalDone, { session with signals := session.signals + 1, pc := .awaitContinue })
  | .awaitContinue =>
    some (.awaitContinue,
      { session with continues := session.continues + 1, pc := .encodeStart })
  | .encodeStart =>
    some (.noOp, { session with sent := session.sent ++ ["start work"], pc := .decode })
  | .signalWork =>
    some (.signalDone, { session with signals := session.signals + 1, pc := .sendResult })
  | .sendResult =>
    some (.sendResult session.response.BenchResult, { session with pc := .closeAfterWork })
  | .closeAfterWork => some (.noOp, { session with closed := true, pc := .returned })
  | .closeAfterError => some (.noOp, { session with closed := true, pc := .returned })
  | .returned => none

/-- A session run on its own for at most `fuel` steps, every channel operation going through
at once: the channel operations in order and the session reached. -/
def Session.run : Nat → Session → List ChannelOp × Session
  | 0, session => ([], session)
  | fuel + 1, session =>
    match session.next with
    | none => ([], session)
    | some (.noOp, session1) => Session.run fuel session1
    | some (op, session1) => (op :: (Session.run fuel session1).1, (Session.run fuel session1).2)

/-- The places of `scheduleTests`, within one iteration of its loop over the tests, at which
the scheduler can stand; the argument is the loop variable `driver`. -/
inductive SchedulerPC where
  | stage (driver : Nat)
  | barrier1 (driver : Nat)
  | sleep
  | release (driver : Nat)
  | barrier2 (driver : Nat)
  | collect (driver : Nat)
  | finished
deriving DecidableEq, Repr

/-- The scheduler, the sessions it has started and the channels they share, for one test.
A channel of signals is the number of signals queued in it. -/
structure TestRun where
  scheduler : SchedulerPC
  readyDrivers : List Conn
  sessions : List Session
  doneChannel : Nat
  continueDrivers : Nat
  resultChannel : List BenchmarkResult
  benchResults : List BenchmarkResult
deriving DecidableEq

/-- The state in which `scheduleTests` enters the iteration for a test. -/
def TestRun.init (readyDrivers : List Conn) : TestRun where
  scheduler := .stage 0
  readyDrivers := readyDrivers
  sessions := []
  doneChannel := 0
  continueDrivers := 0
  resultChannel := []
  benchResults := []

/-- One step of session `i`; `none` when the session cannot move: it has returned, waits for
a reply, or waits at a channel (every channel has capacity `test.Drivers`). -/
def TestRun.sessionStep (drivers : Nat) (i : Nat) (s : TestRun) : Option TestRun :=
  match s.sessions.get? i with
  | none => none
  | some session =>
    match session.next with
    | none => none
    | some (.noOp, session1) => some { s with sessions := s.sessions.set i session1 }
    | some (.signalDone, session1) =>
      if s.doneChannel < drivers then
        some { s with sessions := s.sessions.set i session1, doneChannel := s.doneChannel + 1 }
      else none
    | some (.awaitContinue, session1) =>
      if 0 < s.continueDrivers then
        some { s with
          sessions := s.sessions.set i session1, continueDrivers := s.continueDrivers - 1 }
      else none
    | some (.sendResult result, session1) =>
      if s.resultChannel.length < drivers then
        some { s with
          sessions := s.sessions.set i session1, resultChannel := s.resultChannel ++ [result] }
      else none

/-- One step of `scheduleTests`; `none` when the scheduler waits (for a ready connection or
at a channel), has finished the test, or panics on an empty credentials list. -/
def TestRun.schedulerStep (config : Testconf) (test : TestCaseConfiguration) (s : TestRun) :
    Option TestRun :=
  match s.scheduler with
  | .stage driver =>
    if driver < test.Drivers.toNat then
      match newDriverConf config test driver with
      | none => none
      | some driverConfig =>
        match s.readyDrivers with
        | [] => none
        | driverConnection :: rest =>
          some { s with
            readyDrivers := rest
            sessions := s.sessions ++ [newSession driverConnection driverConfig]
            scheduler := .stage (driver + 1) }
    else some { s with scheduler := .barrier1 0 }
  | .barrier1 driver =>
    if driver < test.Drivers.toNat then
      if 0 < s.doneChannel then
        some { s with doneChannel := s.doneChannel - 1, scheduler := .barrier1 (driver + 1) }
      else none
    else some { s with scheduler := .sleep }
  | .sleep => some { s with scheduler := .release 0 }
  | .release driver =>
    if driver < test.Drivers.toNat then
      if s.continueDrivers < test.Drivers.toNat then
        some { s with
          continueDrivers := s.continueDrivers + 1, scheduler := .release (driver + 1) }
      else none
    else some { s with scheduler := .barrier2 0 }
  | .barrier2 driver =>
    if driver < test.Drivers.toNat then
      if 0 < s.doneChannel then
        some { s with doneChannel := s.doneChannel - 1, scheduler := .collect driver }
      else none
    else some { s with scheduler := .finished }
  | .collect driver =>
    match s.resultChannel with
    | [] => none
    | result :: rest =>
      some { s with
        resultChannel := rest
        benchResults := s.benchResults ++ [result]
        scheduler := .barrier2 (driver + 1) }
  | .finished => none

/-- Who moves next: the scheduler or the session of slot `i`. -/
inductive Actor where
  | scheduler
  | session (i : Nat)
deriving DecidableEq, Repr

/-- One step of the chosen actor; an actor that cannot move leaves the state as it is. -/
def TestRun.step (config : Testconf) (test : TestCaseConfiguration) (s : TestRun) :
    Actor → TestRun
  | .scheduler => (s.schedulerStep config test).getD s
  | .session i => (s.sessionStep test.Drivers.toNat i).getD s

/-- The execution in which the actors move in the order of `schedule`. Every execution of the
scheduler with its sessions is `run` of some schedule. -/
def TestRun.run (config : Testconf) (test : TestCaseConfiguration) (schedule : List Actor)
    (s : TestRun) : TestRun :=
  schedule.foldl (TestRun.step config test) s

/-- The session has sent `start work` to its driver. -/
def Session.startSent (session : Session) : Prop := "start work" ∈ session.sent

/-- The session has received `preparations done` from its driver. -/
def Session.prepReceived (session : Session) : Prop := "preparations done" ∈ session.received

/-- The session has received `work done` from its driver. -/
def Session.workReceived (session : Session) : Prop := "work done" ∈ session.received

instance (session : Session) : Decidable session.startSent := by
  unfold Session.startSent
  infer_instance

instance (session : Session) : Decidable session.prepReceived := by
  unfold Session.prepReceived
  infer_instance

instance (session : Session) : Decidable session.workReceived := by
  unfold Session.workReceived
  infer_instance

/-- The driver follows the protocol as far as the first barrier is concerned: of the replies
`preparations done` and `work done`, the first one that its session gets to decode is
`preparations done`. -/
def prepFirst : List Reply → Prop
  | [] => True
  | .decodeError _ :: _ => True
  | .message response :: rest =>
    if response.Message = "preparations done" then True
    else if response.Message = "work done" then False
    else prepFirst rest

/-- Whether the scheduler has left the loop that waits for the first barrier. -/
def SchedulerPC.pastBarrier : SchedulerPC → Bool
  | .stage _ => false
  | .barrier1 _ => false
  | _ => true

/-- The number of signals the scheduler has taken from `doneChannel` while it waits for the
first barrier. -/
def SchedulerPC.taken : SchedulerPC → Nat
  | .barrier1 driver => driver
  | _ => 0

/-- The number of sessions the scheduler has started: the loop variable while it stages,
all `drivers` afterwards. -/
def SchedulerPC.staged (drivers : Nat) : SchedulerPC → Nat
  | .stage driver => driver
  | _ => drivers

/-- A session stands at most one signal ahead of the continue signals it has received, and
only at the places that follow a send on `doneChannel`. -/
def SessionPC.slack : SessionPC → Nat
  | .awaitContinue => 1
  | .sendResult => 1
  | .closeAfterWork => 1
  | .returned => 1
  | _ => 0

/-- What holds of every session at every moment. -/
structure SessionInv (session : Session) : Prop where
  start : session.startSent → 1 ≤ session.continues
  atStart : session.pc = .encodeStart → 1 ≤ session.continues
  signalled : 1 ≤ session.signals → session.prepReceived ∨ session.workReceived
  atPrep : session.pc = .signalPrep → session.prepReceived
  atWork : session.pc = .signalWork → session.workReceived
  bound : session.signals ≤ session.continues + session.pc.slack

/-- What holds of the scheduler and its sessions at every moment of a test with `drivers`
drivers: until the first barrier is passed no continue signal exists and every signal sent
is queued or taken; once it is passed every session has signalled. -/
structure BarrierInv (drivers : Nat) (s : TestRun) : Prop where
  count : s.sessions.length = s.scheduler.staged drivers
  stageLe : ∀ driver, s.scheduler = .stage driver → driver ≤ drivers
  sessions : ∀ session ∈ s.sessions, SessionInv session
  before : s.scheduler.pastBarrier = false →
    s.continueDrivers = 0 ∧ (∀ session ∈ s.sessions, session.continues = 0)
      ∧ (s.sessions.map Session.signals).sum = s.doneChannel + s.scheduler.taken
  after : s.scheduler.pastBarrier = true → ∀ session ∈ s.sessions, 1 ≤ session.signals

/-- What holds at every moment when every driver follows the protocol: a session that has
not received `preparations done` has not received `work done` either, and will not while it
still reads replies. -/
structure ProtocolInv (s : TestRun) : Prop where
  ready : ∀ conn ∈ s.readyDrivers, prepFirst conn.replies
  sessions : ∀ session ∈ s.sessions, ¬ session.prepReceived →
    ¬ session.workReceived
      ∧ (session.pc = .encodeInit ∨ session.pc = .decode
        ∨ session.pc = .closeAfterError ∨ session.pc = .returned)
      ∧ (session.pc = .encodeInit ∨ session.pc = .decode → prepFirst session.replies)

/-! ## driver/s3.go and the methods of the work items -/

/-- The two S3 clients of `s3.go`: `svc`, whose traffic is measured, and `housekeepingSvc`. -/
inductive S3Client where
  | svc
  | housekeepingSvc
deriving DecidableEq, Repr

/-- A call of one of the helpers of `s3.go`, with the arguments the work items pass. The
object content `randomData[:op.ObjectSize]` is left out; the slice is taken to be within
bounds (the buffer is allocated by the dispatcher for the largest object). -/
inductive S3Call where
  | putObject (service : S3Client) (objectName bucket : String) (objectSize : Int)
  | putObjectMPU (service : S3Client) (objectName bucket : String) (partSize : Nat)
      (concurrency : Int)
  | listObjects (service : S3Client) (keyPrefix bucket : String)
  | getObject (service : S3Client) (objectName bucket : String) (partSize : Nat)
      (concurrency : Int)
  | deleteObject (service : S3Client) (objectName bucket : String)
deriving DecidableEq, Repr

/-- The client a call goes through. -/
def S3Call.service : S3Call → S3Client
  | .putObject service _ _ _ => service
  | .putObjectMPU service _ _ _ _ => service
  | .listObjects service _ _ => service
  | .getObject service _ _ _ _ => service
  | .deleteObject service _ _ => service

/-- The object store as the driver sees it: the error a call returns and the milliseconds it
takes, both of which may depend on the calls issued before. -/
structure S3Env where
  respond : List S3Call → S3Call → Option String
  elapsedMs : List S3Call → S3Call → Int

/-- One child of a counter vector with the labels `testName` and `method`. -/
structure CounterChild where
  testName : String
  method : String
  value : ℚ
deriving DecidableEq

/-- One child of the histogram vector `promLatency`: sum and number of its observations. -/
structure HistogramChild where
  testName : String
  method : String
  sampleSum : ℚ
  sampleCount : Nat
deriving DecidableEq

/-- The measured metrics of `prometheus.go`. -/
structure Registry where
  promFinishedOps : List CounterChild
  promFailedOps : List CounterChild
  promLatency : List HistogramChild
  promUploadedBytes : List CounterChild
  promDownloadedBytes : List CounterChild
deriving DecidableEq

/-- The call `vec.WithLabelValues(testName, method).Add(v)`: the child with these labels,
created at 0 when it does not exist yet, is increased by `v`. -/
def counterAdd (testName method : String) (v : ℚ) : List CounterChild → List CounterChild
  | [] => [{ testName := testName, method := method, value := v }]
  | child :: rest =>
    if child.testName = testName ∧ child.method = method then
      { child with value := child.value + v } :: rest
    else child :: counterAdd testName method v rest

/-- The call `vec.WithLabelValues(testName, method).Observe(v)`. -/
def histogramObserve (testName method : String) (v : ℚ) :
    List HistogramChild → List HistogramChild
  | [] => [{ testName := testName, method := method, sampleSum := v, sampleCount := 1 }]
  | child :: rest =>
    if child.testName = testName ∧ child.method = method then
      { child with sampleSum := child.sampleSum + v, sampleCount := child.sampleCount + 1 }
        :: rest
    else child :: histogramObserve testName method v rest

/-- The value of the child with the given labels; 0 when there is none. -/
def counterValue (vec : List CounterChild) (testName method : String) : ℚ :=
  match vec.find? (fun child => child.testName = testName ∧ child.method = method) with
  | some child => child.value
  | none => 0

/-- The sum of a counter over all methods of one test. -/
def counterTotal (vec : List CounterChild) (testName : String) : ℚ :=
  ((vec.filter (fun child => child.testName = testName)).map CounterChild.value).sum

/-- The number of latency observations of one test, over all methods. -/
def observationTotal (vec : List HistogramChild) (testName : String) : Nat :=
  ((vec.filter (fun child => child.testName = testName)).map HistogramChild.sampleCount).sum

/-- The number of latency observations under one pair of labels. -/
def observationCount (vec : List HistogramChild) (testName method : String) : Nat :=
  match vec.find? (fun child => child.testName = testName ∧ child.method = method) with
  | some child => child.sampleCount
  | none => 0

/-- The quantity `Operations + FailedOperations` of one test. -/
def Registry.operations (registry : Registry) (testName : String) : ℚ :=
  counterTotal registry.promFinishedOps testName + counterTotal registry.promFailedOps testName

/-- The state a work item acts on: the measured metrics and the S3 calls issued so far, oldest
first. -/
structure DriverState where
  registry : Registry
  calls : List S3Call

/-- Issue one call: its error, its duration in milliseconds and the state with the call
recorded. -/
def DriverState.issue (env : S3Env) (call : S3Call) (state : DriverState) :
    Option String × Int × DriverState :=
  (env.respond state.calls call, env.elapsedMs state.calls call,
    { state with calls := state.calls ++ [call] })

/-- The constants `s3manager.DefaultDownloadPartSize` and `s3manager.DefaultUploadPartSize`
of the AWS SDK: 5 MiB. -/
def DefaultDownloadPartSize : Nat := 1024 * 1024 * 5
def DefaultUploadPartSize : Nat := 1024 * 1024 * 5

/-- The constants `s3manager.DefaultDownloadConcurrency` and
`s3manager.DefaultUploadConcurrency` of the AWS SDK. -/
def DefaultDownloadConcurrency : Int := 5
def DefaultUploadConcurrency : Int := 5

/-- The tail of every `Do`: one latency observation under the method label, one increment of
the failed or of the finished counter, and the bytes added to the given byte counter. -/
def recordOperation (testName method : String) (durationMs : Int) (err : Option String)
    (registry : Registry) : Registry :=
  let registry := { registry with
    promLatency := histogramObserve testName method (durationMs : ℚ) registry.promLatency }
  match err with
  | some _ => { registry with
      promFailedOps := counterAdd testName method 1 registry.promFailedOps }
  | none => { registry with
      promFinishedOps := counterAdd testName method 1 registry.promFinishedOps }

/-- The seed upload shared by the `Prepare` methods of the read, list and delete operations:
through `housekeepingSvc`, multipart when enabled, with the given defaults for an unset part
size and concurrency. -/
def prepareUpload (env : S3Env) (objectName bucket : String) (objectSize : Nat)
    (mpuEnabled : Bool) (partSize : Nat) (concurrency : Int) (defaultPartSize : Nat)
    (defaultConcurrency : Int) (state : DriverState) : Option String × DriverState :=
  if mpuEnabled then
    let partSize := if partSize = 0 then defaultPartSize else partSize
    let concurrency := if concurrency = 0 then defaultConcurrency else concurrency
    let r := state.issue env
      (.putObjectMPU .housekeepingSvc objectName bucket partSize concurrency)
    (r.1, r.2.2)
  else
    let r := state.issue env
      (.putObject .housekeepingSvc objectName bucket (wrapInt64 (objectSize : Int)))
    (r.1, r.2.2)

/-- The methods `Prepare` of the work items: the returned error and the state afterwards. -/
def WorkItem.Prepare (env : S3Env) (item : WorkItem) (state : DriverState) :
    Option String × DriverState :=
  match item with
  | .ReadOperation op =>
    if op.WorksOnPreexistingObject then (none, state)
    else prepareUpload env op.ObjectName op.Bucket op.ObjectSize op.MPUEnabled op.PartSize
      op.MPUConcurrency DefaultDownloadPartSize DefaultDownloadConcurrency state
  | .WriteOperation _ => (none, state)
  | .ListOperation op =>
    prepareUpload env op.ObjectName op.Bucket op.ObjectSize op.MPUEnabled op.PartSize
      op.MPUConcurrency DefaultUploadPartSize DefaultUploadConcurrency state
  | .DeleteOperation op =>
    prepareUpload env op.ObjectName op.Bucket op.ObjectSize op.MPUEnabled op.PartSize
      op.MPUConcurrency DefaultUploadPartSize DefaultUploadConcurrency state
  | .Stopper => (none, state)

/-- The methods `Do` of the work items: the returned error and the state afterwards. -/
def WorkItem.Do (env : S3Env) (item : WorkItem) (state : DriverState) :
    Option String × DriverState :=
  match item with
  | .ReadOperation op =>
    let partSize := if op.PartSize = 0 then DefaultDownloadPartSize else op.PartSize
    let concurrency :=
      if op.MPUConcurrency = 0 then DefaultDownloadConcurrency else op.MPUConcurrency
    let r := state.issue env (.getObject .svc op.ObjectName op.Bucket partSize concurrency)
    let registry := recordOperation op.TestName "GET" r.2.1 r.1 r.2.2.registry
    (r.1, { r.2.2 with registry := { registry with
      promDownloadedBytes :=
        counterAdd op.TestName "GET" (op.ObjectSize : ℚ) registry.promDownloadedBytes } })
  | .WriteOperation op =>
    let r :=
      if op.MPUEnabled then
        let partSize := if op.PartSize = 0 then DefaultUploadPartSize else op.PartSize
        let concurrency :=
          if op.MPUConcurrency = 0 then DefaultUploadConcurrency else op.MPUConcurrency
        state.issue env (.putObjectMPU .svc op.ObjectName op.Bucket partSize concurrency)
      else
        state.issue env
          (.putObject .svc op.ObjectName op.Bucket (wrapInt64 (op.ObjectSize : Int)))
    let registry := recordOperation op.TestName "PUT" r.2.1 r.1 r.2.2.registry
    (r.1, { r.2.2 with registry := { registry with
      promUploadedBytes :=
        counterAdd op.TestName "PUT" (op.ObjectSize : ℚ) registry.promUploadedBytes } })
  | .ListOperation op =>
    let r := state.issue env (.listObjects .svc op.ObjectName op.Bucket)
    (r.1, { r.2.2 with
      registry := recordOperation op.TestName "LIST" r.2.1 r.1 r.2.2.registry })
  | .DeleteOperation op =>
    let r := state.issue env (.deleteObject .svc op.ObjectName op.Bucket)
    (r.1, { r.2.2 with
      registry := recordOperation op.TestName "DELETE" r.2.1 r.1 r.2.2.registry })
  | .Stopper => (none, state)

/-- The methods `Clean` of the work items: the returned error and the state afterwards. -/
def WorkItem.Clean (env : S3Env) (item : WorkItem) (state : DriverState) :
    Option String × DriverState :=
  match item with
  | .ReadOperation op =>
    if op.WorksOnPreexistingObject then (none, state)
    else
      let r := state.issue env (.deleteObject .housekeepingSvc op.ObjectName op.Bucket)
      (r.1, r.2.2)
  | .WriteOperation op =>
    let r := state.issue env (.deleteObject .housekeepingSvc op.ObjectName op.Bucket)
    (r.1, r.2.2)
  | .ListOperation op =>
    let r := state.issue env (.deleteObject .housekeepingSvc op.ObjectName op.Bucket)
    (r.1, r.2.2)
  | .DeleteOperation _ => (none, state)
  | .Stopper => (none, state)

/-- The test a work item belongs to and the method label its `Do` records under; `none` for
the stopper. -/
def WorkItem.labels : WorkItem → Option (String × String)
  | .ReadOperation op => some (op.TestName, "GET")
  | .WriteOperation op => some (op.TestName, "PUT")
  | .ListOperation op => some (op.TestName, "LIST")
  | .DeleteOperation op => some (op.TestName, "DELETE")
  | .Stopper => none

/-- What one round of the `select` of `DoWork` yields: the work context is done, a work item
is received, or the work channel has been closed (the received item is then `nil`). -/
inductive WorkEvent where
  | contextDone
  | work (item : WorkItem)
  | closed
deriving DecidableEq

/-- How far a worker has come. -/
inductive WorkerOutcome where
  | waiting
  | done
  | panicked
deriving DecidableEq, Repr

/-- DoWork processes the work items until either the time runs out or a stopper is found:
the state reached and whether the worker has signalled `doneChannel` and returned, still
waits for the next event, or has panicked calling `Do` on a `nil` item. Errors of `Do` are
logged and ignored. -/
def DoWork (env : S3Env) : List WorkEvent → DriverState → DriverState × WorkerOutcome
  | [], state => (state, .waiting)
  | .contextDone :: _, state => (state, .done)
  | .closed :: _, state => (state, .panicked)
  | .work .Stopper :: _, state => (state, .done)
  | .work item :: rest, state => DoWork env rest (item.Do env state).2

/-- The work items that `DoWork` dequeues and executes: those received before the context is
done, a stopper is found or the channel is closed. -/
def executedItems : List WorkEvent → List WorkItem
  | [] => []
  | .contextDone :: _ => []
  | .closed :: _ => []
  | .work .Stopper :: _ => []
  | .work item :: rest => item :: executedItems rest

/-! ## The Go standard library: `time.Duration.String` and `time.ParseDuration`

`Duration.MarshalJSON` and `Duration.UnmarshalJSON` of `common/configFile.go` are thin
wrappers around these two library functions and `encoding/json`. The library functions are
embedded from the Go sources (Go 1.17 and later, where `ParseDuration` accumulates in a
`uint64` and accepts the string of the smallest duration). Byte strings are lists of
characters: the functions tell apart only ASCII bytes, and the bytes of a character outside
ASCII (the `µ` of `µs`) are never a digit or a point, so this makes no difference. -/

/-- The byte `byte(digit) + '0'` for a decimal digit. -/
def digitChar (digit : Nat) : Char :=
  match digit with
  | 0 => '0'
  | 1 => '1'
  | 2 => '2'
  | 3 => '3'
  | 4 => '4'
  | 5 => '5'
  | 6 => '6'
  | 7 => '7'
  | 8 => '8'
  | _ => '9'

/-- The value `c - '0'` of a byte with `'0' <= c && c <= '9'`; `none` for any other byte. -/
def charDigit (c : Char) : Option Nat :=
  if c = '0' then some 0
  else if c = '1' then some 1
  else if c = '2' then some 2
  else if c = '3' then some 3
  else if c = '4' then some 4
  else if c = '5' then some 5
  else if c = '6' then some 6
  else if c = '7' then some 7
  else if c = '8' then some 8
  else if c = '9' then some 9
  else none

/-- The loop of `fmtInt` for `v > 0`: the digits of `v` are written in front of `buf`, the
last digit first. `fuel` bounds the number of rounds; `fmtInt` passes `v` itself. -/
def fmtIntLoop : Nat → Nat → List Char → List Char
  | 0, _, buf => buf
  | fuel + 1, v, buf =>
    if v = 0 then buf else fmtIntLoop fuel (v / 10) (digitChar (v % 10) :: buf)

/-- The function `fmtInt` of package `time`: `v` in decimal, written in front of `buf`. -/
def fmtInt (buf : List Char) (v : Nat) : List Char :=
  if v = 0 then '0' :: buf else fmtIntLoop v v buf

/-- The loop of `fmtFrac`: the state is the buffer, the value and the flag `print`. -/
def fmtFracLoop : Nat → Nat → Bool → List Char → List Char × Nat × Bool
  | 0, v, print, buf => (buf, v, print)
  | prec + 1, v, print, buf =>
    let digit := v % 10
    let print := print || digit != 0
    fmtFracLoop prec (v / 10) print (if print then digitChar digit :: buf else buf)

/-- The function `fmtFrac` of package `time`: the fraction of `v / 10 ^ prec` without trailing
zeros (and without the point when it is 0), written in front of `buf`, and `v / 10 ^ prec`. -/
def fmtFrac (buf : List Char) (v : Nat) (prec : Nat) : List Char × Nat :=
  let r := fmtFracLoop prec v false buf
  (if r.2.2 then '.' :: r.1 else r.1, r.2.1)

/-- The method `Duration.format` as a list of characters: the duration in the form
`72h3m0.5s`, with the units `ns`, `µs`, `ms` below one second. -/
def durationFormat (d : Int) : List Char :=
  let neg := d < 0
  let u := if neg then (-d).toNat else d.toNat
  let buf :=
    if u < 1000000000 then
      if u = 0 then ['0', 's']
      else if u < 1000 then
        let r := fmtFrac ['n', 's'] u 0
        fmtInt r.1 r.2
      else if u < 1000000 then
        let r := fmtFrac ['µ', 's'] u 3
        fmtInt r.1 r.2
      else
        let r := fmtFrac ['m', 's'] u 6
        fmtInt r.1 r.2
    else
      let r := fmtFrac ['s'] u 9
      let buf := fmtInt r.1 (r.2 % 60)
      let u := r.2 / 60
      if u > 0 then
        let buf := fmtInt ('m' :: buf) (u % 60)
        let u := u / 60
        if u > 0 then fmtInt ('h' :: buf) u else buf
      else buf
  if neg then '-' :: buf else buf

/-- The method `time.Duration.String`. -/
def durationString (d : Int) : String := String.mk (durationFormat d)

/-- The loop of `leadingInt`: the leading digits of `s` are accumulated onto `x`; `none` is
the overflow error. -/
def leadingIntLoop (x : Nat) : List Char → Option (Nat × List Char)
  | [] => some (x, [])
  | c :: rest =>
    match charDigit c with
    | none => some (x, c :: rest)
    | some digit =>
      if x > 2 ^ 63 / 10 then none
      else if x * 10 + digit > 2 ^ 63 then none
      else leadingIntLoop (x * 10 + digit) rest

/-- The function `leadingInt` of package `time`. -/
def leadingInt (s : List Char) : Option (Nat × List Char) := leadingIntLoop 0 s

/-- The loop of `leadingFraction`: the state is the value, the scale (a power of ten) and the
flag `overflow`. -/
def leadingFractionLoop (x scale : Nat) (overflow : Bool) : List Char → Nat × Nat × List Char
  | [] => (x, scale, [])
  | c :: rest =>
    match charDigit c with
    | none => (x, scale, c :: rest)
    | some digit =>
      if overflow then leadingFractionLoop x scale overflow rest
      else if x > (2 ^ 63 - 1) / 10 then leadingFractionLoop x scale true rest
      else if x * 10 + digit > 2 ^ 63 then leadingFractionLoop x scale true rest
      else leadingFractionLoop (x * 10 + digit) (scale * 10) overflow rest

/-- The function `leadingFraction` of package `time`. -/
def leadingFraction (s : List Char) : Nat × Nat × List Char := leadingFractionLoop 0 1 false s

/-- The table `unitMap` of package `time`. -/
def unitMap (u : List Char) : Option Nat :=
  if u = ['n', 's'] then some 1
  else if u = ['u', 's'] then some 1000
  else if u = ['µ', 's'] then some 1000
  else if u = ['μ', 's'] then some 1000
  else if u = ['m', 's'] then some 1000000
  else if u = ['s'] then some 1000000000
  else if u = ['m'] then some 60000000000
  else if u = ['h'] then some 3600000000000
  else none

/-- Whether a byte ends a unit: it is `.` or a digit. -/
def endsUnit (c : Char) : Bool := c = '.' || (charDigit c).isSome

/-- The step `Consume (\.[0-9]*)?` of the loop of `ParseDuration`: the fraction `f`, its
scale, the rest of the input, and the flag `post` (whether a digit was read). -/
def parseDurationFraction (s1 : List Char) : Nat × Nat × List Char × Bool :=
  match s1 with
  | '.' :: s2 =>
    let r := leadingFraction s2
    (r.1, r.2.1, r.2.2, decide (s2.length ≠ r.2.2.length))
  | _ => (0, 1, s1, false)

/-- The loop `for s != ""` of `ParseDuration`, one round per number with its unit; `d` is
the sum so far. The product `float64(f) * (float64(unit) / scale)` is taken exactly and cut
to an integer, which is what the floating-point computation yields whenever the scale divides
the unit. The quoted input is left out of the error messages. -/
def parseDurationLoop : Nat → Nat → List Char → Except String Nat
  | 0, _, _ => .error "time: invalid duration"
  | fuel + 1, d, s =>
    match s with
    | [] => .ok d
    | c :: _ =>
      if ¬ (c = '.' ∨ (charDigit c).isSome) then .error "time: invalid duration"
      else
        match leadingInt s with
        | none => .error "time: invalid duration"
        | some (v, s1) =>
          let pre := s.length ≠ s1.length
          let frac := parseDurationFraction s1
          let f := frac.1
          let scale := frac.2.1
          let s3 := frac.2.2.1
          let post := frac.2.2.2
          if ¬ pre ∧ ¬ post then .error "time: invalid duration"
          else
            let u := s3.takeWhile (fun c => ! endsUnit c)
            let s4 := s3.dropWhile (fun c => ! endsUnit c)
            if u = [] then .error "time: missing unit in duration"
            else
              match unitMap u with
              | none => .error "time: unknown unit in duration"
              | some unit =>
                if v > 2 ^ 63 / unit then .error "time: invalid duration"
                else
                  let v := v * unit
                  let v := if f > 0 then v + f * unit / scale else v
                  if f > 0 ∧ v > 2 ^ 63 then .error "time: invalid duration"
                  else
                    let d := (d + v) % 2 ^ 64
                    if d > 2 ^ 63 then .error "time: invalid duration"
                    else parseDurationLoop fuel d s4

/-- The function `time.ParseDuration`. -/
def ParseDuration (s : String) : Except String Int :=
  let chars := s.data
  let neg := chars.head? = some '-'
  let chars :=
    match chars with
    | '-' :: rest => rest
    | '+' :: rest => rest
    | _ => chars
  if chars = ['0'] then .ok 0
  else if chars = [] then .error "time: invalid duration"
  else
    match parseDurationLoop (chars.length + 1) 0 chars with
    | .error err => .error err
    | .ok d =>
      if neg then .ok (wrapInt64 (-(wrapInt64 (d : Int))))
      else if d > 2 ^ 63 - 1 then .error "time: invalid duration"
      else .ok (d : Int)

/-! ## common/configFile.go: durations in JSON -/

/-- What `json.Unmarshal` stores into an `interface{}`, as far as `UnmarshalJSON` tells the
cases apart: a number, a string, or anything else. -/
inductive JsonValue where
  | number (value : F64)
  | string (value : String)
  | other
deriving DecidableEq

/-- A character that `json.Marshal` copies into a string literal as it is: it is not a
quote, a backslash, a control character, one of `<`, `>`, `&`, or a line or paragraph
separator. -/
def jsonCopied (c : Char) : Bool :=
  c != '"' && c != '\\' && decide (32 ≤ c.toNat) && c != '<' && c != '>' && c != '&'
    && decide (c.toNat ≠ 8232) && decide (c.toNat ≠ 8233)

/-- A character that may stand for itself in a JSON string literal. -/
def jsonLiteral (c : Char) : Bool := c != '"' && c != '\\' && decide (32 ≤ c.toNat)

/-- The call `json.Marshal(s)` for a string: the string between quotes when no character has
to be escaped; the encoding of the other strings is the argument `escape`. -/
def jsonMarshalString (escape : String → String) (s : String) : String :=
  if s.data.all jsonCopied then String.mk ('"' :: (s.data ++ ['"'])) else escape s

/-- The call `json.Unmarshal(b, &v)` for `v interface{}`: a document that is one string
literal without escape sequences yields its content; the decoding of every other document is
the argument `decodeOther`. -/
def jsonUnmarshal (decodeOther : String → Except String JsonValue) (b : String) :
    Except String JsonValue :=
  match b.data with
  | '"' :: rest =>
    match rest.reverse with
    | '"' :: body =>
      if body.all jsonLiteral then .ok (.string (String.mk body.reverse)) else decodeOther b
    | _ => decodeOther b
  | _ => decodeOther b

/-- The method `Duration.MarshalJSON`; `json.Marshal` of a string returns no error. -/
def Duration.MarshalJSON (escape : String → String) (d : Int) : String :=
  jsonMarshalString escape (durationString d)

/-- The method `Duration.UnmarshalJSON`: the returned error and the receiver `*d` after the
call. -/
def Duration.UnmarshalJSON (decodeOther : String → Except String JsonValue) (d : Int)
    (b : String) : Option String × Int :=
  match jsonUnmarshal decodeOther b with
  | .error err => (some err, d)
  | .ok (.number value) => (none, wrapInt64 value.toInt)
  | .ok (.string value) =>
    match ParseDuration value with
    | .error err => (some err, d)
    | .ok tmp => (none, tmp)
  | .ok .other => (some "invalid duration", d)

/-! ## driver/s3.go: createBucket -/

/-- A non-nil `error` value as far as `createBucket` tells them apart: a value whose dynamic
type implements `awserr.Error`, with its code and message, or a value of any other type. -/
inductive ServiceError where
  | aws (code message : String)
  | foreign (text : String)
deriving DecidableEq, Repr

/-- The constant `s3.ErrCodeBucketAlreadyExists` of the AWS SDK. -/
def ErrCodeBucketAlreadyExists : String := "BucketAlreadyExists"

/-- The type assertion `err.(awserr.Error)` in its two-value form: the asserted value (its
code and message) and the flag `ok`. A failed assertion yields the nil interface, which is
`none`. -/
def ServiceError.assertAwsError : ServiceError → Option (String × String) × Bool
  | .aws code message => (some (code, message), true)
  | .foreign _ => (none, false)

/-- The function `createBucket`. The argument `service` is the error that
`service.CreateBucket` returns for a bucket name (`none` is `nil`). The flag of the type
assertion is discarded (`aerr, _ :=`), and `aerr.Code()` on the nil interface is a run-time
panic, the result `none`. The log line written before an error is returned is left out. -/
def createBucket (service : String → Option ServiceError) (bucket : String) :
    Option (Option ServiceError) :=
  match service bucket with
  | none => some none
  | some err =>
    match err.assertAwsError.1 with
    | none => none
    | some (code, _) =>
      if code = ErrCodeBucketAlreadyExists then some none
      else some (some err)

/-! ## Concrete inputs -/

/-- A metric of the test `example` and the given method. -/
def exampleMetric (method : String) (counter : ℚ) (sampleSum : ℚ) (sampleCount : Nat) :
    Metric where
  Label := [⟨"method", method⟩, ⟨"testName", "example"⟩, ⟨"version", "0.0.1"⟩]
  Counter := .finite counter
  Histogram := { SampleSum := .finite sampleSum, SampleCount := sampleCount }

/-- A metric of another test, `other`. -/
def otherMetric (counter : ℚ) (sampleSum : ℚ) (sampleCount : Nat) : Metric where
  Label := [⟨"method", "GET"⟩, ⟨"testName", "other"⟩, ⟨"version", "0.0.1"⟩]
  Counter := .finite counter
  Histogram := { SampleSum := .finite sampleSum, SampleCount := sampleCount }

/-- Gathered metrics after 3 finished and 1 failed operation of the test `example`. -/
def exampleMetrics : List MetricFamily :=
  [ { Name := "gosbench_downloaded_bytes",
      Metric := [exampleMetric "GET" 8192 0 0, otherMetric 100 0 0] },
    { Name := "gosbench_failed_ops", Metric := [exampleMetric "PUT" 1 0 0] },
    { Name := "gosbench_finished_ops",
      Metric := [exampleMetric "GET" 2 0 0, otherMetric 7 0 0, exampleMetric "PUT" 1 0 0] },
    { Name := "gosbench_ops_latency",
      Metric := [exampleMetric "GET" 0 30 2, otherMetric 0 500 7, exampleMetric "PUT" 0 50 2] },
    { Name := "gosbench_uploaded_bytes", Metric := [exampleMetric "PUT" 8192 0 0] } ]

/-- The rounding that changes no value. It meets the contract `Float64Rounding`, as the
rounding of `float64` does. -/
def exactRounding : Float64Rounding where
  round := fun q => q
  mono := fun _ _ h => h
  exact := fun _ _ _ _ _ => rfl

/-- The results of two drivers. -/
def exampleResults : List BenchmarkResult :=
  [ { BenchmarkResult.zero with
      Host := "driver-0", TestName := "example", OperationName := "read(3)-write(1)",
      ObjectSize := .finite 4096, Operations := .finite 3, FailedOperations := .finite 1,
      OpsPerSecond := .finite 2, Workers := 4, Bytes := .finite 16384,
      Bandwidth := .finite 8192, LatencyAvg := .finite 20, SuccessRatio := .finite (3 / 4) },
    { BenchmarkResult.zero with
      Host := "driver-1", TestName := "example", OperationName := "read(3)-write(1)",
      ObjectSize := .finite 4096, Operations := .finite 5, FailedOperations := .finite 0,
      OpsPerSecond := .finite 3, Workers := 4, Bytes := .finite 20480,
      Bandwidth := .finite 10240, LatencyAvg := .finite 10, SuccessRatio := .finite 1 } ]

/-- The weights `read_weight = 3`, `write_weight = 1`. -/
def readWriteWeights : List (String × Nat) := [("read", 3), ("write", 1)]

/-- A queue with three counters, the smallest in the middle. -/
def exampleWorkqueue : Workqueue ℚ where
  OperationValues := [⟨"read", 2⟩, ⟨"write", 1⟩, ⟨"list", 3⟩]
  Queue := []

/-- The scenario `existing_read_weight = 5` with `bucket_prefix = ""`. -/
def existingReadNoPrefixTestCase : TestCaseConfiguration :=
  { exampleTestCase with ExistingReadWeight := 5, BucketPrefix := "" }

/-- A test case whose only non-zero weight is negative. -/
def negativeWeightTestCase : TestCaseConfiguration :=
  { exampleTestCase with ReadWeight := -1, WriteWeight := 0 }

/-- Two sets of credentials. -/
def exampleCredentials : List S3Configuration :=
  [ { AccessKey := "key-a", SecretKey := "secret-a", Region := "eu", Endpoint := "http://a",
      Timeout := 0, SkipSSLVerify := false, ProxyHost := "" },
    { AccessKey := "key-b", SecretKey := "secret-b", Region := "eu", Endpoint := "http://b",
      Timeout := 0, SkipSSLVerify := false, ProxyHost := "" } ]

/-- A configuration with two sets of credentials and one test for three drivers. -/
def exampleTestconf : Testconf where
  S3Config := exampleCredentials
  GrafanaConfig := none
  Tests := [{ exampleTestCase with Drivers := 3 }]

/-- A connection whose driver sends nothing. -/
def silentConn (remoteAddr : String) : Conn := { remoteAddr := remoteAddr, replies := [] }

/-- A reply with the given `Message` and an empty result. -/
def replyMessage (message : String) : Reply :=
  .message { Message := message, Config := none, BenchResult := BenchmarkResult.zero }

/-- A configuration for a session of the example test. -/
def exampleDriverConf : DriverConf where
  S3Config :=
    { AccessKey := "key-a", SecretKey := "secret-a", Region := "eu", Endpoint := "http://a",
      Timeout := 0, SkipSSLVerify := false, ProxyHost := "" }
  Test := exampleTestCase
  DriverID := "d0"

/-- A session whose driver first sends a message that is not part of the protocol and then
`preparations done`. -/
def chattySession : Session :=
  newSession { remoteAddr := "a", replies := [replyMessage "hello", replyMessage "preparations done"] }
    exampleDriverConf

/-- A session whose driver answers `init` with `work done`. -/
def hastySession : Session :=
  newSession { remoteAddr := "a", replies := [replyMessage "work done"] } exampleDriverConf

/-- A connection whose driver sends a reply that cannot be decoded and then
`preparations done`. -/
def garbledConn : Conn where
  remoteAddr := "a"
  replies := [.decodeError "invalid character", replyMessage "preparations done"]

/-- A session that is about to decode a reply that cannot be decoded. -/
def garbledSession : Session :=
  { (newSession garbledConn exampleDriverConf) with pc := .decode }

/-- The example test with two drivers. -/
def twoDriverTest : TestCaseConfiguration := { exampleTestCase with Drivers := 2 }

/-- Two ready drivers: the first answers `preparations done`, the second `work done`. -/
def unevenDrivers : List Conn :=
  [ { remoteAddr := "a", replies := [replyMessage "preparations done"] },
    { remoteAddr := "b", replies := [replyMessage "work done"] } ]

/-- A schedule in which both sessions signal, the scheduler passes the first barrier and
releases one session, which sends `start work`. -/
def unevenSchedule : List Actor :=
  [ .scheduler, .scheduler, .scheduler,
    .session 0, .session 0, .session 0,
    .session 1, .session 1, .session 1,
    .scheduler, .scheduler, .scheduler, .scheduler, .scheduler,
    .session 0, .session 0 ]

/-- An object store in which every `PUT` fails and every other call succeeds after 12 ms. -/
def exampleS3Env : S3Env where
  respond := fun _ call =>
    match call with
    | .putObject _ _ _ _ => some "AccessDenied"
    | .putObjectMPU _ _ _ _ _ => some "AccessDenied"
    | _ => none
  elapsedMs := fun _ _ => 12

/-- A driver before its first operation. -/
def emptyDriverState : DriverState where
  registry :=
    { promFinishedOps := [], promFailedOps := [], promLatency := [], promUploadedBytes := [],
      promDownloadedBytes := [] }
  calls := []

/-- A write of 4096 bytes for the test `example`. -/
def exampleWrite : WorkItem :=
  .WriteOperation
    { TestName := "example", Bucket := "gosbench-0", ObjectName := "obj0", ObjectSize := 4096,
      MPUEnabled := false, PartSize := 0, MPUConcurrency := 0 }

/-- A read of a preexisting object of the test `example`. -/
def exampleRead : WorkItem :=
  .ReadOperation
    { TestName := "example", Bucket := "gosbench-0", ObjectName := "obj1", ObjectSize := 4096,
      WorksOnPreexistingObject := true, MPUEnabled := false, PartSize := 0,
      MPUConcurrency := 0 }

/-- A worker receives a write, a read, the stopper and then a read that it never executes. -/
def exampleWorkEvents : List WorkEvent :=
  [.work exampleWrite, .work exampleRead, .work .Stopper, .work exampleRead]

/-- An object store whose `CreateBucket` fails with an error that is not an `awserr.Error`,
such as the error of a custom request handler or a wrapped transport error. -/
def brokenTransport : String → Option ServiceError :=
  fun _ => some (.foreign "dial tcp: connection refused")

/-- The test case `exampleTestCase` with multipart disabled and both multipart units unset. -/
def unsetMultipartUnits : TestCaseConfiguration :=
  { exampleTestCase with
    Multipart :=
      { WriteMPUEnabled := false, WritePartSize := 0, WriteConcurrency := 0, WriteUnit := "",
        ReadMPUEnabled := false, ReadPartSize := 0, ReadConcurrency := 0, ReadUnit := "" } }

/-- A queue in which the key `read` occurs twice. -/
def repeatedKeyQueue : Workqueue ℚ where
  OperationValues := [⟨"write", 1⟩, ⟨"read", 2⟩, ⟨"list", 3⟩, ⟨"read", 4⟩]
  Queue := []

/-- A test case with objects of 16777216 TB: the size in bytes is 2^64, which is 0 in a
`uint64`. -/
def overflowingSizeTestCase : TestCaseConfiguration :=
  { exampleTestCase with
    Objects := { exampleTestCase.Objects with SizeMin := 16777216, SizeMax := 16777216,
                                              Unit := "TB" } }

/-- A test case with objects of exactly 4 KB whose size is drawn at random, and with 10 to 20
objects per bucket counted sequentially. -/
def fixedSizeRandomTestCase : TestCaseConfiguration :=
  { exampleTestCase with
    Objects := { exampleTestCase.Objects with
      SizeMin := 4, SizeMax := 4, SizeDistribution := "random",
      NumberMin := 10, NumberMax := 20, NumberDistribution := "sequential" } }

/-! ## Theorems -/

theorem getByteMultiplier_ok_pow (unit : String) (m : Nat)
    (h : getByteMultiplier unit = .ok m) : ∃ k, k ≤ 4 ∧ m = 1024 ^ k := by
  unfold getByteMultiplier at h
  split at h <;> simp [BYTE, KILOBYTE, MEGABYTE, GIGABYTE, TERABYTE] at h
  · exact ⟨0, by omega, by omega⟩
  · exact ⟨1, by omega, by omega⟩
  · exact ⟨1, by omega, by omega⟩
  · exact ⟨2, by omega, by omega⟩
  · exact ⟨2, by omega, by omega⟩
  · exact ⟨3, by omega, by omega⟩
  · exact ⟨3, by omega, by omega⟩
  · exact ⟨4, by omega, by omega⟩
  · exact ⟨4, by omega, by omega⟩

theorem getByteMultiplier_spec (unit : String) (k : Nat)
    (h : specUnitExponent unit = some k) : getByteMultiplier unit = .ok (1024 ^ k) := by
  unfold specUnitExponent at h
  split_ifs at h with h0 h1 h2 h3 h4 <;> simp at h <;> subst h
  · subst h0; rfl
  · subst h1; rfl
  · subst h2; rfl
  · subst h3; rfl
  · subst h4; rfl

/-- An accepted call has passed every guard, parsed the three units and stored the multiplied
sizes. -/
theorem checkTestCase_accept (tc : TestCaseConfiguration) (h : (checkTestCase tc).1 = none) :
    ¬ (tc.Runtime = 0 ∧ tc.OpsDeadline = 0)
    ∧ ¬ (tc.ReadWeight = 0 ∧ tc.WriteWeight = 0 ∧ tc.ListWeight = 0
      ∧ tc.DeleteWeight = 0 ∧ tc.ExistingReadWeight = 0)
    ∧ ¬ (tc.ExistingReadWeight ≠ 0 ∧ tc.BucketPrefix = "")
    ∧ tc.Buckets.NumberMin ≠ 0 ∧ tc.Objects.SizeMin ≠ 0 ∧ tc.Objects.SizeMax ≠ 0
    ∧ tc.Objects.NumberMin ≠ 0
    ∧ checkDistribution tc.Objects.SizeDistribution "Object size_distribution" = none
    ∧ checkDistribution tc.Objects.NumberDistribution "Object number_distribution" = none
    ∧ checkDistribution tc.Buckets.NumberDistribution "Bucket number_distribution" = none
    ∧ tc.Objects.Unit ≠ ""
    ∧ ∃ m mw mr, getByteMultiplier tc.Objects.Unit = .ok m
      ∧ getByteMultiplier tc.Multipart.WriteUnit = .ok mw
      ∧ getByteMultiplier tc.Multipart.ReadUnit = .ok mr
      ∧ (checkTestCase tc).2 =
        { tc with
          Objects := { tc.Objects with
            SizeMin := mulUint64 tc.Objects.SizeMin m
            SizeMax := mulUint64 tc.Objects.SizeMax m }
          Multipart := { tc.Multipart with
            WritePartSize := mulUint64 tc.Multipart.WritePartSize mw
            ReadPartSize := mulUint64 tc.Multipart.ReadPartSize mr } } := by
  unfold checkTestCase at h ⊢
  by_cases c1 : tc.Runtime = 0 ∧ tc.OpsDeadline = 0
  · rw [if_pos c1] at h; exact absurd h (Option.some_ne_none _)
  rw [if_neg c1] at h ⊢
  by_cases c2 : tc.ReadWeight = 0 ∧ tc.WriteWeight = 0 ∧ tc.ListWeight = 0
      ∧ tc.DeleteWeight = 0 ∧ tc.ExistingReadWeight = 0
  · rw [if_pos c2] at h; exact absurd h (Option.some_ne_none _)
  rw [if_neg c2] at h ⊢
  by_cases c3 : tc.ExistingReadWeight ≠ 0 ∧ tc.BucketPrefix = ""
  · rw [if_pos c3] at h; exact absurd h (Option.some_ne_none _)
  rw [if_neg c3] at h ⊢
  by_cases c4 : tc.Buckets.NumberMin = 0
  · rw [if_pos c4] at h; exact absurd h (Option.some_ne_none _)
  rw [if_neg c4] at h ⊢
  by_cases c5 : tc.Objects.SizeMin = 0
  · rw [if_pos c5] at h; exact absurd h (Option.some_ne_none _)
  rw [if_neg c5] at h ⊢
  by_cases c6 : tc.Objects.SizeMax = 0
  · rw [if_pos c6] at h; exact absurd h (Option.some_ne_none _)
  rw [if_neg c6] at h ⊢
  by_cases c7 : tc.Objects.NumberMin = 0
  · rw [if_pos c7] at h; exact absurd h (Option.some_ne_none _)
  rw [if_neg c7] at h ⊢
  generalize checkDistribution tc.Objects.SizeDistribution "Object size_distribution" = d1 at h ⊢
  generalize checkDistribution tc.Objects.NumberDistribution "Object number_distribution" = d2
    at h ⊢
  generalize checkDistribution tc.Buckets.NumberDistribution "Bucket number_distribution" = d3
    at h ⊢
  refine ⟨c1, c2, c3, c4, c5, c6, c7, ?_⟩
  cases d1 with
  | some e => exact absurd h (Option.some_ne_none _)
  | none =>
  cases d2 with
  | some e => exact absurd h (Option.some_ne_none _)
  | none =>
  cases d3 with
  | some e => exact absurd h (Option.some_ne_none _)
  | none =>
  dsimp only at h ⊢
  by_cases c8 : tc.Objects.Unit = ""
  · rw [if_pos c8] at h; exact absurd h (Option.some_ne_none _)
  rw [if_neg c8] at h ⊢
  generalize getByteMultiplier tc.Objects.Unit = r1 at h ⊢
  generalize getByteMultiplier tc.Multipart.WriteUnit = r2 at h ⊢
  generalize getByteMultiplier tc.Multipart.ReadUnit = r3 at h ⊢
  refine ⟨rfl, rfl, rfl, c8, ?_⟩
  cases r1 with
  | error e => exact absurd h (Option.some_ne_none _)
  | ok m =>
  cases r2 with
  | error e => exact absurd h (Option.some_ne_none _)
  | ok mw =>
  cases r3 with
  | error e => exact absurd h (Option.some_ne_none _)
  | ok mr => exact ⟨m, mw, mr, rfl, rfl, rfl, rfl⟩

/-- C1: every accepted test case has its two object sizes and its two part sizes multiplied,
modulo `2 ^ 64`, by `1024 ^ k` for some `k ≤ 4`, and `k` is 0, 1, 2, 3, 4 when the unit is
`B`, `KB`, `MB`, `GB`, `TB` (`Objects.Unit` for the sizes, `WriteUnit` and `ReadUnit` for the
part sizes). -/
theorem checkTestCase_normalizes_sizes (tc : TestCaseConfiguration)
    (h : (checkTestCase tc).1 = none) :
    (∃ ko kw kr, ko ≤ 4 ∧ kw ≤ 4 ∧ kr ≤ 4
      ∧ (checkTestCase tc).2.Objects.SizeMin = (tc.Objects.SizeMin * 1024 ^ ko) % 2 ^ 64
      ∧ (checkTestCase tc).2.Objects.SizeMax = (tc.Objects.SizeMax * 1024 ^ ko) % 2 ^ 64
      ∧ (checkTestCase tc).2.Multipart.WritePartSize
          = (tc.Multipart.WritePartSize * 1024 ^ kw) % 2 ^ 64
      ∧ (checkTestCase tc).2.Multipart.ReadPartSize
          = (tc.Multipart.ReadPartSize * 1024 ^ kr) % 2 ^ 64)
    ∧ (∀ k, specUnitExponent tc.Objects.Unit = some k →
        (checkTestCase tc).2.Objects.SizeMin = (tc.Objects.SizeMin * 1024 ^ k) % 2 ^ 64
        ∧ (checkTestCase tc).2.Objects.SizeMax = (tc.Objects.SizeMax * 1024 ^ k) % 2 ^ 64)
    ∧ (∀ k, specUnitExponent tc.Multipart.WriteUnit = some k →
        (checkTestCase tc).2.Multipart.WritePartSize
          = (tc.Multipart.WritePartSize * 1024 ^ k) % 2 ^ 64)
    ∧ (∀ k, specUnitExponent tc.Multipart.ReadUnit = some k →
        (checkTestCase tc).2.Multipart.ReadPartSize
          = (tc.Multipart.ReadPartSize * 1024 ^ k) % 2 ^ 64) := by
  obtain ⟨-, -, -, -, -, -, -, -, -, -, -, m, mw, mr, hm, hmw, hmr, hres⟩ :=
    checkTestCase_accept tc h
  rw [hres]
  refine ⟨?_, ?_, ?_, ?_⟩
  · obtain ⟨ko, hko, rfl⟩ := getByteMultiplier_ok_pow _ _ hm
    obtain ⟨kw, hkw, rfl⟩ := getByteMultiplier_ok_pow _ _ hmw
    obtain ⟨kr, hkr, rfl⟩ := getByteMultiplier_ok_pow _ _ hmr
    exact ⟨ko, kw, kr, hko, hkw, hkr, rfl, rfl, rfl, rfl⟩
  · intro k hk
    rw [getByteMultiplier_spec _ k hk] at hm
    cases hm
    exact ⟨rfl, rfl⟩
  · intro k hk
    rw [getByteMultiplier_spec _ k hk] at hmw
    cases hmw
    rfl
  · intro k hk
    rw [getByteMultiplier_spec _ k hk] at hmr
    cases hmr
    rfl

/-- Witness for C1: `size_min = 4` with unit `KB` is accepted and stored as 4096. -/
theorem checkTestCase_normalizes_sizes_witness :
    (checkTestCase exampleTestCase).1 = none
    ∧ (checkTestCase exampleTestCase).2.Objects.SizeMin = 4096 :=
  ⟨rfl, ((checkTestCase_normalizes_sizes exampleTestCase rfl).2.1 1 rfl).1⟩

/-- C4: a test case with neither a runtime nor an operation budget is rejected, and so is a
test case with a positive existing-read weight and an empty bucket prefix, whatever its other
fields are. -/
theorem checkTestCase_rejects (tc : TestCaseConfiguration)
    (h : (tc.Runtime = 0 ∧ tc.OpsDeadline = 0)
      ∨ (0 < tc.ExistingReadWeight ∧ tc.BucketPrefix = "")) :
    ∃ err, (checkTestCase tc).1 = some err := by
  unfold checkTestCase
  by_cases c1 : tc.Runtime = 0 ∧ tc.OpsDeadline = 0
  · rw [if_pos c1]; exact ⟨_, rfl⟩
  rw [if_neg c1]
  by_cases c2 : tc.ReadWeight = 0 ∧ tc.WriteWeight = 0 ∧ tc.ListWeight = 0
      ∧ tc.DeleteWeight = 0 ∧ tc.ExistingReadWeight = 0
  · rw [if_pos c2]; exact ⟨_, rfl⟩
  rw [if_neg c2]
  rcases h with h | ⟨hw, hp⟩
  · exact absurd h c1
  · rw [if_pos ⟨by omega, hp⟩]; exact ⟨_, rfl⟩

/-- Witness for C4: `existing_read_weight = 5` with an empty bucket prefix is rejected. -/
theorem checkTestCase_rejects_witness :
    ∃ err, (checkTestCase existingReadNoPrefixTestCase).1 = some err :=
  checkTestCase_rejects existingReadNoPrefixTestCase (Or.inr ⟨by decide, rfl⟩)

/-- C5 as stated fails: a test case whose read weight is -1 and whose other weights are 0 is
accepted, although no weight is positive and one is negative. -/
theorem checkTestCase_accepts_negative_weight :
    (checkTestCase negativeWeightTestCase).1 = none
    ∧ ¬ ((0 ≤ negativeWeightTestCase.ReadWeight ∧ 0 ≤ negativeWeightTestCase.ExistingReadWeight
          ∧ 0 ≤ negativeWeightTestCase.WriteWeight ∧ 0 ≤ negativeWeightTestCase.ListWeight
          ∧ 0 ≤ negativeWeightTestCase.DeleteWeight)
        ∧ (0 < negativeWeightTestCase.ReadWeight ∨ 0 < negativeWeightTestCase.ExistingReadWeight
          ∨ 0 < negativeWeightTestCase.WriteWeight ∨ 0 < negativeWeightTestCase.ListWeight
          ∨ 0 < negativeWeightTestCase.DeleteWeight)) := by
  refine ⟨rfl, ?_⟩
  decide

/-- C5 amended: in every accepted test case the five weights are stored unchanged and at least
one of them is non-zero. -/
theorem checkTestCase_weight_nonzero (tc : TestCaseConfiguration)
    (h : (checkTestCase tc).1 = none) :
    ((checkTestCase tc).2.ReadWeight = tc.ReadWeight
      ∧ (checkTestCase tc).2.ExistingReadWeight = tc.ExistingReadWeight
      ∧ (checkTestCase tc).2.WriteWeight = tc.WriteWeight
      ∧ (checkTestCase tc).2.ListWeight = tc.ListWeight
      ∧ (checkTestCase tc).2.DeleteWeight = tc.DeleteWeight)
    ∧ (tc.ReadWeight ≠ 0 ∨ tc.ExistingReadWeight ≠ 0 ∨ tc.WriteWeight ≠ 0
      ∨ tc.ListWeight ≠ 0 ∨ tc.DeleteWeight ≠ 0) := by
  obtain ⟨-, c2, -, -, -, -, -, -, -, -, -, m, mw, mr, -, -, -, hres⟩ :=
    checkTestCase_accept tc h
  rw [hres]
  refine ⟨⟨rfl, rfl, rfl, rfl, rfl⟩, ?_⟩
  by_contra hne
  push_neg at hne
  exact c2 ⟨hne.1, hne.2.2.1, hne.2.2.2.1, hne.2.2.2.2, hne.2.1⟩

/-- Witness for C5 amended, at the test case with read weight 3 and write weight 1. -/
theorem checkTestCase_weight_nonzero_witness :
    (checkTestCase exampleTestCase).1 = none
    ∧ (exampleTestCase.ReadWeight ≠ 0 ∨ exampleTestCase.ExistingReadWeight ≠ 0
      ∨ exampleTestCase.WriteWeight ≠ 0 ∨ exampleTestCase.ListWeight ≠ 0
      ∨ exampleTestCase.DeleteWeight ≠ 0) :=
  ⟨rfl, (checkTestCase_weight_nonzero exampleTestCase rfl).2⟩

/-! ### Weighted selection -/

theorem weightOf_of_mem (weights : List (String × Nat)) (hnd : (weights.map Prod.fst).Nodup)
    (k : String) (w : Nat) (h : (k, w) ∈ weights) : weightOf weights k = w := by
  induction weights with
  | nil => cases h
  | cons kw rest ih =>
    obtain ⟨k0, w0⟩ := kw
    rw [List.map_cons, List.nodup_cons] at hnd
    rcases List.mem_cons.mp h with heq | hmem
    · cases heq
      simp [weightOf]
    · have hne : k0 ≠ k := by
        intro hk
        apply hnd.1
        rw [hk]
        exact List.mem_map.mpr ⟨(k, w), hmem, rfl⟩
      simp [weightOf, hne, ih hnd.2 hmem]

theorem selectionInv_initial (weights : List (String × Nat)) :
    SelectionInv weights (initialWorkqueue weights) [] where
  keys := by simp [initialWorkqueue, Function.comp_def]
  value := by
    intro kv hkv
    simp only [initialWorkqueue, List.mem_map] at hkv
    obtain ⟨kw, -, rfl⟩ := hkv
    simp
  close := by
    intro a ha b hb
    simp only [initialWorkqueue, List.mem_map] at ha hb
    obtain ⟨ka, -, rfl⟩ := ha
    obtain ⟨kb, -, rfl⟩ := hb
    simp only [zero_add]
    positivity
  known := by simp

theorem selectionInv_step (weights : List (String × Nat))
    (hnd : (weights.map Prod.fst).Nodup) (hne : weights ≠ []) (sorter : SliceSorter ℚ)
    (Queue : Workqueue ℚ) (selected : List String) (hinv : SelectionInv weights Queue selected) :
    ∃ nextOp Queue1, selectStep weights sorter Queue = some (nextOp, Queue1)
      ∧ SelectionInv weights Queue1 (selected ++ [nextOp]) := by
  have hperm := sorter.perm Queue.OperationValues
  have hsorted := sorter.sorted Queue.OperationValues
  cases hrun : sorter.run Queue.OperationValues with
  | nil =>
    exfalso
    rw [hrun] at hperm
    have h1 : Queue.OperationValues = [] := hperm.symm.eq_nil
    have h2 := hinv.keys
    rw [h1] at h2
    exact hne (List.map_eq_nil_iff.mp h2.symm.eq_nil)
  | cons kv rest =>
    rw [hrun] at hperm hsorted
    have hstep : selectStep weights sorter Queue = some (kv.Key,
        { Queue with OperationValues :=
            ⟨kv.Key, kv.Value + 1 / (weightOf weights kv.Key : ℚ)⟩ :: rest }) := by
      simp [selectStep, GetNextOperation, hrun, IncreaseOperationValue, increaseFirstMatch]
    refine ⟨_, _, hstep, ?_⟩
    have hkeys : ((kv :: rest).map KV.Key).Perm (weights.map Prod.fst) :=
      (hperm.map _).trans hinv.keys
    have hnd2 : ((kv :: rest).map KV.Key).Nodup := hkeys.nodup_iff.mpr hnd
    rw [List.map_cons, List.nodup_cons] at hnd2
    have hmin : ∀ e ∈ rest, kv.Value ≤ e.Value :=
      fun e he => not_lt.mp (List.rel_of_pairwise_cons hsorted he)
    have hkv : kv ∈ Queue.OperationValues := hperm.subset (List.mem_cons_self _ _)
    have hrest : ∀ e ∈ rest, e ∈ Queue.OperationValues :=
      fun e he => hperm.subset (List.mem_cons_of_mem _ he)
    have hdiff : ∀ e ∈ rest, e.Key ≠ kv.Key := by
      intro e he hk
      apply hnd2.1
      rw [← hk]
      exact List.mem_map_of_mem _ he
    have hw : (0 : ℚ) ≤ 1 / (weightOf weights kv.Key : ℚ) := by positivity
    constructor
    · simpa using hkeys
    · intro e he
      rcases List.mem_cons.mp he with rfl | he
      · simp only [List.count_append, List.count_singleton_self, Nat.cast_add, Nat.cast_one]
        rw [hinv.value kv hkv, add_div]
      · rw [hinv.value e (hrest e he)]
        have hc : List.count e.Key [kv.Key] = 0 :=
          List.count_eq_zero.mpr (by simpa using hdiff e he)
        simp [List.count_append, hc]
    · intro a ha b hb
      rcases List.mem_cons.mp ha with rfl | ha <;> rcases List.mem_cons.mp hb with rfl | hb
      · simp only
        linarith
      · have := hmin b hb
        simp only
        linarith
      · have := hinv.close a (hrest a ha) kv hkv
        have hwa : (0 : ℚ) ≤ 1 / (weightOf weights a.Key : ℚ) := by positivity
        simp only
        linarith
      · exact hinv.close a (hrest a ha) b (hrest b hb)
    · intro s hs
      rcases List.mem_append.mp hs with hs | hs
      · exact hinv.known s hs
      · rw [List.mem_singleton] at hs
        rw [hs]
        exact hkeys.subset (List.mem_cons_self _ _)

theorem selectOperations_inv (weights : List (String × Nat))
    (hnd : (weights.map Prod.fst).Nodup) (hne : weights ≠ []) (sorters : Nat → SliceSorter ℚ)
    (N : Nat) :
    ∃ Queue selected, selectOperations weights sorters N = some (Queue, selected)
      ∧ selected.length = N ∧ SelectionInv weights Queue selected := by
  induction N with
  | zero => exact ⟨_, _, rfl, rfl, selectionInv_initial weights⟩
  | succ N ih =>
    obtain ⟨Queue, selected, hrun, hlen, hinv⟩ := ih
    obtain ⟨nextOp, Queue1, hstep, hinv1⟩ :=
      selectionInv_step weights hnd hne (sorters N) Queue selected hinv
    refine ⟨Queue1, selected ++ [nextOp], ?_, by simp [hlen], hinv1⟩
    simp [selectOperations, hrun, hstep]

theorem sum_indicator_eq_count (keys : List String) (a : String) :
    (keys.map (fun k => if a = k then 1 else 0)).sum = keys.count a := by
  induction keys with
  | nil => rfl
  | cons k keys ih =>
    rw [List.map_cons, List.sum_cons, ih, List.count_cons]
    by_cases h : a = k
    · subst h; simp; omega
    · have h2 : ¬ k = a := fun hk => h hk.symm
      simp [h, h2]

theorem sum_count_eq_length (keys : List String) (hnd : keys.Nodup) (l : List String)
    (h : ∀ s ∈ l, s ∈ keys) : (keys.map (fun k => l.count k)).sum = l.length := by
  induction l with
  | nil => simp
  | cons a l ih =>
    have h1 : ∀ k, List.count k (a :: l) = List.count k l + (if a = k then 1 else 0) := by
      intro k
      rw [List.count_cons]
      simp
    simp only [h1, List.sum_map_add, List.length_cons]
    rw [ih (fun s hs => h s (List.mem_cons_of_mem _ hs)), sum_indicator_eq_count,
      List.count_eq_one_of_mem hnd (h a (List.mem_cons_self _ _))]

theorem selectionInv_pair (weights : List (String × Nat)) (hnd : (weights.map Prod.fst).Nodup)
    (hpos : ∀ kw ∈ weights, 0 < kw.2) (Queue : Workqueue ℚ) (selected : List String)
    (hinv : SelectionInv weights Queue selected) (j k : String × Nat) (hj : j ∈ weights)
    (hk : k ∈ weights) :
    (selected.count j.1 : ℚ) * k.2 ≤ (selected.count k.1 : ℚ) * j.2 + k.2 := by
  obtain ⟨a, ha, haj⟩ := List.mem_map.mp
    (hinv.keys.symm.subset (List.mem_map_of_mem Prod.fst hj))
  obtain ⟨b, hb, hbk⟩ := List.mem_map.mp
    (hinv.keys.symm.subset (List.mem_map_of_mem Prod.fst hk))
  have hclose := hinv.close a ha b hb
  rw [hinv.value a ha, hinv.value b hb, haj, hbk, weightOf_of_mem weights hnd j.1 j.2 hj,
    weightOf_of_mem weights hnd k.1 k.2 hk] at hclose
  have hwj : (0 : ℚ) < j.2 := by exact_mod_cast hpos j hj
  have hwk : (0 : ℚ) < k.2 := by exact_mod_cast hpos k hk
  have hj0 : (j.2 : ℚ) ≠ 0 := hwj.ne.symm
  have hk0 : (k.2 : ℚ) ≠ 0 := hwk.ne.symm
  have hmul := mul_le_mul_of_nonneg_right hclose (mul_pos hwj hwk).le
  have e1 : (selected.count j.1 : ℚ) / j.2 * ((j.2 : ℚ) * k.2) = selected.count j.1 * k.2 := by
    calc (selected.count j.1 : ℚ) / j.2 * ((j.2 : ℚ) * k.2)
        = selected.count j.1 * k.2 * ((j.2 : ℚ) / j.2) := by ring
      _ = selected.count j.1 * k.2 := by rw [div_self hj0, mul_one]
  have e2 : ((selected.count k.1 : ℚ) / k.2 + 1 / j.2) * ((j.2 : ℚ) * k.2)
      = selected.count k.1 * j.2 + k.2 := by
    calc ((selected.count k.1 : ℚ) / k.2 + 1 / j.2) * ((j.2 : ℚ) * k.2)
        = selected.count k.1 * j.2 * ((k.2 : ℚ) / k.2) + k.2 * ((j.2 : ℚ) / j.2) := by ring
      _ = selected.count k.1 * j.2 + k.2 := by rw [div_self hj0, div_self hk0, mul_one, mul_one]
  rw [e1, e2] at hmul
  exact hmul

theorem sum_upper (ws : List (String × Nat)) (c : String → ℚ) (x w0 : ℚ)
    (h : ∀ kw ∈ ws, x * kw.2 ≤ c kw.1 * w0 + kw.2) :
    x * ((ws.map Prod.snd).sum : ℕ) ≤ (ws.map (fun kw => c kw.1)).sum * w0
      + ((ws.map Prod.snd).sum : ℕ) := by
  induction ws with
  | nil => simp
  | cons kw ws ih =>
    have h1 := h kw (List.mem_cons_self _ _)
    have h2 := ih (fun e he => h e (List.mem_cons_of_mem _ he))
    simp only [List.map_cons, List.sum_cons, Nat.cast_add]
    linarith

theorem sum_lower (ws : List (String × Nat)) (c : String → ℚ) (y w0 : ℚ)
    (h : ∀ kw ∈ ws, c kw.1 * w0 ≤ y * kw.2 + w0) :
    (ws.map (fun kw => c kw.1)).sum * w0 ≤ y * ((ws.map Prod.snd).sum : ℕ)
      + (ws.length : ℕ) * w0 := by
  induction ws with
  | nil => simp
  | cons kw ws ih =>
    have h1 := h kw (List.mem_cons_self _ _)
    have h2 := ih (fun e he => h e (List.mem_cons_of_mem _ he))
    simp only [List.map_cons, List.sum_cons, List.length_cons, Nat.cast_add, Nat.cast_one]
    linarith

theorem sum_count_cast (ws : List (String × Nat)) (hnd : (ws.map Prod.fst).Nodup)
    (selected : List String) (h : ∀ s ∈ selected, s ∈ ws.map Prod.fst) :
    (ws.map (fun kw => (selected.count kw.1 : ℚ))).sum = selected.length := by
  have h1 := sum_count_eq_length (ws.map Prod.fst) hnd selected h
  rw [List.map_map] at h1
  rw [← h1, Nat.cast_list_sum, List.map_map]
  rfl

theorem weight_sum_pos (weights : List (String × Nat)) (hpos : ∀ kw ∈ weights, 0 < kw.2)
    (hne : weights ≠ []) : 0 < (weights.map Prod.snd).sum := by
  cases weights with
  | nil => exact absurd rfl hne
  | cons kw ws =>
    have := hpos kw (List.mem_cons_self _ _)
    simp only [List.map_cons, List.sum_cons]
    omega

/-- The two bounds on the number of selections of every kind after `N` steps. -/
theorem selectOperations_bounds (weights : List (String × Nat))
    (hnd : (weights.map Prod.fst).Nodup) (hpos : ∀ kw ∈ weights, 0 < kw.2)
    (hne : weights ≠ []) (sorters : Nat → SliceSorter ℚ) (N : Nat) :
    ∃ Queue selected, selectOperations weights sorters N = some (Queue, selected)
      ∧ selected.length = N
      ∧ ∀ kw ∈ weights,
        ((N : ℚ) - (weights.length : ℕ)) * kw.2 / ((weights.map Prod.snd).sum : ℕ)
            ≤ selected.count kw.1
        ∧ (selected.count kw.1 : ℚ) ≤ N * kw.2 / ((weights.map Prod.snd).sum : ℕ) + 1 := by
  obtain ⟨Queue, selected, hrun, hlen, hinv⟩ := selectOperations_inv weights hnd hne sorters N
  refine ⟨Queue, selected, hrun, hlen, ?_⟩
  intro kw hkw
  have hW : (0 : ℚ) < ((weights.map Prod.snd).sum : ℕ) := by
    exact_mod_cast weight_sum_pos weights hpos hne
  have hsum := sum_count_cast weights hnd selected hinv.known
  rw [hlen] at hsum
  have hup := sum_upper weights (fun s => (selected.count s : ℚ)) (selected.count kw.1) kw.2
    (fun e he => selectionInv_pair weights hnd hpos Queue selected hinv kw e hkw he)
  have hlo := sum_lower weights (fun s => (selected.count s : ℚ)) (selected.count kw.1) kw.2
    (fun e he => selectionInv_pair weights hnd hpos Queue selected hinv e kw he hkw)
  rw [hsum] at hup hlo
  constructor
  · rw [div_le_iff₀ hW]
    linarith
  · have h1 : (selected.count kw.1 : ℚ) - 1
        ≤ N * kw.2 / ((weights.map Prod.snd).sum : ℕ) := by
      rw [le_div_iff₀ hW]
      linarith
    linarith

theorem selectionCount_bounds (weights : List (String × Nat))
    (hnd : (weights.map Prod.fst).Nodup) (hpos : ∀ kw ∈ weights, 0 < kw.2)
    (hne : weights ≠ []) (sorters : Nat → SliceSorter ℚ) (N : Nat) (kw : String × Nat)
    (hkw : kw ∈ weights) :
    ((N : ℚ) - (weights.length : ℕ)) * kw.2 / ((weights.map Prod.snd).sum : ℕ)
        ≤ selectionCount weights sorters kw.1 N
    ∧ (selectionCount weights sorters kw.1 N : ℚ)
        ≤ N * kw.2 / ((weights.map Prod.snd).sum : ℕ) + 1 := by
  obtain ⟨Queue, selected, hrun, -, hb⟩ :=
    selectOperations_bounds weights hnd hpos hne sorters N
  simpa [selectionCount, hrun] using hb kw hkw

theorem selectionCount_tendsto (weights : List (String × Nat))
    (hnd : (weights.map Prod.fst).Nodup) (hpos : ∀ kw ∈ weights, 0 < kw.2)
    (hne : weights ≠ []) (sorters : Nat → SliceSorter ℚ) (kw : String × Nat)
    (hkw : kw ∈ weights) :
    Filter.Tendsto (fun N : ℕ => (selectionCount weights sorters kw.1 N : ℝ) / N) Filter.atTop
      (nhds ((kw.2 : ℝ) / ((weights.map Prod.snd).sum : ℕ))) := by
  have hW : (0 : ℝ) < ((weights.map Prod.snd).sum : ℕ) := by
    exact_mod_cast weight_sum_pos weights hpos hne
  have hlow : Filter.Tendsto
      (fun N : ℕ => (kw.2 : ℝ) / ((weights.map Prod.snd).sum : ℕ)
        - ((weights.length : ℕ) * (kw.2 : ℝ) / ((weights.map Prod.snd).sum : ℕ)) / N)
      Filter.atTop (nhds ((kw.2 : ℝ) / ((weights.map Prod.snd).sum : ℕ))) := by
    have h := (tendsto_const_div_atTop_nhds_zero_nat
      ((weights.length : ℕ) * (kw.2 : ℝ) / ((weights.map Prod.snd).sum : ℕ))).const_sub
      ((kw.2 : ℝ) / ((weights.map Prod.snd).sum : ℕ))
    simpa using h
  have hupp : Filter.Tendsto
      (fun N : ℕ => (kw.2 : ℝ) / ((weights.map Prod.snd).sum : ℕ) + 1 / N)
      Filter.atTop (nhds ((kw.2 : ℝ) / ((weights.map Prod.snd).sum : ℕ))) := by
    have h := (tendsto_const_div_atTop_nhds_zero_nat 1).const_add
      ((kw.2 : ℝ) / ((weights.map Prod.snd).sum : ℕ))
    simpa using h
  refine tendsto_of_tendsto_of_tendsto_of_le_of_le' hlow hupp ?_ ?_
  · refine Filter.eventually_atTop.mpr ⟨1, fun N hN => ?_⟩
    have hN0 : (0 : ℝ) < N := by exact_mod_cast hN
    have hq := (selectionCount_bounds weights hnd hpos hne sorters N kw hkw).1
    have hr := (Rat.cast_le (K := ℝ)).mpr hq
    push_cast at hr
    rw [le_div_iff₀ hN0, sub_mul, div_mul_cancel₀ _ hN0.ne.symm]
    calc (kw.2 : ℝ) / ((weights.map Prod.snd).sum : ℕ) * N
          - (weights.length : ℕ) * (kw.2 : ℝ) / ((weights.map Prod.snd).sum : ℕ)
        = ((N : ℝ) - (weights.length : ℕ)) * kw.2 / ((weights.map Prod.snd).sum : ℕ) := by ring
      _ ≤ _ := by simpa using hr
  · refine Filter.eventually_atTop.mpr ⟨1, fun N hN => ?_⟩
    have hN0 : (0 : ℝ) < N := by exact_mod_cast hN
    have hq := (selectionCount_bounds weights hnd hpos hne sorters N kw hkw).2
    have hr := (Rat.cast_le (K := ℝ)).mpr hq
    push_cast at hr
    rw [div_le_iff₀ hN0, add_mul, div_mul_cancel₀ _ hN0.ne.symm]
    calc (selectionCount weights sorters kw.1 N : ℝ)
        ≤ N * kw.2 / ((weights.map Prod.snd).sum : ℕ) + 1 := by simpa using hr
      _ = (kw.2 : ℝ) / ((weights.map Prod.snd).sum : ℕ) * N + 1 := by ring

/-- C2: with distinct enabled kinds of positive weights `w_k` summing to `W`, counters
starting at 0, exact rational counters and ties broken in any way at every step, the first
`N` selections never fail and select every kind `k` a number `c_k` of times with
`(N - n) * w_k / W ≤ c_k ≤ N * w_k / W + 1`; hence `c_k / N` converges to `w_k / W`; and for
read 3, write 1 and 400 selections the read:write ratio lies between 2.7 and 3.3. -/
theorem weighted_selection_fair (weights : List (String × Nat))
    (sorters : Nat → SliceSorter ℚ) (hnd : (weights.map Prod.fst).Nodup)
    (hpos : ∀ kw ∈ weights, 0 < kw.2) (hne : weights ≠ []) :
    (∀ N : ℕ, ∃ Queue selected, selectOperations weights sorters N = some (Queue, selected)
      ∧ selected.length = N
      ∧ ∀ kw ∈ weights,
        ((N : ℚ) - (weights.length : ℕ)) * kw.2 / ((weights.map Prod.snd).sum : ℕ)
            ≤ selected.count kw.1
        ∧ (selected.count kw.1 : ℚ) ≤ N * kw.2 / ((weights.map Prod.snd).sum : ℕ) + 1)
    ∧ (∀ kw ∈ weights,
        Filter.Tendsto (fun N : ℕ => (selectionCount weights sorters kw.1 N : ℝ) / N)
          Filter.atTop (nhds ((kw.2 : ℝ) / ((weights.map Prod.snd).sum : ℕ))))
    ∧ (∃ Queue selected, selectOperations readWriteWeights sorters 400 = some (Queue, selected)
        ∧ selected.length = 400
        ∧ (27 / 10 : ℚ) ≤ (selected.count "read" : ℚ) / selected.count "write"
        ∧ (selected.count "read" : ℚ) / selected.count "write" ≤ 33 / 10) := by
  refine ⟨fun N => selectOperations_bounds weights hnd hpos hne sorters N,
    fun kw hkw => selectionCount_tendsto weights hnd hpos hne sorters kw hkw, ?_⟩
  obtain ⟨Queue, selected, hrun, hlen, hb⟩ :=
    selectOperations_bounds readWriteWeights (by decide) (by decide) (by decide) sorters 400
  refine ⟨Queue, selected, hrun, hlen, ?_⟩
  have hr := hb ("read", 3) (by decide)
  have hw := hb ("write", 1) (by decide)
  simp only [readWriteWeights, List.map_cons, List.map_nil, List.sum_cons, List.sum_nil,
    List.length_cons, List.length_nil] at hr hw
  norm_num at hr hw
  have hr2 : (selected.count "read" : ℚ) ≤ 301 := by exact_mod_cast hr.2
  have hw2 : (selected.count "write" : ℚ) ≤ 101 := by exact_mod_cast hw.2
  have hcw : (0 : ℚ) < selected.count "write" := by linarith [hw.1]
  constructor
  · rw [le_div_iff₀ hcw]
    linarith [hr.1]
  · rw [div_le_iff₀ hcw]
    linarith [hw.1]

/-- Witness for C2 at the weights read 3, write 1, every step sorted by insertion sort: 400
selections succeed and the read:write ratio lies between 2.7 and 3.3. -/
theorem weighted_selection_fair_witness :
    ∃ Queue selected,
      selectOperations readWriteWeights (fun _ => insertionSorter ℚ) 400 = some (Queue, selected)
      ∧ selected.length = 400
      ∧ (27 / 10 : ℚ) ≤ (selected.count "read" : ℚ) / selected.count "write"
      ∧ (selected.count "read" : ℚ) / selected.count "write" ≤ 33 / 10 :=
  (weighted_selection_fair readWriteWeights (fun _ => insertionSorter ℚ) (by decide)
    (by decide) (by decide)).2.2

/-- C3: on a queue with at least one operation value, `GetNextOperation` returns the key of an
entry of the queue, as it was before the call, whose value is at most the value of every
entry. -/
theorem GetNextOperation_minimal {α : Type} [LinearOrder α] (sorter : SliceSorter α)
    (Queue : Workqueue α) (h : Queue.OperationValues ≠ []) :
    ∃ key Queue1, GetNextOperation sorter Queue = some (key, Queue1)
      ∧ ∃ kv ∈ Queue.OperationValues, kv.Key = key
        ∧ ∀ e ∈ Queue.OperationValues, kv.Value ≤ e.Value := by
  unfold GetNextOperation
  have hperm := sorter.perm Queue.OperationValues
  have hsorted := sorter.sorted Queue.OperationValues
  cases hrun : sorter.run Queue.OperationValues with
  | nil =>
    rw [hrun] at hperm
    exact absurd hperm.symm.eq_nil h
  | cons kv rest =>
    rw [hrun] at hperm hsorted
    refine ⟨kv.Key, _, rfl, kv, hperm.subset (List.mem_cons_self _ _), rfl, ?_⟩
    intro e he
    rcases List.mem_cons.mp (hperm.symm.subset he) with rfl | hmem
    · exact le_refl _
    · exact not_lt.mp (List.rel_of_pairwise_cons hsorted hmem)

/-- Witness for C3 on a queue with the counters read 2, write 1, list 3. -/
theorem GetNextOperation_minimal_witness :
    ∃ key Queue1, GetNextOperation (insertionSorter ℚ) exampleWorkqueue = some (key, Queue1)
      ∧ ∃ kv ∈ exampleWorkqueue.OperationValues, kv.Key = key
        ∧ ∀ e ∈ exampleWorkqueue.OperationValues, kv.Value ≤ e.Value :=
  GetNextOperation_minimal (insertionSorter ℚ) exampleWorkqueue (by simp [exampleWorkqueue])

/-! ### Reduction of the metrics -/

theorem F64.finite_add_finite (a b : ℚ) : F64.finite a + F64.finite b = F64.finite (a + b) :=
  rfl

theorem F64.finite_div_finite (a b : ℚ) :
    F64.finite a / F64.finite b
      = if b = 0 then (if a = 0 then F64.nan else if 0 < a then F64.posInf else F64.negInf)
        else F64.finite (a / b) :=
  rfl

theorem F64.div_zero_not_finite (x : F64) (q : ℚ) : x / F64.finite 0 ≠ F64.finite q := by
  cases x with
  | nan => exact fun h => F64.noConfusion h
  | posInf =>
    show F64.div F64.posInf (F64.finite 0) ≠ F64.finite q
    simp [F64.div]
  | negInf =>
    show F64.div F64.negInf (F64.finite 0) ≠ F64.finite q
    simp [F64.div]
  | finite a =>
    rw [F64.finite_div_finite, if_pos rfl]
    split_ifs <;> exact fun h => F64.noConfusion h

/-- A loop over the labels that applies `f` for every label `testName = testName` applies it
once when the metric carries that label and the label names are unique, and not at all when
the metric does not carry it. -/
theorem labels_foldl {β : Type} (f : β → β) (testName : String) (labels : List LabelPair)
    (hnd : (labels.map LabelPair.Name).Nodup) (acc : β) :
    labels.foldl (fun acc label =>
        if label.Name = "testName" ∧ label.Value = testName then f acc else acc) acc
      = if labels.any (fun label => label.Name = "testName" ∧ label.Value = testName) = true
        then f acc else acc := by
  induction labels generalizing acc with
  | nil => simp
  | cons label labels ih =>
    rw [List.map_cons, List.nodup_cons] at hnd
    rw [List.foldl_cons, ih hnd.2, List.any_cons]
    by_cases hl : label.Name = "testName" ∧ label.Value = testName
    · have hrest : labels.any
          (fun label => decide (label.Name = "testName" ∧ label.Value = testName)) = false := by
        rw [List.any_eq_false]
        intro x hx hdec
        have hxn : x.Name = "testName" := (of_decide_eq_true hdec).1
        apply hnd.1
        rw [hl.1, ← hxn]
        exact List.mem_map_of_mem _ hx
      rw [hrest]
      simp [hl]
    · simp [hl]

theorem sumCounterLabels_eq (metric : Metric) (testName : String) (sum : F64)
    (hnd : (metric.Label.map LabelPair.Name).Nodup) :
    sumCounterLabels metric testName sum
      = if metric.hasTestName testName = true then sum + metric.Counter else sum :=
  labels_foldl (fun sum => sum + metric.Counter) testName metric.Label hnd sum

theorem sumCounter_foldl (metrics : List Metric) (testName : String)
    (hwf : uniqueLabelNames metrics) (acc : F64) :
    metrics.foldl (fun sum metric => sumCounterLabels metric testName sum) acc
      = ((metrics.filter (fun metric => metric.hasTestName testName)).map Metric.Counter).foldl
          (fun acc x => acc + x) acc := by
  induction metrics generalizing acc with
  | nil => rfl
  | cons metric metrics ih =>
    have hm := hwf metric (List.mem_cons_self _ _)
    have hrest : uniqueLabelNames metrics := fun m hmem => hwf m (List.mem_cons_of_mem _ hmem)
    rw [List.foldl_cons, ih hrest, sumCounterLabels_eq metric testName acc hm]
    by_cases hc : metric.hasTestName testName = true
    · simp [List.filter_cons, hc]
    · simp [List.filter_cons, hc]

theorem sumCounterForTest_eq_spec (metrics : List Metric) (testName : String)
    (hwf : uniqueLabelNames metrics) :
    sumCounterForTest metrics testName = specCounterSum metrics testName :=
  sumCounter_foldl metrics testName hwf (F64.finite 0)

theorem resultmap_foldl (P : List Metric → Prop) (result : List MetricFamily) (name : String)
    (h : ∀ family ∈ result, P family.Metric) (found : List Metric) (hfound : P found) :
    P (result.foldl (fun found family => if family.Name = name then family.Metric else found)
      found) := by
  induction result generalizing found with
  | nil => exact hfound
  | cons family result ih =>
    rw [List.foldl_cons]
    apply ih (fun fam hfam => h fam (List.mem_cons_of_mem _ hfam))
    split_ifs
    · exact h family (List.mem_cons_self _ _)
    · exact hfound

theorem resultmap_unique (result : List MetricFamily) (name : String)
    (hwf : ∀ family ∈ result, uniqueLabelNames family.Metric) :
    uniqueLabelNames (resultmap result name) :=
  resultmap_foldl uniqueLabelNames result name hwf [] (fun _ hm => absurd hm (List.not_mem_nil _))

theorem averageHistogramLabels_eq (metric : Metric) (testName : String) (acc : F64 × F64)
    (hnd : (metric.Label.map LabelPair.Name).Nodup) :
    averageHistogramLabels metric testName acc
      = if metric.hasTestName testName = true then
          (acc.1 + metric.Histogram.SampleSum,
            acc.2 + F64.finite (metric.Histogram.SampleCount : ℚ))
        else acc :=
  labels_foldl (fun acc : F64 × F64 => (acc.1 + metric.Histogram.SampleSum,
    acc.2 + F64.finite (metric.Histogram.SampleCount : ℚ))) testName metric.Label hnd acc

theorem averageHistogram_foldl (metrics : List Metric) (testName : String)
    (hwf : uniqueLabelNames metrics) (acc : F64 × F64) :
    metrics.foldl (fun acc metric => averageHistogramLabels metric testName acc) acc
      = (((metrics.filter (fun metric => metric.hasTestName testName)).map
            (fun metric => metric.Histogram.SampleSum)).foldl (fun acc x => acc + x) acc.1,
          ((metrics.filter (fun metric => metric.hasTestName testName)).map
            (fun metric => F64.finite (metric.Histogram.SampleCount : ℚ))).foldl
              (fun acc x => acc + x) acc.2) := by
  induction metrics generalizing acc with
  | nil => rfl
  | cons metric metrics ih =>
    have hm := hwf metric (List.mem_cons_self _ _)
    have hrest : uniqueLabelNames metrics := fun m hmem => hwf m (List.mem_cons_of_mem _ hmem)
    rw [List.foldl_cons, ih hrest, averageHistogramLabels_eq metric testName acc hm]
    by_cases hc : metric.hasTestName testName = true
    · simp [List.filter_cons, hc]
    · simp [List.filter_cons, hc]

/-- C6, the defect: for read weight 3 and delete weight 2 the reference name is
`read(3)-delete(2)`, and `getOperationName` returns `read(3)-delete(3)`, because the entry for
delete is built from the read weight. -/
theorem getOperationName_delete_uses_read_weight :
    getOperationName 3 0 0 0 2 = "read(3)-delete(3)"
    ∧ specOperationName 3 0 0 0 2 = "read(3)-delete(2)"
    ∧ getOperationName 3 0 0 0 2 ≠ specOperationName 3 0 0 0 2 := by
  decide

/-- The success ratio of finite non-negative counts. -/
theorem successRatio_of_counts (o f : ℚ) (ho : 0 ≤ o) (hf : 0 ≤ f) :
    (0 < o + f →
      (F64.finite o / (F64.finite o + F64.finite f)).inUnitInterval
      ∧ (F64.finite o / (F64.finite o + F64.finite f) = F64.finite 1 ↔ f = 0))
    ∧ (o + f = 0 → F64.finite o / (F64.finite o + F64.finite f) = F64.nan) := by
  rw [F64.finite_add_finite, F64.finite_div_finite]
  constructor
  · intro hpos
    rw [if_neg hpos.ne.symm]
    refine ⟨⟨div_nonneg ho hpos.le, (div_le_one hpos).mpr (by linarith)⟩, ?_⟩
    constructor
    · intro h
      have h1 : o / (o + f) = 1 := F64.finite.inj h
      rw [div_eq_one_iff_eq hpos.ne.symm] at h1
      linarith
    · intro h
      rw [h, add_zero] at hpos ⊢
      rw [div_self hpos.ne.symm]
  · intro hzero
    have ho0 : o = 0 := by linarith
    rw [if_pos hzero, if_pos ho0]

/-- C7 as stated fails: when neither a finished nor a failed operation has been counted, the
success ratio of the driver and of the aggregate is `0 / 0`, which is NaN: it is not in
`[0, 1]`, and it is not 1 although no operation failed. -/
theorem successRatio_nan :
    (getCurrentPromValues "host" [] exampleTestCase).Operations = F64.finite 0
    ∧ (getCurrentPromValues "host" [] exampleTestCase).FailedOperations = F64.finite 0
    ∧ (getCurrentPromValues "host" [] exampleTestCase).SuccessRatio = F64.nan
    ∧ ¬ (getCurrentPromValues "host" [] exampleTestCase).SuccessRatio.inUnitInterval
    ∧ (sumBenchmarkResults [getCurrentPromValues "host" [] exampleTestCase]).map
        BenchmarkResult.SuccessRatio = some F64.nan := by
  decide!

/-- The rounded success ratio of integer counts whose sum is at most `2 ^ 53`: the sum is
stored exactly, and the rounded quotient lies in `[0, 1]` and is 1 exactly when no operation
failed (with a failed operation the exact quotient is at most `1 - 2 ^ (-53)`, which is a
`float64`). -/
theorem successRatio_rounded (rounding : Float64Rounding) (o f : ℕ) (hpos : 0 < o + f)
    (hb : o + f ≤ 2 ^ 53) :
    rounding.round ((o : ℚ) + f) = (o : ℚ) + f
    ∧ 0 ≤ rounding.round ((o : ℚ) / ((o : ℚ) + f))
    ∧ rounding.round ((o : ℚ) / ((o : ℚ) + f)) ≤ 1
    ∧ (rounding.round ((o : ℚ) / ((o : ℚ) + f)) = 1 ↔ f = 0) := by
  have r0 : rounding.round 0 = 0 := by
    have h := rounding.exact 0 0 (by norm_num) (by norm_num) (by norm_num)
    simpa using h
  have r1 : rounding.round 1 = 1 := by
    have h := rounding.exact 1 0 (by norm_num) (by norm_num) (by norm_num)
    simpa using h
  have rp : rounding.round (1 - 1 / 2 ^ 53) = 1 - 1 / 2 ^ 53 := by
    have h := rounding.exact (2 ^ 53 - 1) (-53) (by norm_num) (by norm_num) (by norm_num)
    have e : (((2 ^ 53 - 1 : ℤ) : ℚ)) * (2 : ℚ) ^ (-53 : ℤ) = 1 - 1 / 2 ^ 53 := by norm_num
    rw [e] at h
    exact h
  have hsum : rounding.round ((o : ℚ) + f) = (o : ℚ) + f := by
    have h := rounding.exact ((o + f : ℕ) : ℤ) 0
      (by rw [abs_of_nonneg (by positivity)]; exact_mod_cast hb) (by norm_num) (by norm_num)
    simpa using h
  have hposq : (0 : ℚ) < (o : ℚ) + f := by exact_mod_cast hpos
  have hbq : (o : ℚ) + f ≤ 2 ^ 53 := by exact_mod_cast hb
  have ho : (0 : ℚ) ≤ o := by positivity
  have hf : (0 : ℚ) ≤ f := by positivity
  have hq0 : 0 ≤ (o : ℚ) / ((o : ℚ) + f) := div_nonneg ho hposq.le
  have hq1 : (o : ℚ) / ((o : ℚ) + f) ≤ 1 := (div_le_one hposq).mpr (by linarith)
  refine ⟨hsum, ?_, ?_, ?_⟩
  · have h := rounding.mono _ _ hq0
    rwa [r0] at h
  · have h := rounding.mono _ _ hq1
    rwa [r1] at h
  · constructor
    · intro h
      by_contra hne
      have hf1 : (1 : ℚ) ≤ f := by
        have : 1 ≤ f := Nat.one_le_iff_ne_zero.mpr hne
        exact_mod_cast this
      have hq : (o : ℚ) / ((o : ℚ) + f) ≤ 1 - 1 / 2 ^ 53 := by
        rw [div_le_iff₀ hposq]
        have h53 : (0 : ℚ) < 2 ^ 53 := by norm_num
        have hinv : (1 : ℚ) / 2 ^ 53 * ((o : ℚ) + f) ≤ 1 := by
          rw [div_mul_eq_mul_div, one_mul]
          exact (div_le_one h53).mpr hbq
        nlinarith
      have hle := rounding.mono _ _ hq
      rw [rp, h] at hle
      norm_num at hle
    · intro h
      subst h
      have e : (o : ℚ) / ((o : ℚ) + ((0 : ℕ) : ℚ)) = 1 := by
        rw [Nat.cast_zero, add_zero]
        rw [Nat.cast_zero, add_zero] at hposq
        exact div_self hposq.ne.symm
      rw [e, r1]

/-- C7 amended: for counts of finished and failed operations that are integers with a sum of
at most `2 ^ 53`, at least one of them positive, the success ratio that
`getCurrentPromValues` reports and the one that `sumBenchmarkResults` reports for a non-empty
list is the quotient `o / (o + f)`, which lies in `[0, 1]` and is 1 exactly when the failed
count is 0; the same holds for its `float64` rounding, for every rounding that meets the
contract `Float64Rounding`. When both counts are 0 the ratio is NaN. -/
theorem successRatio_bounds (rounding : Float64Rounding) (host : String)
    (result : List MetricFamily) (testConfig : TestCaseConfiguration)
    (results : List BenchmarkResult) (hne : results ≠ []) :
    (∀ o f : ℕ, (getCurrentPromValues host result testConfig).Operations = F64.finite o →
      (getCurrentPromValues host result testConfig).FailedOperations = F64.finite f →
      o + f ≤ 2 ^ 53 →
      (0 < o + f →
        (getCurrentPromValues host result testConfig).SuccessRatio
            = F64.finite ((o : ℚ) / ((o : ℚ) + f))
        ∧ (getCurrentPromValues host result testConfig).SuccessRatio.inUnitInterval
        ∧ ((getCurrentPromValues host result testConfig).SuccessRatio = F64.finite 1 ↔ f = 0)
        ∧ rounding.round ((o : ℚ) + f) = (o : ℚ) + f
        ∧ 0 ≤ rounding.round ((o : ℚ) / ((o : ℚ) + f))
        ∧ rounding.round ((o : ℚ) / ((o : ℚ) + f)) ≤ 1
        ∧ (rounding.round ((o : ℚ) / ((o : ℚ) + f)) = 1 ↔ f = 0))
      ∧ (o + f = 0 → (getCurrentPromValues host result testConfig).SuccessRatio = F64.nan))
    ∧ ∃ sum, sumBenchmarkResults results = some sum
      ∧ ∀ o f : ℕ, sum.Operations = F64.finite o → sum.FailedOperations = F64.finite f →
        o + f ≤ 2 ^ 53 →
        (0 < o + f →
          sum.SuccessRatio = F64.finite ((o : ℚ) / ((o : ℚ) + f))
          ∧ sum.SuccessRatio.inUnitInterval
          ∧ (sum.SuccessRatio = F64.finite 1 ↔ f = 0)
          ∧ rounding.round ((o : ℚ) + f) = (o : ℚ) + f
          ∧ 0 ≤ rounding.round ((o : ℚ) / ((o : ℚ) + f))
          ∧ rounding.round ((o : ℚ) / ((o : ℚ) + f)) ≤ 1
          ∧ (rounding.round ((o : ℚ) / ((o : ℚ) + f)) = 1 ↔ f = 0))
        ∧ (o + f = 0 → sum.SuccessRatio = F64.nan) := by
  have key : ∀ (ratio : F64) (o f : ℕ),
      ratio = F64.finite (o : ℚ) / (F64.finite (o : ℚ) + F64.finite (f : ℚ)) →
      o + f ≤ 2 ^ 53 →
      (0 < o + f →
        ratio = F64.finite ((o : ℚ) / ((o : ℚ) + f))
        ∧ ratio.inUnitInterval
        ∧ (ratio = F64.finite 1 ↔ f = 0)
        ∧ rounding.round ((o : ℚ) + f) = (o : ℚ) + f
        ∧ 0 ≤ rounding.round ((o : ℚ) / ((o : ℚ) + f))
        ∧ rounding.round ((o : ℚ) / ((o : ℚ) + f)) ≤ 1
        ∧ (rounding.round ((o : ℚ) / ((o : ℚ) + f)) = 1 ↔ f = 0))
      ∧ (o + f = 0 → ratio = F64.nan) := by
    intro ratio o f hratio hb
    have ho : (0 : ℚ) ≤ o := by positivity
    have hf : (0 : ℚ) ≤ f := by positivity
    obtain ⟨hposCase, hzeroCase⟩ := successRatio_of_counts (o : ℚ) (f : ℚ) ho hf
    constructor
    · intro hpos
      have hposq : (0 : ℚ) < (o : ℚ) + f := by exact_mod_cast hpos
      obtain ⟨hunit, hone⟩ := hposCase hposq
      obtain ⟨hsum, hr0, hr1, hriff⟩ := successRatio_rounded rounding o f hpos hb
      have hval : ratio = F64.finite ((o : ℚ) / ((o : ℚ) + f)) := by
        rw [hratio, F64.finite_add_finite, F64.finite_div_finite, if_neg hposq.ne.symm]
      refine ⟨hval, ?_, ?_, hsum, hr0, hr1, hriff⟩
      · rw [hratio]
        exact hunit
      · rw [hratio]
        exact hone.trans (by exact_mod_cast Iff.rfl)
    · intro hzero
      rw [hratio]
      exact hzeroCase (by exact_mod_cast hzero)
  constructor
  · intro o f hO hF hb
    apply key _ o f _ hb
    have hratio : (getCurrentPromValues host result testConfig).SuccessRatio
        = (getCurrentPromValues host result testConfig).Operations
          / ((getCurrentPromValues host result testConfig).Operations
            + (getCurrentPromValues host result testConfig).FailedOperations) := rfl
    rw [hratio, hO, hF]
  · cases results with
    | nil => exact absurd rfl hne
    | cons first rest =>
      refine ⟨_, rfl, ?_⟩
      intro o f hO hF hb
      apply key _ o f _ hb
      have hO1 : (List.foldl sumBenchmarkStep
          (BenchmarkResult.zero, F64.finite 0, F64.finite 0, F64.finite 0)
          (first :: rest)).1.Operations = F64.finite o := hO
      have hF1 : (List.foldl sumBenchmarkStep
          (BenchmarkResult.zero, F64.finite 0, F64.finite 0, F64.finite 0)
          (first :: rest)).1.FailedOperations = F64.finite f := hF
      show _ / (_ + _) = _
      rw [hO1, hF1]

/-- Witness for C7 amended: 3 finished and 1 failed operation give the ratio 3/4, which is in
`[0, 1]` and is not 1. -/
theorem successRatio_bounds_witness :
    (getCurrentPromValues "host" exampleMetrics exampleTestCase).SuccessRatio
        = F64.finite (((3 : ℕ) : ℚ) / (((3 : ℕ) : ℚ) + ((1 : ℕ) : ℚ)))
    ∧ (getCurrentPromValues "host" exampleMetrics exampleTestCase).SuccessRatio.inUnitInterval
    ∧ ((getCurrentPromValues "host" exampleMetrics exampleTestCase).SuccessRatio = F64.finite 1
        ↔ 1 = 0)
    ∧ (exactRounding.round (((3 : ℕ) : ℚ) / (((3 : ℕ) : ℚ) + ((1 : ℕ) : ℚ))) = 1 ↔ 1 = 0) :=
  have h := ((successRatio_bounds exactRounding "host" exampleMetrics exampleTestCase
    exampleResults (by decide)).1 3 1 (by decide!) (by decide!) (by norm_num)).1 (by norm_num)
  ⟨h.1, h.2.1, h.2.2.1, h.2.2.2.2.2.2⟩

/-- C8 as stated fails: when nothing has been counted for the test, `Operations +
FailedOperations` is 0 and the reported object size is NaN, not 0. -/
theorem getCurrentPromValues_objectSize_nan :
    (getCurrentPromValues "host" [] exampleTestCase).Operations
        + (getCurrentPromValues "host" [] exampleTestCase).FailedOperations = F64.finite 0
    ∧ (getCurrentPromValues "host" [] exampleTestCase).ObjectSize = F64.nan
    ∧ (getCurrentPromValues "host" [] exampleTestCase).ObjectSize ≠ F64.finite 0 := by
  simp [getCurrentPromValues, resultmap, sumCounterForTest, F64.finite_add_finite,
    F64.finite_div_finite]

/-- C8 amended: on gathered metrics (label names unique within a metric) the operations, the
failed operations and the bytes are the sums of the counters that carry the label of the
test, and the object size is `Bytes / (Operations + FailedOperations)` in `float64` division
without a guard: when `Operations + FailedOperations` is 0 the object size is not a finite
number, and it is NaN when no byte was counted. -/
theorem getCurrentPromValues_objectSize (host : String) (result : List MetricFamily)
    (testConfig : TestCaseConfiguration)
    (hwf : ∀ family ∈ result, uniqueLabelNames family.Metric) :
    (getCurrentPromValues host result testConfig).Operations
        = specCounterSum (resultmap result "gosbench_finished_ops") testConfig.Name
    ∧ (getCurrentPromValues host result testConfig).FailedOperations
        = specCounterSum (resultmap result "gosbench_failed_ops") testConfig.Name
    ∧ (getCurrentPromValues host result testConfig).Bytes
        = specCounterSum (resultmap result "gosbench_uploaded_bytes") testConfig.Name
          + specCounterSum (resultmap result "gosbench_downloaded_bytes") testConfig.Name
    ∧ (getCurrentPromValues host result testConfig).ObjectSize
        = (getCurrentPromValues host result testConfig).Bytes
          / ((getCurrentPromValues host result testConfig).Operations
            + (getCurrentPromValues host result testConfig).FailedOperations)
    ∧ ((getCurrentPromValues host result testConfig).Operations
          + (getCurrentPromValues host result testConfig).FailedOperations = F64.finite 0 →
        (∀ q, (getCurrentPromValues host result testConfig).ObjectSize ≠ F64.finite q)
        ∧ ((getCurrentPromValues host result testConfig).Bytes = F64.finite 0 →
          (getCurrentPromValues host result testConfig).ObjectSize = F64.nan)) := by
  have h1 := sumCounterForTest_eq_spec _ testConfig.Name
    (resultmap_unique result "gosbench_finished_ops" hwf)
  have h2 := sumCounterForTest_eq_spec _ testConfig.Name
    (resultmap_unique result "gosbench_failed_ops" hwf)
  have h3 := sumCounterForTest_eq_spec _ testConfig.Name
    (resultmap_unique result "gosbench_uploaded_bytes" hwf)
  have h4 := sumCounterForTest_eq_spec _ testConfig.Name
    (resultmap_unique result "gosbench_downloaded_bytes" hwf)
  refine ⟨h1, h2, ?_, rfl, ?_⟩
  · show sumCounterForTest _ _ + sumCounterForTest _ _ = _
    rw [h3, h4]
  · intro hzero
    have hsize : (getCurrentPromValues host result testConfig).ObjectSize
        = (getCurrentPromValues host result testConfig).Bytes / F64.finite 0 := by
      rw [← hzero]
      rfl
    refine ⟨fun q => ?_, fun hbytes => ?_⟩
    · rw [hsize]
      exact F64.div_zero_not_finite _ q
    · rw [hsize, hbytes, F64.finite_div_finite]
      simp

/-- Witness for C8 amended on metrics gathered after 3 finished and 1 failed operation. -/
theorem getCurrentPromValues_objectSize_witness :
    (getCurrentPromValues "host" exampleMetrics exampleTestCase).Operations
        = specCounterSum (resultmap exampleMetrics "gosbench_finished_ops") "example"
    ∧ (getCurrentPromValues "host" exampleMetrics exampleTestCase).ObjectSize = F64.finite 4096 :=
  ⟨(getCurrentPromValues_objectSize "host" exampleMetrics exampleTestCase (by decide)).1,
    by decide!⟩

/-- C9 as stated fails: with no matching metric the total sample count is 0 and the average is
NaN, not 0. -/
theorem averageHistogramForTest_nan :
    averageHistogramForTest [] "example" = F64.nan
    ∧ averageHistogramForTest [] "example" ≠ F64.finite 0
    ∧ averageHistogramForTest [otherMetric 0 500 7] "example" = F64.nan := by
  decide!

/-- C9 amended: on gathered metrics (label names unique within a metric)
`averageHistogramForTest` returns the sum of `SampleSum` divided by the sum of `SampleCount`,
both over exactly the metrics that carry the label of the test, in `float64` division without
a guard: when that total sample count is 0 the result is not a finite number, and it is NaN
when the total sum is 0 too. -/
theorem averageHistogramForTest_eq (metrics : List Metric) (testName : String)
    (hwf : uniqueLabelNames metrics) :
    averageHistogramForTest metrics testName
        = (specHistogramSums metrics testName).1 / (specHistogramSums metrics testName).2
    ∧ ((specHistogramSums metrics testName).2 = F64.finite 0 →
        (∀ q, averageHistogramForTest metrics testName ≠ F64.finite q)
        ∧ ((specHistogramSums metrics testName).1 = F64.finite 0 →
          averageHistogramForTest metrics testName = F64.nan)) := by
  have havg : averageHistogramForTest metrics testName
      = (specHistogramSums metrics testName).1 / (specHistogramSums metrics testName).2 := by
    unfold averageHistogramForTest specHistogramSums
    rw [averageHistogram_foldl metrics testName hwf]
    rfl
  refine ⟨havg, fun hzero => ⟨fun q => ?_, fun hsum => ?_⟩⟩
  · rw [havg, hzero]
    exact F64.div_zero_not_finite _ q
  · rw [havg, hzero, hsum, F64.finite_div_finite]
    simp

/-- Witness for C9 amended: two matching histograms with sums 30 and 50 and 2 observations
each average to 20; the histogram of the other test is left out. -/
theorem averageHistogramForTest_eq_witness :
    averageHistogramForTest (resultmap exampleMetrics "gosbench_ops_latency") "example"
        = (specHistogramSums (resultmap exampleMetrics "gosbench_ops_latency") "example").1
          / (specHistogramSums (resultmap exampleMetrics "gosbench_ops_latency") "example").2
    ∧ averageHistogramForTest (resultmap exampleMetrics "gosbench_ops_latency") "example"
        = F64.finite 20 :=
  ⟨(averageHistogramForTest_eq (resultmap exampleMetrics "gosbench_ops_latency") "example"
      (by decide)).1, by decide!⟩

/-! ### Aggregation of the driver results -/

theorem wrapInt64_add_left (a b : Int) : wrapInt64 (wrapInt64 a + b) = wrapInt64 (a + b) := by
  unfold wrapInt64
  omega

theorem wrapInt64_of_range (a : Int) (h : -2 ^ 63 ≤ a ∧ a < 2 ^ 63) : wrapInt64 a = a := by
  unfold wrapInt64
  omega

theorem workers_foldl (results : List BenchmarkResult) (a : Int) :
    results.foldl (fun w result => wrapInt64 (w + result.Workers)) (wrapInt64 a)
      = wrapInt64 (a + (results.map BenchmarkResult.Workers).sum) := by
  induction results generalizing a with
  | nil => simp
  | cons result results ih =>
    rw [List.foldl_cons, wrapInt64_add_left, ih, List.map_cons, List.sum_cons, add_assoc]

/-- The loop of `sumBenchmarkResults` keeps one independent running sum per field. -/
theorem sumBenchmark_foldl (results : List BenchmarkResult)
    (acc : BenchmarkResult × F64 × F64 × F64) :
    (results.foldl sumBenchmarkStep acc).1.Bytes
        = (results.map BenchmarkResult.Bytes).foldl (fun acc x => acc + x) acc.1.Bytes
    ∧ (results.foldl sumBenchmarkStep acc).1.Operations
        = (results.map BenchmarkResult.Operations).foldl (fun acc x => acc + x) acc.1.Operations
    ∧ (results.foldl sumBenchmarkStep acc).1.FailedOperations
        = (results.map BenchmarkResult.FailedOperations).foldl (fun acc x => acc + x)
            acc.1.FailedOperations
    ∧ (results.foldl sumBenchmarkStep acc).1.OpsPerSecond
        = (results.map BenchmarkResult.OpsPerSecond).foldl (fun acc x => acc + x)
            acc.1.OpsPerSecond
    ∧ (results.foldl sumBenchmarkStep acc).1.Workers
        = results.foldl (fun w result => wrapInt64 (w + result.Workers)) acc.1.Workers
    ∧ (results.foldl sumBenchmarkStep acc).2.1
        = (results.map BenchmarkResult.Bandwidth).foldl (fun acc x => acc + x) acc.2.1
    ∧ (results.foldl sumBenchmarkStep acc).2.2.1
        = (results.map BenchmarkResult.LatencyAvg).foldl (fun acc x => acc + x) acc.2.2.1
    ∧ (results.foldl sumBenchmarkStep acc).2.2.2
        = (results.map BenchmarkResult.ObjectSize).foldl (fun acc x => acc + x) acc.2.2.2 := by
  induction results generalizing acc with
  | nil => exact ⟨rfl, rfl, rfl, rfl, rfl, rfl, rfl, rfl⟩
  | cons result results ih =>
    simp only [List.foldl_cons, List.map_cons]
    exact ih (sumBenchmarkStep acc result)

/-- The sum of finite values is the finite value of their rational sum. -/
theorem F64.sum_finite (qs : List ℚ) : F64.sum (qs.map F64.finite) = F64.finite qs.sum := by
  unfold F64.sum
  suffices h : ∀ a : ℚ, (qs.map F64.finite).foldl (fun acc x => acc + x) (F64.finite a)
      = F64.finite (a + qs.sum) by simpa using h 0
  induction qs with
  | nil => intro a; simp
  | cons q qs ih =>
    intro a
    rw [List.map_cons, List.foldl_cons, F64.finite_add_finite, ih, List.sum_cons, add_assoc]

/-- C10: for a non-empty list of driver results `sumBenchmarkResults` returns a result whose
operations, failed operations, bytes, operations per second, workers and bandwidth are the
sums of those fields over the list (the workers as a wrapping 64-bit sum, which is the plain
sum whenever that fits), whose average latency and object size are the sums of those fields
divided by the length of the list, and whose success ratio is the summed operations divided by
the summed operations plus the summed failed operations. -/
theorem sumBenchmarkResults_sums (results : List BenchmarkResult) (hne : results ≠ []) :
    ∃ sum, sumBenchmarkResults results = some sum
      ∧ sum.Operations = F64.sum (results.map BenchmarkResult.Operations)
      ∧ sum.FailedOperations = F64.sum (results.map BenchmarkResult.FailedOperations)
      ∧ sum.Bytes = F64.sum (results.map BenchmarkResult.Bytes)
      ∧ sum.OpsPerSecond = F64.sum (results.map BenchmarkResult.OpsPerSecond)
      ∧ sum.Workers = wrapInt64 (results.map BenchmarkResult.Workers).sum
      ∧ (-2 ^ 63 ≤ (results.map BenchmarkResult.Workers).sum
          ∧ (results.map BenchmarkResult.Workers).sum < 2 ^ 63 →
        sum.Workers = (results.map BenchmarkResult.Workers).sum)
      ∧ sum.Bandwidth = F64.sum (results.map BenchmarkResult.Bandwidth)
      ∧ sum.LatencyAvg = F64.sum (results.map BenchmarkResult.LatencyAvg)
          / F64.finite (results.length : ℚ)
      ∧ sum.ObjectSize = F64.sum (results.map BenchmarkResult.ObjectSize)
          / F64.finite (results.length : ℚ)
      ∧ sum.SuccessRatio = F64.sum (results.map BenchmarkResult.Operations)
          / (F64.sum (results.map BenchmarkResult.Operations)
            + F64.sum (results.map BenchmarkResult.FailedOperations)) := by
  obtain ⟨hB, hO, hF, hS, hW, hBw, hL, hOs⟩ := sumBenchmark_foldl results
    (BenchmarkResult.zero, F64.finite 0, F64.finite 0, F64.finite 0)
  have hW2 : (results.foldl sumBenchmarkStep
      (BenchmarkResult.zero, F64.finite 0, F64.finite 0, F64.finite 0)).1.Workers
      = wrapInt64 (results.map BenchmarkResult.Workers).sum := by
    rw [hW]
    have := workers_foldl results 0
    rw [zero_add] at this
    rw [← this]
    rfl
  cases results with
  | nil => exact absurd rfl hne
  | cons first rest =>
    refine ⟨_, rfl, hO, hF, hB, hS, hW2, ?_, hBw, ?_, ?_, ?_⟩
    · intro hrange
      exact hW2.trans (wrapInt64_of_range _ hrange)
    · show _ / _ = _
      rw [hL]
      rfl
    · show _ / _ = _
      rw [hOs]
      rfl
    · show _ / (_ + _) = _
      rw [hO, hF]
      rfl

/-- Witness for C10 on the results of two drivers: 8 operations by 8 workers. -/
theorem sumBenchmarkResults_sums_witness :
    ∃ sum, sumBenchmarkResults exampleResults = some sum
      ∧ sum.Operations = F64.finite 8 ∧ sum.Workers = 8 := by
  obtain ⟨sum, hsum, hO, -, -, -, -, hW, -⟩ :=
    sumBenchmarkResults_sums exampleResults (by decide)
  refine ⟨sum, hsum, ?_, ?_⟩
  · rw [hO]
    decide!
  · rw [hW (by decide)]
    decide

/-! ### Distributions -/

theorem EvaluateDistribution_sequential (min max lastNumber increment random : Nat) :
    EvaluateDistribution min max lastNumber increment "sequential" random
      = if addUint64 lastNumber increment > max then some (max, lastNumber)
        else some (addUint64 lastNumber increment, addUint64 lastNumber increment) := by
  unfold EvaluateDistribution
  rw [if_neg (by decide), if_neg (by decide), if_pos rfl]

theorem EvaluateDistribution_random (min max lastNumber increment random : Nat) :
    EvaluateDistribution min max lastNumber increment "random" random
      = if subUint64 max min = 0 then none
        else some (addUint64 (random % subUint64 max min) min, lastNumber) := by
  unfold EvaluateDistribution
  rw [if_neg (by decide), if_pos rfl]

/-- C15: in `sequential` mode, when `last + increment` does not overflow 64 bits,
`EvaluateDistribution` returns the smaller of `last + increment` and `max`. -/
theorem EvaluateDistribution_sequential_returns (min max lastNumber increment random : Nat)
    (h : lastNumber + increment < 2 ^ 64) :
    ∃ stored, EvaluateDistribution min max lastNumber increment "sequential" random
      = some (Nat.min (lastNumber + increment) max, stored) := by
  rw [EvaluateDistribution_sequential]
  have hadd : addUint64 lastNumber increment = lastNumber + increment := Nat.mod_eq_of_lt h
  rw [hadd]
  by_cases hgt : lastNumber + increment > max
  · rw [if_pos hgt]
    have hmin : Nat.min (lastNumber + increment) max = max := Nat.min_eq_right (by omega)
    exact ⟨lastNumber, by rw [hmin]⟩
  · rw [if_neg hgt]
    have hmin : Nat.min (lastNumber + increment) max = lastNumber + increment :=
      Nat.min_eq_left (by omega)
    exact ⟨lastNumber + increment, by rw [hmin]⟩

/-- Witness for C15: from 8 with increment 5 and maximum 10 the returned number is 10. -/
theorem EvaluateDistribution_sequential_returns_witness :
    ∃ stored, EvaluateDistribution 1 10 8 5 "sequential" 0 = some (10, stored) :=
  EvaluateDistribution_sequential_returns 1 10 8 5 0 (by decide)

/-- C16 as stated fails: from 8 with increment 5 and maximum 10 the call returns 10 and the
stored last value is still 8. -/
theorem EvaluateDistribution_sequential_capped_keeps_last :
    EvaluateDistribution 1 10 8 5 "sequential" 0 = some (10, 8) := by
  decide

/-- C16 amended: in `sequential` mode the stored last value equals the returned value, which
is `last + increment`, whenever `last + increment` does not exceed `max`; when it exceeds
`max` the returned value is `max` and the stored last value is left unchanged. -/
theorem EvaluateDistribution_sequential_stored (min max lastNumber increment random : Nat)
    (h : lastNumber + increment < 2 ^ 64) :
    (lastNumber + increment ≤ max →
      EvaluateDistribution min max lastNumber increment "sequential" random
        = some (lastNumber + increment, lastNumber + increment))
    ∧ (max < lastNumber + increment →
      EvaluateDistribution min max lastNumber increment "sequential" random
        = some (max, lastNumber)) := by
  rw [EvaluateDistribution_sequential]
  have hadd : addUint64 lastNumber increment = lastNumber + increment := Nat.mod_eq_of_lt h
  rw [hadd]
  constructor
  · intro hle
    rw [if_neg (by omega)]
  · intro hgt
    rw [if_pos hgt]

/-- Witness for C16 amended: from 3 with increment 5 and maximum 10 the call returns 8 and
stores 8. -/
theorem EvaluateDistribution_sequential_stored_witness :
    EvaluateDistribution 1 10 3 5 "sequential" 0 = some (8, 8) :=
  (EvaluateDistribution_sequential_stored 1 10 3 5 0 (by decide)).1 (by decide)

/-- C17: in `random` mode with `min < max` (both 64-bit values) `EvaluateDistribution` returns
a value `r` with `min ≤ r < max` for every value of the random generator, and the stored last
value is unchanged. -/
theorem EvaluateDistribution_random_range (min max lastNumber increment random : Nat)
    (hlt : min < max) (hmax : max < 2 ^ 64) :
    ∃ r, EvaluateDistribution min max lastNumber increment "random" random
        = some (r, lastNumber)
      ∧ min ≤ r ∧ r < max := by
  rw [EvaluateDistribution_random]
  have hsub : subUint64 max min = max - min := by
    unfold subUint64
    rw [Nat.mod_eq_of_lt (by omega : min < 2 ^ 64)]
    omega
  rw [hsub, if_neg (by omega)]
  have hmod : random % (max - min) < max - min := Nat.mod_lt _ (by omega)
  refine ⟨_, rfl, ?_, ?_⟩
  · unfold addUint64
    rw [Nat.mod_eq_of_lt (by omega)]
    omega
  · unfold addUint64
    rw [Nat.mod_eq_of_lt (by omega)]
    omega

/-- Witness for C17: between 4 and 10 the random value 123456789 gives 7. -/
theorem EvaluateDistribution_random_range_witness :
    ∃ r, EvaluateDistribution 4 10 0 1 "random" 123456789 = some (r, 0) ∧ 4 ≤ r ∧ r < 10 :=
  EvaluateDistribution_random_range 4 10 0 1 123456789 (by decide) (by decide)

/-! ### Durations read from YAML -/

/-- C14, the defect: `UnmarshalYAML` hands its local duration to the callback by value, so
whenever the callback succeeds the receiver is set to 0, whatever the YAML node holds; for a
node holding `30s` the receiver becomes 0, not 30 seconds. -/
theorem UnmarshalYAML_stores_zero :
    (∀ (d : Int) (unmarshal : YamlTarget → YamlOutcome),
      (Duration.UnmarshalYAML d unmarshal).1 = none → (Duration.UnmarshalYAML d unmarshal).2 = 0)
    ∧ Duration.UnmarshalYAML 5 (decodeDurationNode 30000000000) = (none, 0) := by
  refine ⟨?_, rfl⟩
  intro d unmarshal h
  unfold Duration.UnmarshalYAML at h ⊢
  dsimp only at h ⊢
  cases herr : (unmarshal (YamlTarget.value 0)).err with
  | none => rfl
  | some err =>
    rw [herr] at h
    exact absurd h (Option.some_ne_none _)

/-! ### Credential assignment -/

theorem newDriverConf_of_credentials (config : Testconf) (test : TestCaseConfiguration)
    (driver : Nat) (hcreds : config.S3Config ≠ []) :
    ∃ s3Config, config.S3Config.get? (driver % config.S3Config.length) = some s3Config
      ∧ newDriverConf config test driver
        = some { Test := test, S3Config := s3Config, DriverID := "d" ++ toString driver } := by
  have hlen : 0 < config.S3Config.length := List.length_pos.mpr hcreds
  have hlt : driver % config.S3Config.length < config.S3Config.length := Nat.mod_lt _ hlen
  obtain ⟨s3Config, hget⟩ : ∃ s3Config,
      config.S3Config.get? (driver % config.S3Config.length) = some s3Config :=
    ⟨_, List.get?_eq_get hlt⟩
  refine ⟨s3Config, hget, ?_⟩
  unfold newDriverConf
  rw [if_neg (by omega), hget]

theorem stageLoop_spec (config : Testconf) (test : TestCaseConfiguration)
    (hcreds : config.S3Config ≠ []) (remaining driver : Nat) (readyDrivers : List Conn)
    (hready : remaining ≤ readyDrivers.length) :
    ∃ staged, stageLoop config test remaining driver readyDrivers = some staged
      ∧ staged.length = remaining
      ∧ ∀ i, i < remaining →
        ∃ conn conf, staged.get? i = some (conn, conf) ∧ readyDrivers.get? i = some conn
          ∧ config.S3Config.get? ((driver + i) % config.S3Config.length) = some conf.S3Config
          ∧ conf.Test = test ∧ conf.DriverID = "d" ++ toString (driver + i) := by
  induction remaining generalizing driver readyDrivers with
  | zero => exact ⟨[], rfl, rfl, fun i hi => absurd hi (Nat.not_lt_zero i)⟩
  | succ remaining ih =>
    obtain ⟨s3Config, hget, hconf⟩ := newDriverConf_of_credentials config test driver hcreds
    cases readyDrivers with
    | nil => exact absurd hready (by simp)
    | cons conn rest =>
      have hrest : remaining ≤ rest.length := by
        simpa using hready
      obtain ⟨staged, hstaged, hlen, hall⟩ := ih (driver + 1) rest hrest
      obtain ⟨conf0, hconf0⟩ : ∃ conf0 : DriverConf, conf0
          = { Test := test, S3Config := s3Config, DriverID := "d" ++ toString driver } := ⟨_, rfl⟩
      rw [← hconf0] at hconf
      refine ⟨(conn, conf0) :: staged, ?_, by simp [hlen], ?_⟩
      · simp only [stageLoop, hconf, hstaged]
      · intro i hi
        cases i with
        | zero =>
          refine ⟨conn, conf0, rfl, rfl, ?_, ?_, ?_⟩
          · rw [hconf0]; exact hget
          · rw [hconf0]
          · rw [hconf0]; rfl
        | succ i =>
          obtain ⟨c, conf, h1, h2, h3, h4, h5⟩ := hall i (by omega)
          have hidx : driver + (i + 1) = driver + 1 + i := by omega
          refine ⟨c, conf, h1, h2, ?_, h4, ?_⟩
          · rw [hidx]; exact h3
          · rw [hidx]; exact h5

/-- C18: for a test with `n ≥ 0` drivers, a non-empty credentials list and at least `n` ready
connections, `scheduleTests` builds exactly `n` driver assignments, and the assignment of
slot `i` has the credentials at index `i mod len(creds)`, the test itself, and the driver
identity `d` followed by the decimal representation of `i`. -/
theorem stageDrivers_round_robin (config : Testconf) (test : TestCaseConfiguration)
    (readyDrivers : List Conn) (hcreds : config.S3Config ≠ []) (hn : 0 ≤ test.Drivers)
    (hready : test.Drivers.toNat ≤ readyDrivers.length) :
    ∃ staged, stageDrivers config test readyDrivers = some staged
      ∧ staged.length = test.Drivers.toNat
      ∧ ∀ i, i < test.Drivers.toNat →
        ∃ conn conf, staged.get? i = some (conn, conf) ∧ readyDrivers.get? i = some conn
          ∧ config.S3Config.get? (i % config.S3Config.length) = some conf.S3Config
          ∧ conf.Test = test ∧ conf.DriverID = "d" ++ toString i := by
  obtain ⟨staged, hstaged, hlen, hall⟩ :=
    stageLoop_spec config test hcreds test.Drivers.toNat 0 readyDrivers hready
  refine ⟨staged, ?_, hlen, ?_⟩
  · unfold stageDrivers
    rw [if_neg (by omega), hstaged]
  · intro i hi
    obtain ⟨c, conf, h1, h2, h3, h4, h5⟩ := hall i hi
    rw [Nat.zero_add] at h3 h5
    exact ⟨c, conf, h1, h2, h3, h4, h5⟩

/-- Witness for C18: three drivers and two sets of credentials; slot 2 gets the first set
again and the identity `d2`. -/
theorem stageDrivers_round_robin_witness :
    ∃ staged, stageDrivers exampleTestconf { exampleTestCase with Drivers := 3 }
        [silentConn "a", silentConn "b", silentConn "c", silentConn "d"] = some staged
      ∧ staged.length = 3
      ∧ (staged.get? 2).map (fun slot => (slot.2.S3Config.AccessKey, slot.2.DriverID))
        = some ("key-a", "d2") := by
  obtain ⟨staged, hstaged, hlen, -⟩ :=
    stageDrivers_round_robin exampleTestconf { exampleTestCase with Drivers := 3 }
      [silentConn "a", silentConn "b", silentConn "c", silentConn "d"] (by decide) (by decide)
      (by decide)
  refine ⟨staged, hstaged, hlen, ?_⟩
  have hval : stageDrivers exampleTestconf { exampleTestCase with Drivers := 3 }
      [silentConn "a", silentConn "b", silentConn "c", silentConn "d"]
      = some staged := hstaged
  have hcomp : (stageDrivers exampleTestconf { exampleTestCase with Drivers := 3 }
      [silentConn "a", silentConn "b", silentConn "c", silentConn "d"]).map
        (fun staged => (staged.get? 2).map
          (fun slot => (slot.2.S3Config.AccessKey, slot.2.DriverID)))
      = some (some ("key-a", "d2")) := by decide
  rw [hval] at hcomp
  exact Option.some.inj hcomp

/-! ### The session of one driver -/

/-- C19 as stated fails: a session whose driver sends a message outside the protocol keeps
its connection open and goes on reading, and signals the barrier when `preparations done`
follows; and a session whose driver answers `init` with `work done` signals the barrier and
hands over a result instead of failing. -/
theorem session_ignores_unexpected_message :
    (chattySession.run 10).1 = [.signalDone, .awaitContinue]
    ∧ (chattySession.run 10).2.closed = false
    ∧ (chattySession.run 10).2.received = ["hello", "preparations done"]
    ∧ (hastySession.run 10).1 = [.signalDone, .sendResult BenchmarkResult.zero] := by
  decide!

/-- C19 amended: a session that gets a decode error closes its connection and returns
without touching a channel again; a decoded message whose `Message` is neither
`preparations done` nor `work done` is skipped, the session keeps its connection open and
reads the next reply; and `work done` is taken as the end of the work whatever the session
has received before: the session signals, hands over the result, closes and returns. -/
theorem session_replies (session : Session) (hpc : session.pc = .decode) :
    (∀ err rest, session.replies = .decodeError err :: rest → ∀ fuel, 2 ≤ fuel →
      session.run fuel
        = ([], { session with replies := rest, closed := true, pc := .returned }))
    ∧ (∀ response rest, session.replies = .message response :: rest →
      response.Message ≠ "preparations done" → response.Message ≠ "work done" →
      session.next = some (.noOp, { session with
        replies := rest, response := response
        received := session.received ++ [response.Message], pc := .decode }))
    ∧ (∀ response rest, session.replies = .message response :: rest →
      response.Message = "work done" → ∀ fuel, 5 ≤ fuel →
      session.run fuel
        = ([.signalDone, .sendResult response.BenchResult], { session with
            replies := rest, response := response
            received := session.received ++ [response.Message]
            signals := session.signals + 1, closed := true, pc := .returned })) := by
  refine ⟨?_, ?_, ?_⟩
  · intro err rest hreplies fuel hfuel
    obtain ⟨fuel, rfl⟩ : ∃ k, fuel = k + 2 := ⟨fuel - 2, by omega⟩
    cases fuel <;> simp [Session.run, Session.next, hpc, hreplies]
  · intro response rest hreplies h1 h2
    simp [Session.next, hpc, hreplies, h1, h2]
  · intro response rest hreplies hwork fuel hfuel
    obtain ⟨fuel, rfl⟩ : ∃ k, fuel = k + 5 := ⟨fuel - 5, by omega⟩
    have hne : ¬ response.Message = "preparations done" := by
      rw [hwork]
      decide
    cases fuel <;> simp [Session.run, Session.next, hpc, hreplies, hwork]

/-- Witness for C19 amended: a session that decodes garbage closes its connection and
returns; the `preparations done` that follows is never read. -/
theorem session_replies_witness :
    garbledSession.run 10
      = ([], { garbledSession with
          replies := [replyMessage "preparations done"], closed := true, pc := .returned }) :=
  (session_replies garbledSession rfl).1 "invalid character"
    [replyMessage "preparations done"] rfl 10 (by decide)

/-! ### The first barrier -/

/-- C20 as stated fails: with two drivers of which the second answers `work done`, the
scheduler counts two signals and releases the first session, which sends `start work`
although the second driver has not sent `preparations done`. -/
theorem start_work_without_preparations :
    (∃ session ∈ (TestRun.run exampleTestconf twoDriverTest unevenSchedule
        (TestRun.init unevenDrivers)).sessions, session.startSent)
    ∧ ¬ ∀ session ∈ (TestRun.run exampleTestconf twoDriverTest unevenSchedule
        (TestRun.init unevenDrivers)).sessions, session.prepReceived := by
  decide!

/-- The effect of one step of a session on what the invariants speak about. -/
theorem Session.next_inv (session session1 : Session) (op : ChannelOp)
    (hinv : SessionInv session) (hnext : session.next = some (op, session1)) :
    SessionInv session1
    ∧ session1.signals = session.signals + (if op = .signalDone then 1 else 0)
    ∧ session1.continues = session.continues + (if op = .awaitContinue then 1 else 0) := by
  obtain ⟨hstart, hatStart, hsignalled, hatPrep, hatWork, hbound⟩ := hinv
  obtain ⟨config, pc, replies, response, sent, received, closed, signals, continues⟩ := session
  simp only [Session.startSent, Session.prepReceived, Session.workReceived] at *
  cases pc with
  | encodeInit =>
    simp only [Session.next, Option.some.injEq, Prod.mk.injEq] at hnext
    obtain ⟨rfl, rfl⟩ := hnext
    refine ⟨⟨?_, ?_, ?_, ?_, ?_, ?_⟩, by simp, by simp⟩ <;>
      simp_all [Session.startSent, Session.prepReceived, Session.workReceived, SessionPC.slack]
  | decode =>
    cases replies with
    | nil => simp [Session.next] at hnext
    | cons reply rest =>
      cases reply with
      | decodeError err =>
        simp only [Session.next, Option.some.injEq, Prod.mk.injEq] at hnext
        obtain ⟨rfl, rfl⟩ := hnext
        refine ⟨⟨?_, ?_, ?_, ?_, ?_, ?_⟩, by simp, by simp⟩ <;>
          simp_all [Session.startSent, Session.prepReceived, Session.workReceived,
            SessionPC.slack]
      | message m =>
        simp only [Session.next] at hnext
        split_ifs at hnext with h1 h2
        · simp only [Option.some.injEq, Prod.mk.injEq] at hnext
          obtain ⟨rfl, rfl⟩ := hnext
          refine ⟨⟨?_, ?_, ?_, ?_, ?_, ?_⟩, by simp, by simp⟩ <;>
            simp_all [Session.startSent, Session.prepReceived, Session.workReceived,
              SessionPC.slack]
        · simp only [Option.some.injEq, Prod.mk.injEq] at hnext
          obtain ⟨rfl, rfl⟩ := hnext
          refine ⟨⟨?_, ?_, ?_, ?_, ?_, ?_⟩, by simp, by simp⟩ <;>
            simp_all [Session.startSent, Session.prepReceived, Session.workReceived,
              SessionPC.slack]
        · simp only [Option.some.injEq, Prod.mk.injEq] at hnext
          obtain ⟨rfl, rfl⟩ := hnext
          refine ⟨⟨?_, ?_, ?_, ?_, ?_, ?_⟩, by simp, by simp⟩ <;>
            simp_all [Session.startSent, Session.prepReceived, Session.workReceived,
              SessionPC.slack]
          all_goals tauto
  | signalPrep =>
    simp only [Session.next, Option.some.injEq, Prod.mk.injEq] at hnext
    obtain ⟨rfl, rfl⟩ := hnext
    refine ⟨⟨?_, ?_, ?_, ?_, ?_, ?_⟩, by simp, by simp⟩ <;>
      simp_all [Session.startSent, Session.prepReceived, Session.workReceived, SessionPC.slack]
  | awaitContinue =>
    simp only [Session.next, Option.some.injEq, Prod.mk.injEq] at hnext
    obtain ⟨rfl, rfl⟩ := hnext
    refine ⟨⟨?_, ?_, ?_, ?_, ?_, ?_⟩, by simp, by simp⟩ <;>
      simp_all [Session.startSent, Session.prepReceived, Session.workReceived, SessionPC.slack]
  | encodeStart =>
    simp only [Session.next, Option.some.injEq, Prod.mk.injEq] at hnext
    obtain ⟨rfl, rfl⟩ := hnext
    refine ⟨⟨?_, ?_, ?_, ?_, ?_, ?_⟩, by simp, by simp⟩ <;>
      simp_all [Session.startSent, Session.prepReceived, Session.workReceived, SessionPC.slack]
  | signalWork =>
    simp only [Session.next, Option.some.injEq, Prod.mk.injEq] at hnext
    obtain ⟨rfl, rfl⟩ := hnext
    refine ⟨⟨?_, ?_, ?_, ?_, ?_, ?_⟩, by simp, by simp⟩ <;>
      simp_all [Session.startSent, Session.prepReceived, Session.workReceived, SessionPC.slack]
  | sendResult =>
    simp only [Session.next, Option.some.injEq, Prod.mk.injEq] at hnext
    obtain ⟨rfl, rfl⟩ := hnext
    refine ⟨⟨?_, ?_, ?_, ?_, ?_, ?_⟩, by simp, by simp⟩ <;>
      simp_all [Session.startSent, Session.prepReceived, Session.workReceived, SessionPC.slack]
  | closeAfterWork =>
    simp only [Session.next, Option.some.injEq, Prod.mk.injEq] at hnext
    obtain ⟨rfl, rfl⟩ := hnext
    refine ⟨⟨?_, ?_, ?_, ?_, ?_, ?_⟩, by simp, by simp⟩ <;>
      simp_all [Session.startSent, Session.prepReceived, Session.workReceived, SessionPC.slack]
  | closeAfterError =>
    simp only [Session.next, Option.some.injEq, Prod.mk.injEq] at hnext
    obtain ⟨rfl, rfl⟩ := hnext
    refine ⟨⟨?_, ?_, ?_, ?_, ?_, ?_⟩, by simp, by simp⟩ <;>
      simp_all [Session.startSent, Session.prepReceived, Session.workReceived, SessionPC.slack]
    omega
  | returned => simp [Session.next] at hnext

theorem sum_map_set (f : Session → Nat) (l : List Session) (i : Nat) (a b : Session)
    (h : l.get? i = some a) : ((l.set i b).map f).sum + f a = (l.map f).sum + f b := by
  induction l generalizing i with
  | nil => simp at h
  | cons x l ih =>
    cases i with
    | zero =>
      simp only [List.get?_cons_zero, Option.some.injEq] at h
      subst h
      simp only [List.set_cons_zero, List.map_cons, List.sum_cons]
      omega
    | succ i =>
      simp only [List.get?_cons_succ] at h
      have := ih i h
      simp only [List.set_cons_succ, List.map_cons, List.sum_cons]
      omega

/-- What a step of session `i` changes. -/
theorem TestRun.sessionStep_effect (drivers i : Nat) (s s1 : TestRun)
    (h : s.sessionStep drivers i = some s1) :
    ∃ session session1 op, s.sessions.get? i = some session
      ∧ session.next = some (op, session1)
      ∧ s1.sessions = s.sessions.set i session1
      ∧ s1.scheduler = s.scheduler ∧ s1.readyDrivers = s.readyDrivers
      ∧ s1.doneChannel = s.doneChannel + (if op = .signalDone then 1 else 0)
      ∧ (op = .awaitContinue → 0 < s.continueDrivers)
      ∧ s1.continueDrivers + (if op = .awaitContinue then 1 else 0) = s.continueDrivers := by
  unfold TestRun.sessionStep at h
  cases hget : s.sessions.get? i with
  | none =>
    rw [hget] at h
    exact absurd h (Option.noConfusion)
  | some session =>
    rw [hget] at h
    dsimp only at h
    cases hnext : session.next with
    | none =>
      rw [hnext] at h
      exact absurd h (Option.noConfusion)
    | some r =>
      obtain ⟨op, session1⟩ := r
      rw [hnext] at h
      refine ⟨session, session1, op, rfl, hnext, ?_⟩
      cases op with
      | noOp =>
        simp only [Option.some.injEq] at h
        subst h
        simp
      | signalDone =>
        simp only at h
        split_ifs at h
        simp only [Option.some.injEq] at h
        subst h
        simp
      | awaitContinue =>
        simp only at h
        split_ifs at h with hpos
        simp only [Option.some.injEq] at h
        subst h
        simp
        omega
      | sendResult result =>
        simp only at h
        split_ifs at h
        simp only [Option.some.injEq] at h
        subst h
        simp

theorem TestRun.sessionStep_inv (drivers i : Nat) (s s1 : TestRun)
    (hinv : BarrierInv drivers s) (h : s.sessionStep drivers i = some s1) :
    BarrierInv drivers s1 := by
  obtain ⟨session, session1, op, hget, hnext, hsessions, hsched, -, hdone, hpos, hcont⟩ :=
    TestRun.sessionStep_effect drivers i s s1 h
  have hmem : session ∈ s.sessions := List.get?_mem hget
  obtain ⟨hinv1, hsig, hcontinues⟩ :=
    Session.next_inv session session1 op (hinv.sessions session hmem) hnext
  have hmem1 : ∀ x ∈ s1.sessions, x ∈ s.sessions ∨ x = session1 := by
    intro x hx
    rw [hsessions] at hx
    exact List.mem_or_eq_of_mem_set hx
  refine ⟨?_, ?_, ?_, ?_, ?_⟩
  · rw [hsessions, hsched, List.length_set]
    exact hinv.count
  · intro driver hd
    rw [hsched] at hd
    exact hinv.stageLe driver hd
  · intro x hx
    rcases hmem1 x hx with hx | rfl
    · exact hinv.sessions x hx
    · exact hinv1
  · intro hpast
    rw [hsched] at hpast ⊢
    obtain ⟨hc0, hall, hsum⟩ := hinv.before hpast
    have hop : op ≠ .awaitContinue := by
      intro hop
      have := hpos hop
      omega
    rw [if_neg hop] at hcont hcontinues
    refine ⟨by omega, ?_, ?_⟩
    · intro x hx
      rcases hmem1 x hx with hx | rfl
      · exact hall x hx
      · rw [hcontinues, hall session hmem]
    · have hset := sum_map_set Session.signals s.sessions i session session1 hget
      rw [hsessions]
      omega
  · intro hpast
    rw [hsched] at hpast
    intro x hx
    rcases hmem1 x hx with hx | rfl
    · exact hinv.after hpast x hx
    · have := hinv.after hpast session hmem
      omega

theorem sum_le_length_of_le_one (l : List Nat) (h : ∀ x ∈ l, x ≤ 1) (hsum : l.length ≤ l.sum) :
    ∀ x ∈ l, 1 ≤ x := by
  induction l with
  | nil => intro x hx; cases hx
  | cons a l ih =>
    have ha := h a (List.mem_cons_self _ _)
    have hl : ∀ x ∈ l, x ≤ 1 := fun x hx => h x (List.mem_cons_of_mem _ hx)
    have hbound : l.sum ≤ l.length := by
      clear ih hsum
      induction l with
      | nil => simp
      | cons b l ih2 =>
        have hb := hl b (List.mem_cons_self _ _)
        have := ih2 (fun x hx => h x (by simp at hx ⊢; tauto))
          (fun x hx => hl x (List.mem_cons_of_mem _ hx))
        simp only [List.sum_cons, List.length_cons]
        omega
    simp only [List.sum_cons, List.length_cons] at hsum
    intro x hx
    rcases List.mem_cons.mp hx with rfl | hx
    · omega
    · exact ih hl (by omega) x hx

theorem TestRun.schedulerStep_inv (config : Testconf) (test : TestCaseConfiguration)
    (s s1 : TestRun) (hinv : BarrierInv test.Drivers.toNat s)
    (h : s.schedulerStep config test = some s1) : BarrierInv test.Drivers.toNat s1 := by
  obtain ⟨hcount, hstage, hsess, hbefore, hafter⟩ := hinv
  unfold TestRun.schedulerStep at h
  cases hpc : s.scheduler with
  | stage driver =>
    rw [hpc] at h hcount hbefore
    simp only [SchedulerPC.staged] at hcount
    have hle := hstage driver hpc
    obtain ⟨hc0, hall, hsum⟩ := hbefore rfl
    simp only at h
    split_ifs at h with hlt
    · cases hconf : newDriverConf config test driver with
      | none => simp [hconf] at h
      | some conf =>
        cases hready : s.readyDrivers with
        | nil => simp [hconf, hready] at h
        | cons conn rest =>
          simp only [hconf, hready, Option.some.injEq] at h
          subst h
          refine ⟨by simp [SchedulerPC.staged, hcount], ?_, ?_, ?_, ?_⟩
          · intro d hd
            simp only [SchedulerPC.stage.injEq] at hd
            omega
          · intro x hx
            simp only [List.mem_append, List.mem_singleton] at hx
            rcases hx with hx | rfl
            · exact hsess x hx
            · refine ⟨?_, ?_, ?_, ?_, ?_, ?_⟩ <;>
                simp [newSession, Session.startSent, Session.prepReceived,
                  Session.workReceived, SessionPC.slack]
          · intro _
            refine ⟨hc0, ?_, ?_⟩
            · intro x hx
              simp only [List.mem_append, List.mem_singleton] at hx
              rcases hx with hx | rfl
              · exact hall x hx
              · rfl
            · simp only [List.map_append, List.sum_append, List.map_cons, List.map_nil,
                List.sum_cons, List.sum_nil, SchedulerPC.taken] at hsum ⊢
              simp only [newSession]
              omega
          · intro hpast
            simp [SchedulerPC.pastBarrier] at hpast
    · simp only [Option.some.injEq] at h
      subst h
      refine ⟨?_, ?_, hsess, ?_, ?_⟩
      · simp only [SchedulerPC.staged]
        omega
      · intro d hd
        cases hd
      · intro _
        exact ⟨hc0, hall, by simpa [SchedulerPC.taken] using hsum⟩
      · intro hpast
        simp [SchedulerPC.pastBarrier] at hpast
  | barrier1 driver =>
    rw [hpc] at h hcount hbefore
    simp only [SchedulerPC.staged] at hcount
    obtain ⟨hc0, hall, hsum⟩ := hbefore rfl
    simp only [SchedulerPC.taken] at hsum
    simp only at h
    split_ifs at h with hlt hdone
    · simp only [Option.some.injEq] at h
      subst h
      refine ⟨hcount, ?_, hsess, ?_, ?_⟩
      · intro d hd
        cases hd
      · intro _
        refine ⟨hc0, hall, ?_⟩
        simp only [SchedulerPC.taken]
        omega
      · intro hpast
        simp [SchedulerPC.pastBarrier] at hpast
    · simp only [Option.some.injEq] at h
      subst h
      refine ⟨hcount, ?_, hsess, ?_, ?_⟩
      · intro d hd
        cases hd
      · intro hpast
        simp [SchedulerPC.pastBarrier] at hpast
      · intro _ x hx
        have hle1 : ∀ y ∈ s.sessions.map Session.signals, y ≤ 1 := by
          intro y hy
          obtain ⟨z, hz, rfl⟩ := List.mem_map.mp hy
          have hb := (hsess z hz).bound
          have hz0 := hall z hz
          have hslack : z.pc.slack ≤ 1 := by
            cases z.pc <;> simp [SessionPC.slack]
          omega
        have hlen : (s.sessions.map Session.signals).length
            ≤ (s.sessions.map Session.signals).sum := by
          rw [List.length_map]
          omega
        exact sum_le_length_of_le_one _ hle1 hlen _ (List.mem_map_of_mem _ hx)
  | sleep =>
    rw [hpc] at h hcount hafter
    simp only [Option.some.injEq] at h
    subst h
    refine ⟨hcount, ?_, hsess, ?_, ?_⟩
    · intro d hd
      cases hd
    · intro hpast
      simp [SchedulerPC.pastBarrier] at hpast
    · intro _
      exact hafter rfl
  | release driver =>
    rw [hpc] at h hcount hafter
    simp only at h
    split_ifs at h
    · simp only [Option.some.injEq] at h
      subst h
      refine ⟨hcount, ?_, hsess, ?_, ?_⟩
      · intro d hd
        cases hd
      · intro hpast
        simp [SchedulerPC.pastBarrier] at hpast
      · intro _
        exact hafter rfl
    · simp only [Option.some.injEq] at h
      subst h
      refine ⟨hcount, ?_, hsess, ?_, ?_⟩
      · intro d hd
        cases hd
      · intro hpast
        simp [SchedulerPC.pastBarrier] at hpast
      · intro _
        exact hafter rfl
  | barrier2 driver =>
    rw [hpc] at h hcount hafter
    simp only at h
    split_ifs at h
    · simp only [Option.some.injEq] at h
      subst h
      refine ⟨hcount, ?_, hsess, ?_, ?_⟩
      · intro d hd
        cases hd
      · intro hpast
        simp [SchedulerPC.pastBarrier] at hpast
      · intro _
        exact hafter rfl
    · simp only [Option.some.injEq] at h
      subst h
      refine ⟨hcount, ?_, hsess, ?_, ?_⟩
      · intro d hd
        cases hd
      · intro hpast
        simp [SchedulerPC.pastBarrier] at hpast
      · intro _
        exact hafter rfl
  | collect driver =>
    rw [hpc] at h hcount hafter
    cases hres : s.resultChannel with
    | nil => simp [hres] at h
    | cons result rest =>
      simp only [hres, Option.some.injEq] at h
      subst h
      refine ⟨hcount, ?_, hsess, ?_, ?_⟩
      · intro d hd
        cases hd
      · intro hpast
        simp [SchedulerPC.pastBarrier] at hpast
      · intro _
        exact hafter rfl
  | finished =>
    rw [hpc] at h
    simp at h

theorem Session.next_protocol (session session1 : Session) (op : ChannelOp)
    (hinv : ¬ session.prepReceived → ¬ session.workReceived
      ∧ (session.pc = .encodeInit ∨ session.pc = .decode
        ∨ session.pc = .closeAfterError ∨ session.pc = .returned)
      ∧ (session.pc = .encodeInit ∨ session.pc = .decode → prepFirst session.replies))
    (hnext : session.next = some (op, session1)) :
    ¬ session1.prepReceived → ¬ session1.workReceived
      ∧ (session1.pc = .encodeInit ∨ session1.pc = .decode
        ∨ session1.pc = .closeAfterError ∨ session1.pc = .returned)
      ∧ (session1.pc = .encodeInit ∨ session1.pc = .decode → prepFirst session1.replies) := by
  obtain ⟨config, pc, replies, response, sent, received, closed, signals, continues⟩ := session
  simp only [Session.prepReceived, Session.workReceived] at *
  cases pc with
  | decode =>
    cases replies with
    | nil => simp [Session.next] at hnext
    | cons reply rest =>
      cases reply with
      | decodeError err =>
        simp only [Session.next, Option.some.injEq, Prod.mk.injEq] at hnext
        obtain ⟨rfl, rfl⟩ := hnext
        intro hprep
        exact ⟨(hinv hprep).1, by simp, by simp⟩
      | message m =>
        simp only [Session.next] at hnext
        split_ifs at hnext with h1 h2
        · simp only [Option.some.injEq, Prod.mk.injEq] at hnext
          obtain ⟨rfl, rfl⟩ := hnext
          intro hprep
          simp [h1] at hprep
        · simp only [Option.some.injEq, Prod.mk.injEq] at hnext
          obtain ⟨rfl, rfl⟩ := hnext
          intro hprep
          have hold : "preparations done" ∉ received := by
            intro hmem
            exact hprep (List.mem_append_left _ hmem)
          have hfirst := (hinv hold).2.2 (Or.inr rfl)
          simp [prepFirst, h1, h2] at hfirst
        · simp only [Option.some.injEq, Prod.mk.injEq] at hnext
          obtain ⟨rfl, rfl⟩ := hnext
          intro hprep
          have hold : "preparations done" ∉ received := by
            intro hmem
            exact hprep (List.mem_append_left _ hmem)
          obtain ⟨hwork, -, hfirst⟩ := hinv hold
          refine ⟨?_, by simp, fun _ => ?_⟩
          · intro hmem
            rcases List.mem_append.mp hmem with hmem | hmem
            · exact hwork hmem
            · rw [List.mem_singleton] at hmem
              exact h2 hmem.symm
          · have := hfirst (Or.inr rfl)
            simpa [prepFirst, h1, h2] using this
  | encodeInit =>
    simp only [Session.next, Option.some.injEq, Prod.mk.injEq] at hnext
    obtain ⟨rfl, rfl⟩ := hnext
    intro hprep
    exact ⟨(hinv hprep).1, by simp, fun _ => (hinv hprep).2.2 (Or.inl rfl)⟩
  | closeAfterError =>
    simp only [Session.next, Option.some.injEq, Prod.mk.injEq] at hnext
    obtain ⟨rfl, rfl⟩ := hnext
    intro hprep
    exact ⟨(hinv hprep).1, by simp, by simp⟩
  | returned => simp [Session.next] at hnext
  | signalPrep =>
    simp only [Session.next, Option.some.injEq, Prod.mk.injEq] at hnext
    obtain ⟨rfl, rfl⟩ := hnext
    intro hprep
    have := (hinv hprep).2.1
    simp at this
  | awaitContinue =>
    simp only [Session.next, Option.some.injEq, Prod.mk.injEq] at hnext
    obtain ⟨rfl, rfl⟩ := hnext
    intro hprep
    have := (hinv hprep).2.1
    simp at this
  | encodeStart =>
    simp only [Session.next, Option.some.injEq, Prod.mk.injEq] at hnext
    obtain ⟨rfl, rfl⟩ := hnext
    intro hprep
    have := (hinv hprep).2.1
    simp at this
  | signalWork =>
    simp only [Session.next, Option.some.injEq, Prod.mk.injEq] at hnext
    obtain ⟨rfl, rfl⟩ := hnext
    intro hprep
    have := (hinv hprep).2.1
    simp at this
  | sendResult =>
    simp only [Session.next, Option.some.injEq, Prod.mk.injEq] at hnext
    obtain ⟨rfl, rfl⟩ := hnext
    intro hprep
    have := (hinv hprep).2.1
    simp at this
  | closeAfterWork =>
    simp only [Session.next, Option.some.injEq, Prod.mk.injEq] at hnext
    obtain ⟨rfl, rfl⟩ := hnext
    intro hprep
    have := (hinv hprep).2.1
    simp at this

theorem TestRun.sessionStep_protocol (drivers i : Nat) (s s1 : TestRun)
    (hinv : ProtocolInv s) (h : s.sessionStep drivers i = some s1) : ProtocolInv s1 := by
  obtain ⟨session, session1, op, hget, hnext, hsessions, -, hready, -⟩ :=
    TestRun.sessionStep_effect drivers i s s1 h
  have hmem : session ∈ s.sessions := List.get?_mem hget
  refine ⟨?_, ?_⟩
  · rw [hready]
    exact hinv.ready
  · intro x hx
    rw [hsessions] at hx
    rcases List.mem_or_eq_of_mem_set hx with hx | rfl
    · exact hinv.sessions x hx
    · exact Session.next_protocol session x op (hinv.sessions session hmem) hnext

theorem TestRun.schedulerStep_protocol (config : Testconf) (test : TestCaseConfiguration)
    (s s1 : TestRun) (hinv : ProtocolInv s) (h : s.schedulerStep config test = some s1) :
    ProtocolInv s1 := by
  obtain ⟨hready, hsess⟩ := hinv
  unfold TestRun.schedulerStep at h
  cases hpc : s.scheduler with
  | stage driver =>
    rw [hpc] at h
    simp only at h
    split_ifs at h with hlt
    · cases hconf : newDriverConf config test driver with
      | none => simp [hconf] at h
      | some conf =>
        cases hrd : s.readyDrivers with
        | nil => simp [hconf, hrd] at h
        | cons conn rest =>
          simp only [hconf, hrd, Option.some.injEq] at h
          subst h
          rw [hrd] at hready
          refine ⟨fun c hc => hready c (List.mem_cons_of_mem _ hc), ?_⟩
          intro x hx
          simp only [List.mem_append, List.mem_singleton] at hx
          rcases hx with hx | rfl
          · exact hsess x hx
          · intro _
            refine ⟨?_, Or.inl rfl, fun _ => hready conn (List.mem_cons_self _ _)⟩
            simp [Session.workReceived, newSession]
    · simp only [Option.some.injEq] at h
      subst h
      exact ⟨hready, hsess⟩
  | barrier1 driver =>
    rw [hpc] at h
    simp only at h
    split_ifs at h <;> simp only [Option.some.injEq] at h <;> subst h <;> exact ⟨hready, hsess⟩
  | sleep =>
    rw [hpc] at h
    simp only [Option.some.injEq] at h
    subst h
    exact ⟨hready, hsess⟩
  | release driver =>
    rw [hpc] at h
    simp only at h
    split_ifs at h <;> simp only [Option.some.injEq] at h <;> subst h <;> exact ⟨hready, hsess⟩
  | barrier2 driver =>
    rw [hpc] at h
    simp only at h
    split_ifs at h <;> simp only [Option.some.injEq] at h <;> subst h <;> exact ⟨hready, hsess⟩
  | collect driver =>
    rw [hpc] at h
    cases hres : s.resultChannel with
    | nil => simp [hres] at h
    | cons result rest =>
      simp only [hres, Option.some.injEq] at h
      subst h
      exact ⟨hready, hsess⟩
  | finished =>
    rw [hpc] at h
    simp at h

theorem TestRun.init_inv (drivers : Nat) (readyDrivers : List Conn) :
    BarrierInv drivers (TestRun.init readyDrivers) := by
  refine ⟨rfl, ?_, ?_, ?_, ?_⟩
  · intro d hd
    simp only [TestRun.init, SchedulerPC.stage.injEq] at hd
    omega
  · intro x hx
    simp [TestRun.init] at hx
  · intro _
    exact ⟨rfl, fun x hx => by simp [TestRun.init] at hx, rfl⟩
  · intro hpast
    simp [TestRun.init, SchedulerPC.pastBarrier] at hpast

theorem TestRun.run_inv (config : Testconf) (test : TestCaseConfiguration)
    (schedule : List Actor) (s : TestRun) (hinv : BarrierInv test.Drivers.toNat s) :
    BarrierInv test.Drivers.toNat (TestRun.run config test schedule s) := by
  induction schedule generalizing s with
  | nil => exact hinv
  | cons actor schedule ih =>
    unfold TestRun.run
    rw [List.foldl_cons]
    apply ih
    cases actor with
    | scheduler =>
      cases hstep : s.schedulerStep config test with
      | none => simpa [TestRun.step, hstep] using hinv
      | some s1 =>
        simpa [TestRun.step, hstep] using TestRun.schedulerStep_inv config test s s1 hinv hstep
    | session i =>
      cases hstep : s.sessionStep test.Drivers.toNat i with
      | none => simpa [TestRun.step, hstep] using hinv
      | some s1 =>
        simpa [TestRun.step, hstep] using
          TestRun.sessionStep_inv test.Drivers.toNat i s s1 hinv hstep

theorem TestRun.run_protocol (config : Testconf) (test : TestCaseConfiguration)
    (schedule : List Actor) (s : TestRun) (hinv : ProtocolInv s) :
    ProtocolInv (TestRun.run config test schedule s) := by
  induction schedule generalizing s with
  | nil => exact hinv
  | cons actor schedule ih =>
    unfold TestRun.run
    rw [List.foldl_cons]
    apply ih
    cases actor with
    | scheduler =>
      cases hstep : s.schedulerStep config test with
      | none => simpa [TestRun.step, hstep] using hinv
      | some s1 =>
        simpa [TestRun.step, hstep] using
          TestRun.schedulerStep_protocol config test s s1 hinv hstep
    | session i =>
      cases hstep : s.sessionStep test.Drivers.toNat i with
      | none => simpa [TestRun.step, hstep] using hinv
      | some s1 =>
        simpa [TestRun.step, hstep] using
          TestRun.sessionStep_protocol test.Drivers.toNat i s s1 hinv hstep

/-- C20 amended: in every execution of the scheduler with its sessions for a test with
`T.Drivers` drivers, when a session has sent `start work`, all `T.Drivers` sessions have
been started and every one of them has put a signal on the done channel, which a session
does on receiving `preparations done` and also on receiving `work done`; and when every
driver follows the protocol (of these two messages it sends `preparations done` first),
every one of the `T.Drivers` drivers has sent `preparations done`. -/
theorem start_work_after_barrier (config : Testconf) (test : TestCaseConfiguration)
    (readyDrivers : List Conn) (schedule : List Actor) (session : Session)
    (hmem : session ∈ (TestRun.run config test schedule (TestRun.init readyDrivers)).sessions)
    (hstart : session.startSent) :
    (TestRun.run config test schedule (TestRun.init readyDrivers)).sessions.length
        = test.Drivers.toNat
    ∧ (∀ other ∈ (TestRun.run config test schedule (TestRun.init readyDrivers)).sessions,
        1 ≤ other.signals ∧ (other.prepReceived ∨ other.workReceived))
    ∧ ((∀ conn ∈ readyDrivers, prepFirst conn.replies) →
        ∀ other ∈ (TestRun.run config test schedule (TestRun.init readyDrivers)).sessions,
          other.prepReceived) := by
  have hinv := TestRun.run_inv config test schedule (TestRun.init readyDrivers)
    (TestRun.init_inv test.Drivers.toNat readyDrivers)
  have hcont : 1 ≤ session.continues := (hinv.sessions session hmem).start hstart
  have hpast : (TestRun.run config test schedule (TestRun.init readyDrivers)).scheduler.pastBarrier
      = true := by
    by_contra hnot
    have hfalse : (TestRun.run config test schedule
        (TestRun.init readyDrivers)).scheduler.pastBarrier = false := by
      simpa using hnot
    have := (hinv.before hfalse).2.1 session hmem
    omega
  have hall := hinv.after hpast
  have hsig : ∀ other ∈ (TestRun.run config test schedule (TestRun.init readyDrivers)).sessions,
      1 ≤ other.signals ∧ (other.prepReceived ∨ other.workReceived) :=
    fun other ho => ⟨hall other ho, (hinv.sessions other ho).signalled (hall other ho)⟩
  refine ⟨?_, hsig, ?_⟩
  · have hcount := hinv.count
    cases hpc : (TestRun.run config test schedule (TestRun.init readyDrivers)).scheduler with
    | stage d =>
      rw [hpc] at hpast
      simp [SchedulerPC.pastBarrier] at hpast
    | barrier1 d => rw [hpc] at hcount; exact hcount
    | sleep => rw [hpc] at hcount; exact hcount
    | release d => rw [hpc] at hcount; exact hcount
    | barrier2 d => rw [hpc] at hcount; exact hcount
    | collect d => rw [hpc] at hcount; exact hcount
    | finished => rw [hpc] at hcount; exact hcount
  · intro hready other ho
    have hproto := TestRun.run_protocol config test schedule (TestRun.init readyDrivers)
      ⟨hready, fun x hx => by simp [TestRun.init] at hx⟩
    by_contra hnp
    have hnw := (hproto.sessions other ho hnp).1
    rcases (hsig other ho).2 with hp | hw
    · exact hnp hp
    · exact hnw hw

/-- Witness for C20 amended, on the execution in which the second driver answers `work done`:
the first session has sent `start work`, both sessions have been started and each has
received `preparations done` or `work done`. -/
theorem start_work_after_barrier_witness :
    (TestRun.run exampleTestconf twoDriverTest unevenSchedule
        (TestRun.init unevenDrivers)).sessions.length = 2
    ∧ ∀ other ∈ (TestRun.run exampleTestconf twoDriverTest unevenSchedule
        (TestRun.init unevenDrivers)).sessions,
        1 ≤ other.signals ∧ (other.prepReceived ∨ other.workReceived) :=
  match (by decide! : ∃ session ∈ (TestRun.run exampleTestconf twoDriverTest unevenSchedule
      (TestRun.init unevenDrivers)).sessions, session.startSent) with
  | ⟨session, hmem, hstart⟩ =>
    ⟨(start_work_after_barrier exampleTestconf twoDriverTest unevenDrivers unevenSchedule
        session hmem hstart).1,
      (start_work_after_barrier exampleTestconf twoDriverTest unevenDrivers unevenSchedule
        session hmem hstart).2.1⟩

/-! ### The metrics a work item records -/

theorem counterTotal_counterAdd (testName method : String) (v : ℚ) (vec : List CounterChild)
    (t : String) :
    counterTotal (counterAdd testName method v vec) t
      = counterTotal vec t + (if testName = t then v else 0) := by
  induction vec with
  | nil =>
    by_cases h : testName = t <;> simp [counterTotal, counterAdd, h]
  | cons child rest ih =>
    unfold counterTotal at ih ⊢
    unfold counterAdd
    by_cases hc : child.testName = testName ∧ child.method = method
    · rw [if_pos hc]
      by_cases h : testName = t
      · have hct : child.testName = t := hc.1.trans h
        simp [List.filter_cons, hct, h]
        ring
      · have hct : ¬ child.testName = t := fun hx => h (hc.1.symm.trans hx)
        simp [List.filter_cons, hct, h]
    · rw [if_neg hc]
      by_cases hct : child.testName = t
      · simp only [List.filter_cons, hct, decide_True, if_true, List.map_cons, List.sum_cons]
        rw [ih]
        ring
      · simp only [List.filter_cons, hct, decide_False, if_false, Bool.false_eq_true]
        rw [ih]

theorem counterValue_counterAdd (testName method : String) (v : ℚ) (vec : List CounterChild)
    (t m : String) :
    counterValue (counterAdd testName method v vec) t m
      = counterValue vec t m + (if t = testName ∧ m = method then v else 0) := by
  induction vec with
  | nil =>
    by_cases h : t = testName ∧ m = method
    · obtain ⟨rfl, rfl⟩ := h
      simp [counterValue, counterAdd]
    · have h2 : ¬ (testName = t ∧ method = m) := fun hx => h ⟨hx.1.symm, hx.2.symm⟩
      simp [counterValue, counterAdd, h, h2]
  | cons child rest ih =>
    unfold counterValue at ih ⊢
    unfold counterAdd
    by_cases hc : child.testName = testName ∧ child.method = method
    · rw [if_pos hc]
      by_cases h : t = testName ∧ m = method
      · have hcm : child.testName = t ∧ child.method = m := ⟨hc.1.trans h.1.symm, hc.2.trans h.2.symm⟩
        simp [List.find?_cons, hcm, h]
      · have hcm : ¬ (child.testName = t ∧ child.method = m) :=
          fun hx => h ⟨hx.1.symm.trans hc.1, hx.2.symm.trans hc.2⟩
        simp only [List.find?_cons, hcm, decide_False, if_neg h, add_zero]
    · rw [if_neg hc]
      by_cases hcm : child.testName = t ∧ child.method = m
      · have h : ¬ (t = testName ∧ m = method) :=
          fun hx => hc ⟨hcm.1.trans hx.1, hcm.2.trans hx.2⟩
        simp [List.find?_cons, hcm, h]
      · simp only [List.find?_cons, hcm, decide_False]
        exact ih

theorem observationTotal_observe (testName method : String) (v : ℚ)
    (vec : List HistogramChild) (t : String) :
    observationTotal (histogramObserve testName method v vec) t
      = observationTotal vec t + (if testName = t then 1 else 0) := by
  induction vec with
  | nil =>
    by_cases h : testName = t <;> simp [observationTotal, histogramObserve, h]
  | cons child rest ih =>
    unfold observationTotal at ih ⊢
    unfold histogramObserve
    by_cases hc : child.testName = testName ∧ child.method = method
    · rw [if_pos hc]
      by_cases h : testName = t
      · have hct : child.testName = t := hc.1.trans h
        simp [List.filter_cons, hct, h]
        omega
      · have hct : ¬ child.testName = t := fun hx => h (hc.1.symm.trans hx)
        simp [List.filter_cons, hct, h]
    · rw [if_neg hc]
      by_cases hct : child.testName = t
      · simp only [List.filter_cons, hct, decide_True, if_true, List.map_cons, List.sum_cons]
        rw [ih]
        omega
      · simp only [List.filter_cons, hct, decide_False, if_false, Bool.false_eq_true]
        rw [ih]

theorem observationCount_observe (testName method : String) (v : ℚ)
    (vec : List HistogramChild) (t m : String) :
    observationCount (histogramObserve testName method v vec) t m
      = observationCount vec t m + (if t = testName ∧ m = method then 1 else 0) := by
  induction vec with
  | nil =>
    by_cases h : t = testName ∧ m = method
    · obtain ⟨rfl, rfl⟩ := h
      simp [observationCount, histogramObserve]
    · have h2 : ¬ (testName = t ∧ method = m) := fun hx => h ⟨hx.1.symm, hx.2.symm⟩
      simp [observationCount, histogramObserve, h, h2]
  | cons child rest ih =>
    unfold observationCount at ih ⊢
    unfold histogramObserve
    by_cases hc : child.testName = testName ∧ child.method = method
    · rw [if_pos hc]
      by_cases h : t = testName ∧ m = method
      · have hcm : child.testName = t ∧ child.method = m := ⟨hc.1.trans h.1.symm, hc.2.trans h.2.symm⟩
        simp [List.find?_cons, hcm, h]
      · have hcm : ¬ (child.testName = t ∧ child.method = m) :=
          fun hx => h ⟨hx.1.symm.trans hc.1, hx.2.symm.trans hc.2⟩
        simp only [List.find?_cons, hcm, decide_False, if_neg h, add_zero]
    · rw [if_neg hc]
      by_cases hcm : child.testName = t ∧ child.method = m
      · have h : ¬ (t = testName ∧ m = method) :=
          fun hx => hc ⟨hcm.1.trans hx.1, hcm.2.trans hx.2⟩
        simp [List.find?_cons, hcm, h]
      · simp only [List.find?_cons, hcm, decide_False]
        exact ih

theorem recordOperation_effect (testName method : String) (durationMs : Int)
    (err : Option String) (registry : Registry) :
    (∀ t, (recordOperation testName method durationMs err registry).operations t
        = registry.operations t + (if testName = t then 1 else 0))
    ∧ (∀ t m, counterValue (recordOperation testName method durationMs err registry).promFinishedOps
          t m
        = counterValue registry.promFinishedOps t m
          + (if t = testName ∧ m = method ∧ err = none then 1 else 0))
    ∧ (∀ t m, counterValue (recordOperation testName method durationMs err registry).promFailedOps
          t m
        = counterValue registry.promFailedOps t m
          + (if t = testName ∧ m = method ∧ err ≠ none then 1 else 0))
    ∧ (∀ t m, observationCount (recordOperation testName method durationMs err registry).promLatency
          t m
        = observationCount registry.promLatency t m
          + (if t = testName ∧ m = method then 1 else 0))
    ∧ (∀ t, observationTotal (recordOperation testName method durationMs err registry).promLatency t
        = observationTotal registry.promLatency t + (if testName = t then 1 else 0)) := by
  cases err with
  | none =>
    refine ⟨?_, ?_, ?_, ?_, ?_⟩
    · intro t
      simp only [recordOperation, Registry.operations, counterTotal_counterAdd]
      ring
    · intro t m
      simp only [recordOperation, counterValue_counterAdd, and_true]
    · intro t m
      simp [recordOperation]
    · intro t m
      simp only [recordOperation, observationCount_observe]
    · intro t
      simp only [recordOperation, observationTotal_observe]
  | some e =>
    refine ⟨?_, ?_, ?_, ?_, ?_⟩
    · intro t
      simp only [recordOperation, Registry.operations, counterTotal_counterAdd]
      ring
    · intro t m
      simp [recordOperation]
    · intro t m
      simp [recordOperation, counterValue_counterAdd]
    · intro t m
      simp only [recordOperation, observationCount_observe]
    · intro t
      simp only [recordOperation, observationTotal_observe]

/-- The finished and failed counters and the latency histogram after `Do` are those that the
record of one operation under the labels of the item leaves. -/
theorem WorkItem.Do_registry (env : S3Env) (item : WorkItem) (state : DriverState)
    (testName method : String) (hlabels : item.labels = some (testName, method)) :
    ∃ durationMs,
      (item.Do env state).2.registry.promFinishedOps
        = (recordOperation testName method durationMs (item.Do env state).1
            state.registry).promFinishedOps
      ∧ (item.Do env state).2.registry.promFailedOps
        = (recordOperation testName method durationMs (item.Do env state).1
            state.registry).promFailedOps
      ∧ (item.Do env state).2.registry.promLatency
        = (recordOperation testName method durationMs (item.Do env state).1
            state.registry).promLatency := by
  cases item with
  | ReadOperation op =>
    simp only [WorkItem.labels, Option.some.injEq, Prod.mk.injEq] at hlabels
    obtain ⟨rfl, rfl⟩ := hlabels
    exact ⟨_, rfl, rfl, rfl⟩
  | WriteOperation op =>
    simp only [WorkItem.labels, Option.some.injEq, Prod.mk.injEq] at hlabels
    obtain ⟨rfl, rfl⟩ := hlabels
    by_cases hmpu : op.MPUEnabled = true
    · refine ⟨env.elapsedMs state.calls (.putObjectMPU .svc op.ObjectName op.Bucket
        (if op.PartSize = 0 then DefaultUploadPartSize else op.PartSize)
        (if op.MPUConcurrency = 0 then DefaultUploadConcurrency else op.MPUConcurrency)), ?_⟩
      simp [WorkItem.Do, hmpu, DriverState.issue]
    · refine ⟨env.elapsedMs state.calls (.putObject .svc op.ObjectName op.Bucket
        (wrapInt64 (op.ObjectSize : Int))), ?_⟩
      simp [WorkItem.Do, hmpu, DriverState.issue]
  | ListOperation op =>
    simp only [WorkItem.labels, Option.some.injEq, Prod.mk.injEq] at hlabels
    obtain ⟨rfl, rfl⟩ := hlabels
    exact ⟨_, rfl, rfl, rfl⟩
  | DeleteOperation op =>
    simp only [WorkItem.labels, Option.some.injEq, Prod.mk.injEq] at hlabels
    obtain ⟨rfl, rfl⟩ := hlabels
    exact ⟨_, rfl, rfl, rfl⟩
  | Stopper => simp [WorkItem.labels] at hlabels

theorem WorkItem.Do_operations (env : S3Env) (item : WorkItem) (state : DriverState)
    (t : String) :
    (item.Do env state).2.registry.operations t
      = state.registry.operations t
        + (if item.labels.map Prod.fst = some t then 1 else 0) := by
  cases hlabels : item.labels with
  | none =>
    cases item <;> simp [WorkItem.labels] at hlabels
    simp [WorkItem.Do]
  | some labels =>
    obtain ⟨testName, method⟩ := labels
    obtain ⟨durationMs, h1, h2, -⟩ := WorkItem.Do_registry env item state testName method hlabels
    have h := (recordOperation_effect testName method durationMs (item.Do env state).1
      state.registry).1 t
    unfold Registry.operations at h ⊢
    rw [h1, h2, h]
    simp

theorem executedItems_not_stopper (events : List WorkEvent) :
    ∀ item ∈ executedItems events, item ≠ .Stopper := by
  induction events with
  | nil => intro item hitem; cases hitem
  | cons event events ih =>
    cases event with
    | contextDone => intro item hitem; cases hitem
    | closed => intro item hitem; cases hitem
    | work w =>
      cases w with
      | Stopper => intro item hitem; cases hitem
      | ReadOperation op =>
        intro item hitem
        rcases List.mem_cons.mp hitem with rfl | hitem
        · exact fun h => WorkItem.noConfusion h
        · exact ih item hitem
      | WriteOperation op =>
        intro item hitem
        rcases List.mem_cons.mp hitem with rfl | hitem
        · exact fun h => WorkItem.noConfusion h
        · exact ih item hitem
      | ListOperation op =>
        intro item hitem
        rcases List.mem_cons.mp hitem with rfl | hitem
        · exact fun h => WorkItem.noConfusion h
        · exact ih item hitem
      | DeleteOperation op =>
        intro item hitem
        rcases List.mem_cons.mp hitem with rfl | hitem
        · exact fun h => WorkItem.noConfusion h
        · exact ih item hitem

theorem DoWork_operations (env : S3Env) (events : List WorkEvent) (state : DriverState)
    (t : String) :
    (DoWork env events state).1.registry.operations t
      = state.registry.operations t
        + (((executedItems events).filter
            (fun item => item.labels.map Prod.fst = some t)).length : ℚ) := by
  induction events generalizing state with
  | nil => simp [DoWork, executedItems]
  | cons event events ih =>
    cases event with
    | contextDone => simp [DoWork, executedItems]
    | closed => simp [DoWork, executedItems]
    | work w =>
      cases w with
      | Stopper => simp [DoWork, executedItems]
      | ReadOperation op =>
        simp only [DoWork, executedItems]
        rw [ih, WorkItem.Do_operations, List.filter_cons]
        split_ifs <;> (simp_all; try ring)
      | WriteOperation op =>
        simp only [DoWork, executedItems]
        rw [ih, WorkItem.Do_operations, List.filter_cons]
        split_ifs <;> (simp_all; try ring)
      | ListOperation op =>
        simp only [DoWork, executedItems]
        rw [ih, WorkItem.Do_operations, List.filter_cons]
        split_ifs <;> (simp_all; try ring)
      | DeleteOperation op =>
        simp only [DoWork, executedItems]
        rw [ih, WorkItem.Do_operations, List.filter_cons]
        split_ifs <;> (simp_all; try ring)

/-- C11: `Do` of a read, write, list or delete operation of test `t` adds exactly 1 to
`finished_ops[t,*] + failed_ops[t,*]` (to the finished counter under the method label of the
item when the S3 call returned no error, to the failed counter otherwise) and records exactly
one latency observation under these labels; `Do` of the stopper changes nothing; hence after
`DoWork` has processed a sequence of events, `Operations + FailedOperations` of a test has
grown by the number of items of that test that it dequeued and executed, none of which is a
stopper, whether or not the operations failed. -/
theorem Do_counts_one_operation (env : S3Env) :
    (∀ (item : WorkItem) (state : DriverState) (testName method : String),
      item.labels = some (testName, method) →
      (∀ t, (item.Do env state).2.registry.operations t
          = state.registry.operations t + (if testName = t then 1 else 0))
      ∧ (∀ t m, counterValue (item.Do env state).2.registry.promFinishedOps t m
          = counterValue state.registry.promFinishedOps t m
            + (if t = testName ∧ m = method ∧ (item.Do env state).1 = none then 1 else 0))
      ∧ (∀ t m, counterValue (item.Do env state).2.registry.promFailedOps t m
          = counterValue state.registry.promFailedOps t m
            + (if t = testName ∧ m = method ∧ (item.Do env state).1 ≠ none then 1 else 0))
      ∧ (∀ t m, observationCount (item.Do env state).2.registry.promLatency t m
          = observationCount state.registry.promLatency t m
            + (if t = testName ∧ m = method then 1 else 0))
      ∧ (∀ t, observationTotal (item.Do env state).2.registry.promLatency t
          = observationTotal state.registry.promLatency t + (if testName = t then 1 else 0)))
    ∧ (∀ state : DriverState, WorkItem.Stopper.Do env state = (none, state))
    ∧ (∀ (events : List WorkEvent) (state : DriverState) (t : String),
      (DoWork env events state).1.registry.operations t
          = state.registry.operations t
            + (((executedItems events).filter
                (fun item => item.labels.map Prod.fst = some t)).length : ℚ)
      ∧ ∀ item ∈ executedItems events, item ≠ .Stopper) := by
  refine ⟨?_, fun _ => rfl, fun events state t =>
    ⟨DoWork_operations env events state t, executedItems_not_stopper events⟩⟩
  intro item state testName method hlabels
  obtain ⟨durationMs, h1, h2, h3⟩ := WorkItem.Do_registry env item state testName method hlabels
  obtain ⟨e1, e2, e3, e4, e5⟩ := recordOperation_effect testName method durationMs
    (item.Do env state).1 state.registry
  refine ⟨?_, ?_, ?_, ?_, ?_⟩
  · intro t
    have := WorkItem.Do_operations env item state t
    rw [hlabels] at this
    simpa using this
  · intro t m
    rw [h1]
    exact e2 t m
  · intro t m
    rw [h2]
    exact e3 t m
  · intro t m
    rw [h3]
    exact e4 t m
  · intro t
    rw [h3]
    exact e5 t

/-- Witness for C11: a worker that executes a write that fails and a read that succeeds and
then finds the stopper has `Operations + FailedOperations = 2`. -/
theorem Do_counts_one_operation_witness :
    (DoWork exampleS3Env exampleWorkEvents emptyDriverState).1.registry.operations "example" = 2
    ∧ counterValue
        (DoWork exampleS3Env exampleWorkEvents emptyDriverState).1.registry.promFailedOps
        "example" "PUT" = 1 :=
  ⟨(((Do_counts_one_operation exampleS3Env).2.2 exampleWorkEvents emptyDriverState
      "example").1).trans (by decide!), by decide!⟩

/-! ### The client a work item uses -/

theorem prepareUpload_housekeeping (env : S3Env) (objectName bucket : String)
    (objectSize : Nat) (mpuEnabled : Bool) (partSize : Nat) (concurrency : Int)
    (defaultPartSize : Nat) (defaultConcurrency : Int) (state : DriverState) :
    (prepareUpload env objectName bucket objectSize mpuEnabled partSize concurrency
        defaultPartSize defaultConcurrency state).2.registry = state.registry
    ∧ ∃ issued, (prepareUpload env objectName bucket objectSize mpuEnabled partSize concurrency
        defaultPartSize defaultConcurrency state).2.calls = state.calls ++ issued
      ∧ ∀ call ∈ issued, call.service = .housekeepingSvc := by
  unfold prepareUpload
  cases mpuEnabled with
  | true => exact ⟨rfl, [_], rfl, by simp [S3Call.service]⟩
  | false => exact ⟨rfl, [_], rfl, by simp [S3Call.service]⟩

/-- C12: for every work item, `Prepare` and `Clean` issue S3 calls only through the
housekeeping client and leave every measured metric unchanged, `Do` issues S3 calls only
through the measured client `svc`, and a read of a preexisting object issues no S3 call at
all in `Prepare` and in `Clean`. -/
theorem prepare_clean_use_housekeeping (env : S3Env) (item : WorkItem) (state : DriverState) :
    ((item.Prepare env state).2.registry = state.registry
      ∧ ∃ issued, (item.Prepare env state).2.calls = state.calls ++ issued
        ∧ ∀ call ∈ issued, call.service = .housekeepingSvc)
    ∧ ((item.Clean env state).2.registry = state.registry
      ∧ ∃ issued, (item.Clean env state).2.calls = state.calls ++ issued
        ∧ ∀ call ∈ issued, call.service = .housekeepingSvc)
    ∧ (∃ issued, (item.Do env state).2.calls = state.calls ++ issued
        ∧ ∀ call ∈ issued, call.service = .svc)
    ∧ (∀ op : ReadOperation, item = .ReadOperation op → op.WorksOnPreexistingObject = true →
        (item.Prepare env state).2.calls = state.calls
        ∧ (item.Clean env state).2.calls = state.calls) := by
  have hnone : state.registry = state.registry
      ∧ ∃ issued, state.calls = state.calls ++ issued
        ∧ ∀ call ∈ issued, call.service = S3Client.housekeepingSvc :=
    ⟨rfl, [], by simp, by simp⟩
  cases item with
  | ReadOperation op =>
    refine ⟨?_, ?_, ⟨[_], rfl, by simp [S3Call.service]⟩, ?_⟩
    · by_cases hpre : op.WorksOnPreexistingObject = true
      · simp [WorkItem.Prepare, hpre]
      · simp only [WorkItem.Prepare, hpre, Bool.false_eq_true, if_false]
        exact prepareUpload_housekeeping env _ _ _ _ _ _ _ _ state
    · by_cases hpre : op.WorksOnPreexistingObject = true
      · simp [WorkItem.Clean, hpre]
      · simp only [WorkItem.Clean, hpre, Bool.false_eq_true, if_false]
        exact ⟨rfl, [_], rfl, by simp [S3Call.service]⟩
    · intro op1 hop hpre
      cases hop
      simp [WorkItem.Prepare, WorkItem.Clean, hpre]
  | WriteOperation op =>
    refine ⟨hnone, ⟨rfl, [_], rfl, by simp [S3Call.service]⟩, ?_, fun op1 hop => by cases hop⟩
    by_cases hmpu : op.MPUEnabled = true
    · simp only [WorkItem.Do, hmpu, if_true]
      exact ⟨[_], rfl, by simp [S3Call.service]⟩
    · simp only [WorkItem.Do, hmpu, Bool.false_eq_true, if_false]
      exact ⟨[_], rfl, by simp [S3Call.service]⟩
  | ListOperation op =>
    exact ⟨prepareUpload_housekeeping env _ _ _ _ _ _ _ _ state,
      ⟨rfl, [_], rfl, by simp [S3Call.service]⟩, ⟨[_], rfl, by simp [S3Call.service]⟩,
      fun op1 hop => by cases hop⟩
  | DeleteOperation op =>
    exact ⟨prepareUpload_housekeeping env _ _ _ _ _ _ _ _ state, hnone,
      ⟨[_], rfl, by simp [S3Call.service]⟩, fun op1 hop => by cases hop⟩
  | Stopper =>
    exact ⟨hnone, hnone, ⟨[], by simp [WorkItem.Do], by simp⟩, fun op1 hop => by cases hop⟩

/-- Witness for C12: the read of a preexisting object issues no call in `Prepare` and in
`Clean`. -/
theorem prepare_clean_use_housekeeping_witness :
    (exampleRead.Prepare exampleS3Env emptyDriverState).2.calls = []
    ∧ (exampleRead.Clean exampleS3Env emptyDriverState).2.calls = [] :=
  (prepare_clean_use_housekeeping exampleS3Env exampleRead emptyDriverState).2.2.2
    { TestName := "example", Bucket := "gosbench-0", ObjectName := "obj1", ObjectSize := 4096,
      WorksOnPreexistingObject := true, MPUEnabled := false, PartSize := 0,
      MPUConcurrency := 0 } rfl rfl

/-! ### Durations in JSON -/

theorem charDigit_digitChar (digit : Nat) (h : digit < 10) :
    charDigit (digitChar digit) = some digit := by
  interval_cases digit <;> rfl

theorem fmtIntLoop_append (fuel v : Nat) (a b : List Char) :
    fmtIntLoop fuel v (a ++ b) = fmtIntLoop fuel v a ++ b := by
  induction fuel generalizing v a with
  | zero => rfl
  | succ fuel ih =>
    unfold fmtIntLoop
    by_cases hv : v = 0
    · rw [if_pos hv, if_pos hv]
    · rw [if_neg hv, if_neg hv, ← List.cons_append, ih]

theorem fmtInt_append (v : Nat) (buf : List Char) : fmtInt buf v = fmtInt [] v ++ buf := by
  unfold fmtInt
  by_cases hv : v = 0
  · rw [if_pos hv, if_pos hv]
    rfl
  · rw [if_neg hv, if_neg hv]
    exact fmtIntLoop_append v v [] buf

theorem leadingIntLoop_fmtIntLoop (fuel v : Nat) (buf : List Char) (hfuel : v ≤ fuel)
    (hv : v ≤ 2 ^ 63) :
    leadingIntLoop 0 (fmtIntLoop fuel v buf) = leadingIntLoop v buf := by
  induction fuel generalizing v buf with
  | zero =>
    have : v = 0 := by omega
    subst this
    rfl
  | succ fuel ih =>
    unfold fmtIntLoop
    by_cases h0 : v = 0
    · rw [if_pos h0, h0]
    · rw [if_neg h0, ih (v / 10) _ (by omega) (by omega)]
      have hd : charDigit (digitChar (v % 10)) = some (v % 10) :=
        charDigit_digitChar _ (Nat.mod_lt _ (by decide))
      rw [leadingIntLoop, hd]
      simp only
      rw [if_neg (by omega), if_neg (by omega)]
      congr 1
      omega

theorem leadingIntLoop_stop (x : Nat) (s : List Char)
    (hs : ∀ c rest, s = c :: rest → charDigit c = none) : leadingIntLoop x s = some (x, s) := by
  cases s with
  | nil => rfl
  | cons c rest =>
    rw [leadingIntLoop, hs c rest rfl]

/-- The digits that `fmtInt` writes are read back by `leadingInt`. -/
theorem leadingInt_fmtInt (v : Nat) (s : List Char) (hv : v ≤ 2 ^ 63)
    (hs : ∀ c rest, s = c :: rest → charDigit c = none) :
    leadingInt (fmtInt [] v ++ s) = some (v, s) := by
  rw [← fmtInt_append]
  unfold leadingInt fmtInt
  by_cases h0 : v = 0
  · rw [if_pos h0, h0, leadingIntLoop]
    have : charDigit '0' = some 0 := rfl
    rw [this]
    simp only
    rw [if_neg (by decide), if_neg (by decide)]
    exact leadingIntLoop_stop _ s hs
  · rw [if_neg h0, leadingIntLoop_fmtIntLoop v v s (le_refl _) hv]
    exact leadingIntLoop_stop _ s hs

theorem fmtIntLoop_digits (fuel v : Nat) (buf : List Char) :
    ∀ c ∈ fmtIntLoop fuel v buf, (charDigit c).isSome = true ∨ c ∈ buf := by
  induction fuel generalizing v buf with
  | zero => intro c hc; exact Or.inr hc
  | succ fuel ih =>
    intro c hc
    unfold fmtIntLoop at hc
    by_cases h0 : v = 0
    · rw [if_pos h0] at hc
      exact Or.inr hc
    · rw [if_neg h0] at hc
      rcases ih (v / 10) _ c hc with h | h
      · exact Or.inl h
      · rcases List.mem_cons.mp h with rfl | h
        · left
          rw [charDigit_digitChar _ (Nat.mod_lt _ (by decide))]
          rfl
        · exact Or.inr h

theorem fmtInt_digits (v : Nat) : ∀ c ∈ fmtInt [] v, (charDigit c).isSome = true := by
  intro c hc
  unfold fmtInt at hc
  by_cases h0 : v = 0
  · rw [if_pos h0] at hc
    rw [List.mem_singleton] at hc
    rw [hc]
    rfl
  · rw [if_neg h0] at hc
    rcases fmtIntLoop_digits v v [] c hc with h | h
    · exact h
    · cases h

theorem fmtInt_head (v : Nat) :
    ∃ c rest, fmtInt [] v = c :: rest ∧ (charDigit c).isSome = true := by
  cases hfmt : fmtInt [] v with
  | nil =>
    exfalso
    unfold fmtInt at hfmt
    by_cases h0 : v = 0
    · rw [if_pos h0] at hfmt
      cases hfmt
    · rw [if_neg h0] at hfmt
      obtain ⟨n, rfl⟩ : ∃ n, v = n + 1 := ⟨v - 1, by omega⟩
      unfold fmtIntLoop at hfmt
      rw [if_neg h0] at hfmt
      have := fmtIntLoop_append n ((n + 1) / 10) [] [digitChar ((n + 1) % 10)]
      rw [List.nil_append] at this
      rw [this] at hfmt
      simp at hfmt
  | cons c rest =>
    refine ⟨c, rest, rfl, ?_⟩
    apply fmtInt_digits v
    rw [hfmt]
    exact List.mem_cons_self _ _

theorem fmtFracLoop_append (prec v : Nat) (print : Bool) (a b : List Char) :
    fmtFracLoop prec v print (a ++ b)
      = ((fmtFracLoop prec v print a).1 ++ b, (fmtFracLoop prec v print a).2) := by
  induction prec generalizing v print a with
  | zero => rfl
  | succ prec ih =>
    unfold fmtFracLoop
    simp only
    cases hp : (print || v % 10 != 0)
    · simp only [Bool.false_eq_true, if_false]
      exact ih _ _ _
    · simp only [if_true]
      rw [← List.cons_append]
      exact ih _ _ _

theorem fmtFracLoop_value (prec v : Nat) (print : Bool) (buf : List Char) :
    (fmtFracLoop prec v print buf).2 = (v / 10 ^ prec, print || decide (v % 10 ^ prec ≠ 0)) := by
  induction prec generalizing v print buf with
  | zero => simp [fmtFracLoop, Nat.mod_one]
  | succ prec ih =>
    unfold fmtFracLoop
    simp only
    rw [ih]
    have h1 : v / 10 / 10 ^ prec = v / 10 ^ (prec + 1) := by
      rw [Nat.div_div_eq_div_mul, pow_succ, Nat.mul_comm]
    have h2 : v % 10 ^ (prec + 1) = v % 10 + 10 * (v / 10 % 10 ^ prec) := by
      rw [pow_succ, Nat.mul_comm, Nat.mod_mul]
    rw [h1]
    congr 1
    by_cases hd : v % 10 = 0
    · have : v % 10 ^ (prec + 1) = 10 * (v / 10 % 10 ^ prec) := by omega
      by_cases hr : v / 10 % 10 ^ prec = 0
      · simp [hd, hr, this]
      · have : v % 10 ^ (prec + 1) ≠ 0 := by omega
        simp [hd, hr, this]
    · have : v % 10 ^ (prec + 1) ≠ 0 := by omega
      simp [hd, this]

theorem fmtFracLoop_silent (prec v : Nat) (buf : List Char) (h : v % 10 ^ prec = 0) :
    (fmtFracLoop prec v false buf).1 = buf := by
  induction prec generalizing v with
  | zero => rfl
  | succ prec ih =>
    have h2 : v % 10 ^ (prec + 1) = v % 10 + 10 * (v / 10 % 10 ^ prec) := by
      rw [pow_succ, Nat.mul_comm, Nat.mod_mul]
    have hd : v % 10 = 0 := by omega
    have hr : v / 10 % 10 ^ prec = 0 := by omega
    unfold fmtFracLoop
    simp only [hd, bne_self_eq_false, Bool.or_false, Bool.false_eq_true, if_false]
    exact ih _ hr

theorem fmtFracLoop_digits (prec v : Nat) (print : Bool) (buf : List Char) :
    ∀ c ∈ (fmtFracLoop prec v print buf).1, (charDigit c).isSome = true ∨ c ∈ buf := by
  induction prec generalizing v print buf with
  | zero => intro c hc; exact Or.inr hc
  | succ prec ih =>
    intro c hc
    unfold fmtFracLoop at hc
    simp only at hc
    rcases ih _ _ _ c hc with h | h
    · exact Or.inl h
    · by_cases hp : (print || v % 10 != 0) = true
      · rw [if_pos hp] at h
        rcases List.mem_cons.mp h with rfl | h
        · left
          rw [charDigit_digitChar _ (Nat.mod_lt _ (by decide))]
          rfl
        · exact Or.inr h
      · rw [if_neg hp] at h
        exact Or.inr h

/-- The digits that `fmtFracLoop` writes are read back by `leadingFractionLoop`: after them
the parser holds a value `x1` and a scale `scale * 10 ^ k` with
`x1 * 10 ^ (prec - k) = x * 10 ^ prec + v % 10 ^ prec`. -/
theorem leadingFractionLoop_fmtFracLoop (prec v : Nat) (print : Bool) (x scale : Nat)
    (cont : List Char) (hx : (x + 1) * 10 ^ prec ≤ 10 ^ 18) :
    ∃ k x1, k ≤ prec
      ∧ leadingFractionLoop x scale false ((fmtFracLoop prec v print []).1 ++ cont)
          = leadingFractionLoop x1 (scale * 10 ^ k) false cont
      ∧ x1 * 10 ^ (prec - k) = x * 10 ^ prec + v % 10 ^ prec
      ∧ (print = true → k = prec) := by
  induction prec generalizing v print cont with
  | zero =>
    refine ⟨0, x, le_refl _, ?_, ?_, fun _ => rfl⟩
    · simp [fmtFracLoop]
    · simp [Nat.mod_one]
  | succ prec ih =>
    have h10 : (10 : Nat) ^ (prec + 1) = 10 ^ prec * 10 := pow_succ _ _
    have h2 : v % 10 ^ (prec + 1) = v % 10 + 10 * (v / 10 % 10 ^ prec) := by
      rw [pow_succ, Nat.mul_comm, Nat.mod_mul]
    have hx1 : (x + 1) * 10 ^ prec ≤ 10 ^ 18 := by
      have : (x + 1) * 10 ^ prec ≤ (x + 1) * 10 ^ (prec + 1) :=
        Nat.mul_le_mul_left _ (Nat.pow_le_pow_right (by decide) (Nat.le_succ _))
      omega
    have hpos : 0 < 10 ^ prec := Nat.pow_pos (by decide)
    have hlt : v / 10 % 10 ^ prec < 10 ^ prec := Nat.mod_lt _ hpos
    have hdig : v % 10 < 10 := Nat.mod_lt _ (by decide)
    unfold fmtFracLoop
    simp only
    cases hp : (print || v % 10 != 0)
    · simp only [Bool.false_eq_true, if_false]
      have hprint : print = false := by
        cases print
        · rfl
        · simp at hp
      have hd : v % 10 = 0 := by
        cases print <;> simp at hp
        exact hp
      obtain ⟨k, x1, hk, hparse, hval, -⟩ := ih (v / 10) false cont hx1
      refine ⟨k, x1, by omega, hparse, ?_, ?_⟩
      · have hsub : prec + 1 - k = (prec - k) + 1 := by omega
        rw [hsub, pow_succ, ← Nat.mul_assoc, hval, h2, hd, h10]
        ring
      · intro h
        rw [hprint] at h
        cases h
    · simp only [if_true]
      have happ := fmtFracLoop_append prec (v / 10) true [] [digitChar (v % 10)]
      rw [List.nil_append] at happ
      rw [happ]
      simp only
      rw [List.append_assoc]
      obtain ⟨k, x1, -, hparse, hval, hk⟩ :=
        ih (v / 10) true ([digitChar (v % 10)] ++ cont) hx1
      have hk := hk rfl
      subst hk
      rw [Nat.sub_self, pow_zero, Nat.mul_one] at hval
      refine ⟨k + 1, x1 * 10 + v % 10, le_refl _, ?_, ?_, fun _ => rfl⟩
      · rw [hparse]
        rw [List.singleton_append, leadingFractionLoop, charDigit_digitChar _ hdig]
        simp only [Bool.false_eq_true, if_false]
        have hb : x1 < (x + 1) * 10 ^ k := by
          rw [hval, Nat.add_mul, Nat.one_mul]
          omega
        have hb2 : (x + 1) * 10 ^ k * 10 ≤ 10 ^ 18 := by
          rw [Nat.mul_assoc, ← h10]
          exact hx
        rw [if_neg (by omega), if_neg (by omega), pow_succ, Nat.mul_assoc]
      · rw [Nat.sub_self, pow_zero, Nat.mul_one, hval, h2, h10]
        ring

theorem parseDurationFraction_none (s1 : List Char) (h : ∀ s2, s1 ≠ '.' :: s2) :
    parseDurationFraction s1 = (0, 1, s1, false) := by
  unfold parseDurationFraction
  split
  · exact absurd rfl (h _)
  · rfl

theorem takeWhile_unit (us tail : List Char) (hus : ∀ c ∈ us, endsUnit c = false)
    (htail : ∀ c rest, tail = c :: rest → endsUnit c = true) :
    (us ++ tail).takeWhile (fun c => ! endsUnit c) = us
      ∧ (us ++ tail).dropWhile (fun c => ! endsUnit c) = tail := by
  induction us with
  | nil =>
    cases tail with
    | nil => exact ⟨rfl, rfl⟩
    | cons c rest =>
      have := htail c rest rfl
      simp [List.takeWhile, List.dropWhile, this]
  | cons c us ih =>
    have hc := hus c (List.mem_cons_self _ _)
    have ih := ih (fun c hc => hus c (List.mem_cons_of_mem _ hc))
    simp [List.takeWhile, List.dropWhile, hc, ih.1, ih.2]

/-- One round of the loop of `ParseDuration` on a number written by `fmtInt`, followed by a
fraction that `parseDurationFraction` reads as `f / scale` and by the unit `us`. -/
theorem parseDurationLoop_number (fuel d v unit f scale : Nat) (s1 us tail : List Char)
    (post : Bool) (hs1 : ∀ c rest, s1 = c :: rest → charDigit c = none)
    (hfrac : parseDurationFraction s1 = (f, scale, us ++ tail, post))
    (hunit : unitMap us = some unit) (hne : us ≠ [])
    (hus : ∀ c ∈ us, endsUnit c = false)
    (htail : ∀ c rest, tail = c :: rest → endsUnit c = true)
    (hv : v ≤ 2 ^ 63 / unit) (hd : d + (v * unit + f * unit / scale) ≤ 2 ^ 63) :
    parseDurationLoop (fuel + 1) d (fmtInt [] v ++ s1)
      = parseDurationLoop fuel (d + (v * unit + f * unit / scale)) tail := by
  have hv63 : v ≤ 2 ^ 63 := le_trans hv (Nat.div_le_self _ _)
  obtain ⟨c, rest, hfmt, hc⟩ := fmtInt_head v
  have hlead := leadingInt_fmtInt v s1 hv63 hs1
  have hlen : (fmtInt [] v ++ s1).length ≠ s1.length := by
    rw [hfmt]
    simp only [List.length_append, List.length_cons]
    omega
  have htake := takeWhile_unit us tail hus htail
  generalize hs : fmtInt [] v ++ s1 = s at hlead hlen
  have hs2 : s = c :: (rest ++ s1) := by rw [← hs, hfmt]; rfl
  subst hs2
  rw [parseDurationLoop]
  simp only
  rw [if_neg (by simp [hc])]
  rw [hlead]
  simp only
  rw [hfrac]
  simp only
  rw [if_neg (fun h => h.1 hlen)]
  rw [htake.1, htake.2, if_neg hne, hunit]
  simp only
  rw [if_neg (by omega)]
  have hval : (if f > 0 then v * unit + f * unit / scale else v * unit)
      = v * unit + f * unit / scale := by
    by_cases hf : f > 0
    · rw [if_pos hf]
    · have : f = 0 := by omega
      subst this
      simp
  rw [hval]
  rw [if_neg (by omega)]
  have hmod : (d + (v * unit + f * unit / scale)) % 2 ^ 64 = d + (v * unit + f * unit / scale) :=
    Nat.mod_eq_of_lt (by omega)
  rw [hmod, if_neg (by omega)]

theorem endsUnit_false (c : Char) (h : endsUnit c = false) : c ≠ '.' ∧ charDigit c = none := by
  unfold endsUnit at h
  simp only [Bool.or_eq_false_iff, decide_eq_false_iff_not] at h
  refine ⟨h.1, ?_⟩
  cases hd : charDigit c with
  | none => rfl
  | some digit =>
    rw [hd] at h
    exact absurd h.2 (by simp)

theorem unit_head (us tail : List Char) (hne : us ≠ []) (hus : ∀ c ∈ us, endsUnit c = false) :
    ∀ c rest, us ++ tail = c :: rest → c ≠ '.' ∧ charDigit c = none := by
  intro c rest h
  cases us with
  | nil => exact absurd rfl hne
  | cons c0 us =>
    rw [List.cons_append] at h
    injection h with h1 h2
    subst h1
    exact endsUnit_false _ (hus _ (List.mem_cons_self _ _))

/-- One round of the loop of `ParseDuration` on a number without a fraction. -/
theorem parseDurationLoop_fmtInt (fuel d v unit : Nat) (us tail : List Char)
    (hunit : unitMap us = some unit) (hne : us ≠ [])
    (hus : ∀ c ∈ us, endsUnit c = false)
    (htail : ∀ c rest, tail = c :: rest → endsUnit c = true)
    (hv : v ≤ 2 ^ 63 / unit) (hd : d + v * unit ≤ 2 ^ 63) :
    parseDurationLoop (fuel + 1) d (fmtInt (us ++ tail) v)
      = parseDurationLoop fuel (d + v * unit) tail := by
  have hhead := unit_head us tail hne hus
  have hfrac : parseDurationFraction (us ++ tail) = (0, 1, us ++ tail, false) :=
    parseDurationFraction_none _ (fun s2 h => (hhead _ _ h).1 rfl)
  have h := parseDurationLoop_number fuel d v unit 0 1 (us ++ tail) us tail false
    (fun c rest h => (hhead c rest h).2) hfrac hunit hne hus htail hv (by simpa using hd)
  rw [fmtInt_append, h]
  simp

theorem fmtFrac_value (buf : List Char) (u prec : Nat) :
    (fmtFrac buf u prec).2 = u / 10 ^ prec := by
  unfold fmtFrac
  simp only
  rw [fmtFracLoop_value]

/-- One round of the loop of `ParseDuration` on a number with the fraction written by
`fmtFrac`: the fraction adds `u % 10 ^ prec` when the unit is `10 ^ prec`. -/
theorem parseDurationLoop_fmtFrac (fuel d v u prec unit : Nat) (us tail : List Char)
    (hunit : unitMap us = some unit) (hprec : unit = 10 ^ prec) (hp : prec ≤ 9)
    (hne : us ≠ []) (hus : ∀ c ∈ us, endsUnit c = false)
    (htail : ∀ c rest, tail = c :: rest → endsUnit c = true)
    (hv : v ≤ 2 ^ 63 / unit) (hd : d + (v * unit + u % 10 ^ prec) ≤ 2 ^ 63) :
    parseDurationLoop (fuel + 1) d (fmtInt (fmtFrac (us ++ tail) u prec).1 v)
      = parseDurationLoop fuel (d + (v * unit + u % 10 ^ prec)) tail := by
  have hhead := unit_head us tail hne hus
  by_cases hw : u % 10 ^ prec = 0
  · have hbuf : (fmtFrac (us ++ tail) u prec).1 = us ++ tail := by
      unfold fmtFrac
      simp only
      rw [fmtFracLoop_value, fmtFracLoop_silent _ _ _ hw]
      simp [hw]
    rw [hbuf, hw, Nat.add_zero]
    rw [hw, Nat.add_zero] at hd
    exact parseDurationLoop_fmtInt fuel d v unit us tail hunit hne hus htail hv hd
  · have happ := fmtFracLoop_append prec u false [] (us ++ tail)
    rw [List.nil_append] at happ
    have hbuf : (fmtFrac (us ++ tail) u prec).1
        = '.' :: ((fmtFracLoop prec u false []).1 ++ (us ++ tail)) := by
      unfold fmtFrac
      simp only
      rw [fmtFracLoop_value, happ]
      simp [hw]
    have hx : (0 + 1) * 10 ^ prec ≤ 10 ^ 18 := by
      rw [Nat.zero_add, Nat.one_mul]
      exact Nat.pow_le_pow_right (by decide) (by omega)
    obtain ⟨k, x1, hk, hparse, hval, -⟩ :=
      leadingFractionLoop_fmtFracLoop prec u false 0 1 (us ++ tail) hx
    rw [Nat.zero_mul, Nat.zero_add] at hval
    have hstop : leadingFractionLoop x1 (10 ^ k) false (us ++ tail) = (x1, 10 ^ k, us ++ tail) := by
      cases hcons : us ++ tail with
      | nil => rfl
      | cons c rest =>
        rw [leadingFractionLoop, (hhead c rest hcons).2]
    rw [Nat.one_mul] at hparse
    rw [hstop] at hparse
    have hlen : ((fmtFracLoop prec u false []).1 ++ (us ++ tail)).length ≠ (us ++ tail).length := by
      have hne2 : (fmtFracLoop prec u false []).1 ≠ [] := by
        intro hnil
        rw [hnil, List.nil_append] at hparse
        cases hcons : us ++ tail with
        | nil => simp at hcons; exact hne hcons.1
        | cons c rest =>
          rw [hcons, leadingFractionLoop, (hhead c rest hcons).2] at hparse
          simp only [Prod.mk.injEq] at hparse
          have h0 := hparse.1
          subst h0
          rw [Nat.zero_mul] at hval
          exact hw hval.symm
      cases hD : (fmtFracLoop prec u false []).1 with
      | nil => exact absurd hD hne2
      | cons c rest =>
        simp only [List.length_append, List.length_cons]
        omega
    have hfrac : parseDurationFraction ('.' :: ((fmtFracLoop prec u false []).1 ++ (us ++ tail)))
        = (x1, 10 ^ k, us ++ tail, true) := by
      unfold parseDurationFraction leadingFraction
      simp only
      rw [hparse]
      simp only [Prod.mk.injEq, true_and, decide_eq_true_eq]
      exact hlen
    have hfv : x1 * unit / 10 ^ k = u % 10 ^ prec := by
      have hsplit : (10 : Nat) ^ prec = 10 ^ (prec - k) * 10 ^ k := by
        rw [← pow_add]
        congr 1
        omega
      rw [hprec, hsplit, ← Nat.mul_assoc, hval, ← hsplit]
      exact Nat.mul_div_cancel _ (Nat.pow_pos (by decide))
    have h := parseDurationLoop_number fuel d v unit x1 (10 ^ k)
      ('.' :: ((fmtFracLoop prec u false []).1 ++ (us ++ tail))) us tail true
      (fun c rest h => by injection h with h1 h2; subst h1; rfl) hfrac hunit hne hus htail hv
      (by rw [hfv]; exact hd)
    rw [fmtInt_append, hbuf, h, hfv]

theorem fmtInt_length (buf : List Char) (v : Nat) : buf.length + 1 ≤ (fmtInt buf v).length := by
  obtain ⟨c, rest, hfmt, -⟩ := fmtInt_head v
  rw [fmtInt_append, hfmt]
  simp only [List.length_append, List.length_cons]
  omega

theorem fmtInt_endsUnit (buf : List Char) (v : Nat) :
    ∀ c rest, fmtInt buf v = c :: rest → endsUnit c = true := by
  intro c rest h
  obtain ⟨c0, rest0, hfmt, hc⟩ := fmtInt_head v
  rw [fmtInt_append, hfmt, List.cons_append] at h
  injection h with h1 h2
  subst h1
  unfold endsUnit
  rw [hc]
  simp

theorem parseDurationLoop_nil (fuel d : Nat) : parseDurationLoop (fuel + 1) d [] = .ok d := by
  rw [parseDurationLoop]

/-- The loop of `ParseDuration` reads the magnitude written by `Duration.format` back. -/
theorem parseDurationLoop_durationFormat (u fuel : Nat) (hu : 0 < u) (hu63 : u ≤ 2 ^ 63)
    (hfuel : (durationFormat (u : Int)).length < fuel) :
    parseDurationLoop fuel 0 (durationFormat (u : Int)) = .ok u := by
  have hneg : ¬ ((u : Int) < 0) := by omega
  have hnil : ∀ c rest, ([] : List Char) = c :: rest → endsUnit c = true :=
    fun c rest h => by cases h
  unfold durationFormat at hfuel ⊢
  simp only [hneg, if_false, Int.toNat_ofNat, fmtFrac_value] at hfuel ⊢
  by_cases h1 : u < 1000000000
  · simp only [h1, if_true] at hfuel ⊢
    rw [if_neg (by omega)] at hfuel ⊢
    by_cases h2 : u < 1000
    · simp only [h2, if_true] at hfuel ⊢
      have hl := fmtInt_length (fmtFrac ['n', 's'] u 0).1 (u / 10 ^ 0)
      obtain ⟨f, rfl⟩ : ∃ f, fuel = f + 2 := ⟨fuel - 2, by omega⟩
      have h := parseDurationLoop_fmtFrac (f + 1) 0 (u / 10 ^ 0) u 0 1 ['n', 's'] [] rfl rfl
        (by decide) (by simp) (by decide) hnil (by simp; omega) (by simp; omega)
      rw [List.append_nil] at h
      rw [h, parseDurationLoop_nil]
      simp [Nat.mod_one]
    · simp only [h2, if_false] at hfuel ⊢
      by_cases h3 : u < 1000000
      · simp only [h3, if_true] at hfuel ⊢
        have hl := fmtInt_length (fmtFrac ['µ', 's'] u 3).1 (u / 10 ^ 3)
        obtain ⟨f, rfl⟩ : ∃ f, fuel = f + 2 := ⟨fuel - 2, by omega⟩
        have h := parseDurationLoop_fmtFrac (f + 1) 0 (u / 10 ^ 3) u 3 1000 ['µ', 's'] [] rfl
          (by norm_num) (by decide) (by simp) (by decide) hnil (by omega) (by omega)
        rw [List.append_nil] at h
        rw [h, parseDurationLoop_nil]
        congr 1
        omega
      · simp only [h3, if_false] at hfuel ⊢
        have hl := fmtInt_length (fmtFrac ['m', 's'] u 6).1 (u / 10 ^ 6)
        obtain ⟨f, rfl⟩ : ∃ f, fuel = f + 2 := ⟨fuel - 2, by omega⟩
        have h := parseDurationLoop_fmtFrac (f + 1) 0 (u / 10 ^ 6) u 6 1000000 ['m', 's'] [] rfl
          (by norm_num) (by decide) (by simp) (by decide) hnil (by omega) (by omega)
        rw [List.append_nil] at h
        rw [h, parseDurationLoop_nil]
        congr 1
        omega
  · simp only [h1, if_false] at hfuel ⊢
    have hsec : ∀ f d, d + (u / 10 ^ 9 % 60 * 1000000000 + u % 10 ^ 9) ≤ 2 ^ 63 →
        parseDurationLoop (f + 2) d (fmtInt (fmtFrac ['s'] u 9).1 (u / 10 ^ 9 % 60))
          = .ok (d + (u / 10 ^ 9 % 60 * 1000000000 + u % 10 ^ 9)) := by
      intro f d hd
      have h := parseDurationLoop_fmtFrac (f + 1) d (u / 10 ^ 9 % 60) u 9 1000000000 ['s'] [] rfl
        (by norm_num) (by decide) (by simp) (by decide) hnil (by omega) hd
      rw [List.append_nil] at h
      rw [h, parseDurationLoop_nil]
    have hl1 := fmtInt_length (fmtFrac ['s'] u 9).1 (u / 10 ^ 9 % 60)
    by_cases h2 : u / 10 ^ 9 / 60 > 0
    · simp only [h2, if_true] at hfuel ⊢
      have hmin : ∀ f d, d + (u / 10 ^ 9 / 60 % 60 * 60000000000
            + (u / 10 ^ 9 % 60 * 1000000000 + u % 10 ^ 9)) ≤ 2 ^ 63 →
          parseDurationLoop (f + 3) d
              (fmtInt ('m' :: fmtInt (fmtFrac ['s'] u 9).1 (u / 10 ^ 9 % 60)) (u / 10 ^ 9 / 60 % 60))
            = .ok (d + (u / 10 ^ 9 / 60 % 60 * 60000000000
                + (u / 10 ^ 9 % 60 * 1000000000 + u % 10 ^ 9))) := by
        intro f d hd
        have h := parseDurationLoop_fmtInt (f + 2) d (u / 10 ^ 9 / 60 % 60) 60000000000 ['m']
          (fmtInt (fmtFrac ['s'] u 9).1 (u / 10 ^ 9 % 60)) rfl (by simp) (by decide)
          (fmtInt_endsUnit _ _) (by omega) (by omega)
        rw [List.singleton_append] at h
        rw [h, hsec f _ (by omega)]
        congr 1
        omega
      have hl2 := fmtInt_length ('m' :: fmtInt (fmtFrac ['s'] u 9).1 (u / 10 ^ 9 % 60))
        (u / 10 ^ 9 / 60 % 60)
      rw [List.length_cons] at hl2
      by_cases h3 : u / 10 ^ 9 / 60 / 60 > 0
      · simp only [h3, if_true] at hfuel ⊢
        have hl3 := fmtInt_length
          ('h' :: fmtInt ('m' :: fmtInt (fmtFrac ['s'] u 9).1 (u / 10 ^ 9 % 60))
            (u / 10 ^ 9 / 60 % 60)) (u / 10 ^ 9 / 60 / 60)
        rw [List.length_cons] at hl3
        obtain ⟨f, rfl⟩ : ∃ f, fuel = f + 4 := ⟨fuel - 4, by omega⟩
        have h := parseDurationLoop_fmtInt (f + 3) 0 (u / 10 ^ 9 / 60 / 60) 3600000000000 ['h']
          (fmtInt ('m' :: fmtInt (fmtFrac ['s'] u 9).1 (u / 10 ^ 9 % 60)) (u / 10 ^ 9 / 60 % 60))
          rfl (by simp) (by decide) (fmtInt_endsUnit _ _) (by omega) (by omega)
        rw [List.singleton_append] at h
        rw [h, hmin f _ (by omega)]
        congr 1
        omega
      · simp only [h3, if_false] at hfuel ⊢
        obtain ⟨f, rfl⟩ : ∃ f, fuel = f + 3 := ⟨fuel - 3, by omega⟩
        rw [hmin f 0 (by omega)]
        congr 1
        omega
    · simp only [h2, if_false] at hfuel ⊢
      obtain ⟨f, rfl⟩ : ∃ f, fuel = f + 2 := ⟨fuel - 2, by omega⟩
      rw [hsec f 0 (by omega)]
      congr 1
      omega

theorem durationFormat_neg (u : Nat) (hu : 0 < u) :
    durationFormat (-(u : Int)) = '-' :: durationFormat (u : Int) := by
  have h1 : (-(u : Int)) < 0 := by omega
  have h2 : ¬ ((u : Int) < 0) := by omega
  unfold durationFormat
  simp only [h1, h2, if_true, if_false, neg_neg, Int.toNat_ofNat]

/-- The function `time.ParseDuration` reads the string of every `int64` duration back. -/
theorem ParseDuration_durationString (d : Int) (hlo : -2 ^ 63 ≤ d) (hhi : d < 2 ^ 63) :
    ParseDuration (durationString d) = .ok d := by
  have hshape : ∀ u : Nat, 0 < u → u ≤ 2 ^ 63 →
      durationFormat (u : Int) ≠ [] ∧ durationFormat (u : Int) ≠ ['0']
        ∧ ∀ c rest, durationFormat (u : Int) = c :: rest → c ≠ '-' ∧ c ≠ '+' := by
    intro u hu hu63
    have hok := parseDurationLoop_durationFormat u ((durationFormat (u : Int)).length + 1) hu hu63
      (Nat.lt_succ_self _)
    refine ⟨?_, ?_, ?_⟩
    · intro h
      rw [h, parseDurationLoop_nil] at hok
      injection hok with hok
      omega
    · intro h
      rw [h] at hok
      have herr : parseDurationLoop (['0'].length + 1) 0 ['0']
          = .error "time: missing unit in duration" := by rfl
      rw [herr] at hok
      cases hok
    · intro c rest h
      rw [h, List.length_cons, parseDurationLoop] at hok
      simp only at hok
      constructor
      · rintro rfl
        rw [if_pos (by decide)] at hok
        cases hok
      · rintro rfl
        rw [if_pos (by decide)] at hok
        cases hok
  rcases lt_trichotomy d 0 with hd | hd | hd
  · obtain ⟨u, rfl⟩ : ∃ u : Nat, d = -(u : Int) := ⟨d.natAbs, by omega⟩
    have hu : 0 < u := by omega
    have hu63 : u ≤ 2 ^ 63 := by omega
    obtain ⟨hnil, hzero, -⟩ := hshape u hu hu63
    have hok := parseDurationLoop_durationFormat u ((durationFormat (u : Int)).length + 1) hu hu63
      (Nat.lt_succ_self _)
    unfold ParseDuration durationString
    simp only [durationFormat_neg u hu, List.head?_cons, if_true]
    rw [if_neg hzero, if_neg hnil, hok]
    have hwrap : wrapInt64 (-(wrapInt64 (u : Int))) = -(u : Int) := by
      unfold wrapInt64
      omega
    simp only
    rw [hwrap]
  · subst hd
    rfl
  · obtain ⟨u, rfl⟩ : ∃ u : Nat, d = (u : Int) := ⟨d.toNat, by omega⟩
    have hu : 0 < u := by omega
    have hu63 : u ≤ 2 ^ 63 := by omega
    obtain ⟨hnil, hzero, hsign⟩ := hshape u hu hu63
    have hok := parseDurationLoop_durationFormat u ((durationFormat (u : Int)).length + 1) hu hu63
      (Nat.lt_succ_self _)
    unfold ParseDuration durationString
    simp only
    cases hfmt : durationFormat (u : Int) with
    | nil => exact absurd hfmt hnil
    | cons c rest =>
      obtain ⟨hminus, hplus⟩ := hsign c rest hfmt
      rw [hfmt] at hok hzero
      have hstrip : (match c :: rest with
          | '-' :: rest => rest
          | '+' :: rest => rest
          | _ => c :: rest) = c :: rest := by
        split
        · rename_i h
          injection h with h1 h2
          exact absurd h1 hminus
        · rename_i h
          injection h with h1 h2
          exact absurd h1 hplus
        · rfl
      rw [hstrip, if_neg hzero, if_neg (List.cons_ne_nil _ _), hok]
      simp only [List.head?_cons, Option.some.injEq]
      rw [if_neg hminus, if_neg (by omega)]

theorem jsonCopied_digit (c : Char) (h : (charDigit c).isSome = true) : jsonCopied c = true := by
  unfold charDigit at h
  split_ifs at h with h0 h1 h2 h3 h4 h5 h6 h7 h8 h9
  all_goals first
    | (subst c; rfl)
    | cases h

theorem all_jsonCopied_fmtInt (buf : List Char) (v : Nat) (h : buf.all jsonCopied = true) :
    (fmtInt buf v).all jsonCopied = true := by
  rw [fmtInt_append, List.all_append, h, Bool.and_true, List.all_eq_true]
  intro c hc
  exact jsonCopied_digit c (fmtInt_digits v c hc)

theorem all_jsonCopied_fmtFrac (buf : List Char) (u prec : Nat) (h : buf.all jsonCopied = true) :
    (fmtFrac buf u prec).1.all jsonCopied = true := by
  have hloop : (fmtFracLoop prec u false buf).1.all jsonCopied = true := by
    rw [List.all_eq_true]
    intro c hc
    rcases fmtFracLoop_digits prec u false buf c hc with hdig | hbuf
    · exact jsonCopied_digit c hdig
    · exact List.all_eq_true.mp h c hbuf
  unfold fmtFrac
  simp only
  split_ifs
  · rw [List.all_cons, hloop]
    rfl
  · exact hloop

/-- The string of a duration holds no character that `json.Marshal` escapes. -/
theorem all_jsonCopied_durationFormat (d : Int) : (durationFormat d).all jsonCopied = true := by
  have hcons : ∀ (c : Char) (l : List Char), jsonCopied c = true → l.all jsonCopied = true →
      (c :: l).all jsonCopied = true := by
    intro c l hc hl
    rw [List.all_cons, hc, hl]
    rfl
  unfold durationFormat
  simp only
  split_ifs
  all_goals
    repeat first
      | exact rfl
      | apply all_jsonCopied_fmtInt
      | apply all_jsonCopied_fmtFrac
      | (apply hcons _ _ rfl)

theorem jsonLiteral_of_jsonCopied (c : Char) (h : jsonCopied c = true) : jsonLiteral c = true := by
  unfold jsonCopied at h
  unfold jsonLiteral
  simp only [Bool.and_eq_true] at h ⊢
  exact ⟨⟨h.1.1.1.1.1.1.1, h.1.1.1.1.1.1.2⟩, h.1.1.1.1.1.2⟩

/-- A string literal without escape sequences is decoded to its content. -/
theorem jsonUnmarshal_literal (decodeOther : String → Except String JsonValue) (s : List Char)
    (h : s.all jsonLiteral = true) :
    jsonUnmarshal decodeOther (String.mk ('"' :: (s ++ ['"']))) = .ok (.string (String.mk s)) := by
  have hrev : (s ++ ['"']).reverse = '"' :: s.reverse := by simp
  have hall : s.reverse.all jsonLiteral = true := by
    rw [List.all_eq_true] at h ⊢
    intro c hc
    exact h c (List.mem_reverse.mp hc)
  unfold jsonUnmarshal
  simp only [hrev, hall, if_true, List.reverse_reverse]

/-- C13: for every duration `d` (an `int64`), `UnmarshalJSON` applied to the bytes that
`MarshalJSON` produces for `d` returns no error and stores exactly `d` in the receiver,
whatever the receiver held before. -/
theorem UnmarshalJSON_MarshalJSON_roundtrip (escape : String → String)
    (decodeOther : String → Except String JsonValue) (receiver d : Int)
    (hlo : -2 ^ 63 ≤ d) (hhi : d < 2 ^ 63) :
    Duration.UnmarshalJSON decodeOther receiver (Duration.MarshalJSON escape d) = (none, d) := by
  have hcopied := all_jsonCopied_durationFormat d
  have hliteral : (durationFormat d).all jsonLiteral = true := by
    rw [List.all_eq_true] at hcopied ⊢
    intro c hc
    exact jsonLiteral_of_jsonCopied c (hcopied c hc)
  have hparse := ParseDuration_durationString d hlo hhi
  unfold durationString at hparse
  unfold Duration.UnmarshalJSON Duration.MarshalJSON jsonMarshalString durationString
  simp only
  rw [if_pos hcopied, jsonUnmarshal_literal decodeOther _ hliteral]
  simp only
  rw [hparse]

theorem UnmarshalJSON_MarshalJSON_roundtrip_witness :
    Duration.MarshalJSON (fun s => s) 5400500000000 = "\"1h30m0.5s\""
      ∧ Duration.UnmarshalJSON (fun _ => .error "unsupported") 7
          (Duration.MarshalJSON (fun s => s) 5400500000000) = (none, 5400500000000) :=
  ⟨by rfl, UnmarshalJSON_MarshalJSON_roundtrip (fun s => s) (fun _ => .error "unsupported") 7
    5400500000000 (by decide) (by decide)⟩

/-! ### Bucket creation -/

/-- The part of the contract of `createBucket` that the code keeps: success and the error
`BucketAlreadyExists` give `nil`, every other `awserr.Error` is returned. -/
theorem createBucket_aws (service : String → Option ServiceError) (bucket : String) :
    (service bucket = none → createBucket service bucket = some none)
    ∧ (∀ message, service bucket = some (.aws ErrCodeBucketAlreadyExists message) →
        createBucket service bucket = some none)
    ∧ (∀ code message, code ≠ ErrCodeBucketAlreadyExists →
        service bucket = some (.aws code message) →
        createBucket service bucket = some (some (.aws code message))) := by
  refine ⟨?_, ?_, ?_⟩
  · intro h
    unfold createBucket
    rw [h]
  · intro message h
    unfold createBucket
    rw [h]
    simp [ServiceError.assertAwsError]
  · intro code message hcode h
    unfold createBucket
    rw [h]
    simp [ServiceError.assertAwsError, hcode]

/-- C21, the defect: when `CreateBucket` fails with an error that does not implement
`awserr.Error`, `createBucket` does not return that error: the discarded type assertion
leaves the nil interface and the call `aerr.Code()` panics. This holds for every such error
and every bucket name. -/
theorem createBucket_panics_on_foreign_error (bucket text : String) :
    createBucket (fun _ => some (.foreign text)) bucket = none
    ∧ createBucket brokenTransport bucket ≠ some (brokenTransport bucket) := by
  constructor
  · rfl
  · intro h
    cases h

/-! ### Unit names -/

/-- The result of `getByteMultiplier` for every unit, by its upper-cased spelling. -/
theorem getByteMultiplier_cases (unit : String) :
    (toUpper unit = "B" → getByteMultiplier unit = .ok 1)
    ∧ (toUpper unit = "KB" ∨ toUpper unit = "K" → getByteMultiplier unit = .ok 1024)
    ∧ (toUpper unit = "MB" ∨ toUpper unit = "M" → getByteMultiplier unit = .ok (1024 ^ 2))
    ∧ (toUpper unit = "GB" ∨ toUpper unit = "G" → getByteMultiplier unit = .ok (1024 ^ 3))
    ∧ (toUpper unit = "TB" ∨ toUpper unit = "T" → getByteMultiplier unit = .ok (1024 ^ 4))
    ∧ (toUpper unit ∉ ["B", "KB", "K", "MB", "M", "GB", "G", "TB", "T"] →
        getByteMultiplier unit
          = .error "Could not parse unit size - please use one of B/KB/MB/GB/TB") := by
  unfold getByteMultiplier
  generalize toUpper unit = u
  refine ⟨?_, ?_, ?_, ?_, ?_, ?_⟩
  · rintro rfl
    rfl
  · rintro (rfl | rfl) <;> rfl
  · rintro (rfl | rfl) <;> rfl
  · rintro (rfl | rfl) <;> rfl
  · rintro (rfl | rfl) <;> rfl
  · intro h
    split
    all_goals first
      | rfl
      | (exfalso; apply h; simp)

/-- C22 as stated fails: `K` is none of the units B, KB, MB, GB, TB, in whatever case, and
`getByteMultiplier` returns 1024 for it, not an error. -/
theorem getByteMultiplier_accepts_single_letter :
    toUpper "K" ∉ ["B", "KB", "MB", "GB", "TB"] ∧ getByteMultiplier "K" = .ok 1024 := by
  constructor
  · decide
  · rfl

/-- C22 amended: `getByteMultiplier` returns 1, 1024, 1024^2, 1024^3, 1024^4 for the units B,
KB or K, MB or M, GB or G, TB or T (compared after upper-casing), and the error for every
other unit string. -/
theorem getByteMultiplier_units (unit : String) :
    (toUpper unit = "B" → getByteMultiplier unit = .ok 1)
    ∧ (toUpper unit = "KB" ∨ toUpper unit = "K" → getByteMultiplier unit = .ok 1024)
    ∧ (toUpper unit = "MB" ∨ toUpper unit = "M" → getByteMultiplier unit = .ok (1024 ^ 2))
    ∧ (toUpper unit = "GB" ∨ toUpper unit = "G" → getByteMultiplier unit = .ok (1024 ^ 3))
    ∧ (toUpper unit = "TB" ∨ toUpper unit = "T" → getByteMultiplier unit = .ok (1024 ^ 4))
    ∧ (toUpper unit ∉ ["B", "KB", "K", "MB", "M", "GB", "G", "TB", "T"] →
        ∃ err, getByteMultiplier unit = .error err) := by
  obtain ⟨hb, hk, hm, hg, ht, hother⟩ := getByteMultiplier_cases unit
  exact ⟨hb, hk, hm, hg, ht, fun h => ⟨_, hother h⟩⟩

/-- Witness for C22 amended: the unit `gb` gives 1024^3. -/
theorem getByteMultiplier_units_witness :
    toUpper "gb" = "GB" ∧ getByteMultiplier "gb" = .ok (1024 ^ 3) :=
  ⟨by decide, (getByteMultiplier_units "gb").2.2.2.1 (Or.inl (by decide))⟩

/-- C27: `checkTestCase` returns an error for every test case whose multipart write unit or
read unit is not one of the spellings that `getByteMultiplier` knows, the empty string
included, whatever the flags `WriteMPUEnabled` and `ReadMPUEnabled` are. -/
theorem checkTestCase_rejects_unknown_multipart_unit (tc : TestCaseConfiguration)
    (h : toUpper tc.Multipart.WriteUnit ∉ ["B", "KB", "K", "MB", "M", "GB", "G", "TB", "T"]
      ∨ toUpper tc.Multipart.ReadUnit ∉ ["B", "KB", "K", "MB", "M", "GB", "G", "TB", "T"]) :
    ∃ err, (checkTestCase tc).1 = some err := by
  cases hres : (checkTestCase tc).1 with
  | some err => exact ⟨err, rfl⟩
  | none =>
    exfalso
    obtain ⟨-, -, -, -, -, -, -, -, -, -, -, m, mw, mr, -, hw, hr, -⟩ :=
      checkTestCase_accept tc hres
    rcases h with h | h
    · rw [(getByteMultiplier_cases _).2.2.2.2.2 h] at hw
      cases hw
    · rw [(getByteMultiplier_cases _).2.2.2.2.2 h] at hr
      cases hr

/-- Witness for C27: the example test case is accepted; with multipart disabled and the two
multipart units left empty it is rejected. -/
theorem checkTestCase_rejects_unknown_multipart_unit_witness :
    (checkTestCase exampleTestCase).1 = none
    ∧ unsetMultipartUnits.Multipart.WriteMPUEnabled = false
    ∧ unsetMultipartUnits.Multipart.ReadMPUEnabled = false
    ∧ ∃ err, (checkTestCase unsetMultipartUnits).1 = some err :=
  ⟨rfl, rfl, rfl,
    checkTestCase_rejects_unknown_multipart_unit unsetMultipartUnits (Or.inl (by decide))⟩

/-! ### The counter of an operation -/

theorem increaseFirstMatch_some {α : Type} [Add α] (operation : String) (value : α)
    (values : List (KV α)) (h : ∃ kv ∈ values, kv.Key = operation) :
    ∃ before kv after, values = before ++ kv :: after
      ∧ (∀ e ∈ before, e.Key ≠ operation) ∧ kv.Key = operation
      ∧ increaseFirstMatch operation value values
          = some (before ++ { kv with Value := kv.Value + value } :: after) := by
  induction values with
  | nil =>
    obtain ⟨kv, hmem, -⟩ := h
    cases hmem
  | cons kv rest ih =>
    by_cases hkey : kv.Key = operation
    · refine ⟨[], kv, rest, rfl, fun e he => (by cases he), hkey, ?_⟩
      unfold increaseFirstMatch
      rw [if_pos hkey]
      rfl
    · have hrest : ∃ kv ∈ rest, kv.Key = operation := by
        obtain ⟨kv1, hmem, hk⟩ := h
        rcases List.mem_cons.mp hmem with rfl | hmem
        · exact absurd hk hkey
        · exact ⟨kv1, hmem, hk⟩
      obtain ⟨before, kv1, after, hsplit, hbefore, hk1, hinc⟩ := ih hrest
      refine ⟨kv :: before, kv1, after, by rw [hsplit]; rfl, ?_, hk1, ?_⟩
      · intro e he
        rcases List.mem_cons.mp he with rfl | he
        · exact hkey
        · exact hbefore e he
      · unfold increaseFirstMatch
        rw [if_neg hkey, hinc]
        rfl

theorem increaseFirstMatch_none {α : Type} [Add α] (operation : String) (value : α)
    (values : List (KV α)) (h : ∀ kv ∈ values, kv.Key ≠ operation) :
    increaseFirstMatch operation value values = none := by
  induction values with
  | nil => rfl
  | cons kv rest ih =>
    unfold increaseFirstMatch
    rw [if_neg (h kv (List.mem_cons_self _ _)),
      ih (fun e he => h e (List.mem_cons_of_mem _ he))]

/-- C23: when some entry of `OperationValues` has the requested key, `IncreaseOperationValue`
returns `nil` and the queue differs from the old one only in the value of the first such
entry, which is the old value plus `value`; when no entry has the key, it returns an error
and the queue is unchanged. -/
theorem IncreaseOperationValue_first_match {α : Type} [Add α] (operation : String) (value : α)
    (Queue : Workqueue α) :
    ((∃ kv ∈ Queue.OperationValues, kv.Key = operation) →
      ∃ before kv after, Queue.OperationValues = before ++ kv :: after
        ∧ (∀ e ∈ before, e.Key ≠ operation) ∧ kv.Key = operation
        ∧ IncreaseOperationValue operation value Queue
            = (none, { Queue with
                OperationValues :=
                  before ++ { Key := kv.Key, Value := kv.Value + value } :: after }))
    ∧ ((∀ kv ∈ Queue.OperationValues, kv.Key ≠ operation) →
      ∃ err, IncreaseOperationValue operation value Queue = (some err, Queue)) := by
  constructor
  · intro h
    obtain ⟨before, kv, after, hsplit, hbefore, hkey, hinc⟩ :=
      increaseFirstMatch_some operation value Queue.OperationValues h
    refine ⟨before, kv, after, hsplit, hbefore, hkey, ?_⟩
    unfold IncreaseOperationValue
    rw [hinc]
  · intro h
    unfold IncreaseOperationValue
    rw [increaseFirstMatch_none operation value Queue.OperationValues h]
    exact ⟨_, rfl⟩

/-- Witness for C23: in a queue with two `read` entries only the first one is increased. -/
theorem IncreaseOperationValue_first_match_witness :
    IncreaseOperationValue "read" (1 / 2 : ℚ) repeatedKeyQueue
        = (none, { OperationValues := [⟨"write", 1⟩, ⟨"read", 2 + 1 / 2⟩, ⟨"list", 3⟩, ⟨"read", 4⟩],
                   Queue := [] })
    ∧ ∃ before kv after, repeatedKeyQueue.OperationValues = before ++ kv :: after
        ∧ (∀ e ∈ before, e.Key ≠ "read") ∧ kv.Key = "read"
        ∧ IncreaseOperationValue "read" (1 / 2 : ℚ) repeatedKeyQueue
            = (none, { repeatedKeyQueue with
                OperationValues :=
                  before ++ { Key := kv.Key, Value := kv.Value + 1 / 2 } :: after }) :=
  ⟨by simp [IncreaseOperationValue, increaseFirstMatch, repeatedKeyQueue],
    (IncreaseOperationValue_first_match "read" (1 / 2 : ℚ) repeatedKeyQueue).1
      ⟨⟨"read", 2⟩, by simp [repeatedKeyQueue], rfl⟩⟩

/-! ### Random draws between equal bounds -/

theorem subUint64_self (m : Nat) : subUint64 m m = 0 := by
  unfold subUint64
  omega

/-- C24 as stated fails: with `max == min == 5` the `random` branch does not return 0; the
remainder by `validSize = 0` is a division by zero, a run-time panic. -/
theorem EvaluateDistribution_random_equal_bounds_panics :
    EvaluateDistribution 5 5 0 1 "random" 12345 = none
    ∧ EvaluateDistribution 5 5 0 1 "random" 12345 ≠ some (0, 0) := by
  decide

/-- C24 amended: for every stored last value, increment and value of the random generator,
`EvaluateDistribution` in `random` mode called with `max == min` panics with a division by
zero; no value is returned. -/
theorem EvaluateDistribution_random_equal_bounds (min max lastNumber increment random : Nat)
    (h : max = min) :
    EvaluateDistribution min max lastNumber increment "random" random = none := by
  subst h
  rw [EvaluateDistribution_random, subUint64_self, if_pos rfl]

/-- Witness for C24 amended: objects of exactly 4096 bytes. -/
theorem EvaluateDistribution_random_equal_bounds_witness :
    EvaluateDistribution 4096 4096 0 1 "random" 987654321 = none :=
  EvaluateDistribution_random_equal_bounds 4096 4096 0 1 987654321 rfl

/-! ### Validating a test case twice -/

/-- A test case that passes every guard and whose three units are known is accepted, and the
multiplied sizes are stored. -/
theorem checkTestCase_of_guards (tc : TestCaseConfiguration) (m mw mr : Nat)
    (c1 : ¬ (tc.Runtime = 0 ∧ tc.OpsDeadline = 0))
    (c2 : ¬ (tc.ReadWeight = 0 ∧ tc.WriteWeight = 0 ∧ tc.ListWeight = 0
      ∧ tc.DeleteWeight = 0 ∧ tc.ExistingReadWeight = 0))
    (c3 : ¬ (tc.ExistingReadWeight ≠ 0 ∧ tc.BucketPrefix = ""))
    (c4 : tc.Buckets.NumberMin ≠ 0) (c5 : tc.Objects.SizeMin ≠ 0) (c6 : tc.Objects.SizeMax ≠ 0)
    (c7 : tc.Objects.NumberMin ≠ 0)
    (d1 : checkDistribution tc.Objects.SizeDistribution "Object size_distribution" = none)
    (d2 : checkDistribution tc.Objects.NumberDistribution "Object number_distribution" = none)
    (d3 : checkDistribution tc.Buckets.NumberDistribution "Bucket number_distribution" = none)
    (c8 : tc.Objects.Unit ≠ "")
    (h1 : getByteMultiplier tc.Objects.Unit = .ok m)
    (h2 : getByteMultiplier tc.Multipart.WriteUnit = .ok mw)
    (h3 : getByteMultiplier tc.Multipart.ReadUnit = .ok mr) :
    (checkTestCase tc).1 = none := by
  unfold checkTestCase
  rw [if_neg c1, if_neg c2, if_neg c3, if_neg c4, if_neg c5, if_neg c6, if_neg c7, d1, d2, d3]
  dsimp only
  rw [if_neg c8, h1]
  dsimp only
  rw [h2]
  dsimp only
  rw [h3]

/-- Multiplying by a unit multiplier a second time leaves a 64-bit value unchanged exactly
when the multiplier is 1 or the value is 0. -/
theorem mulUint64_fixed (unit : String) (m y : Nat) (hm : getByteMultiplier unit = .ok m)
    (hy : y < 2 ^ 64) : mulUint64 y m = y ↔ m = 1 ∨ y = 0 := by
  obtain ⟨k, hk, rfl⟩ := getByteMultiplier_ok_pow unit m hm
  unfold mulUint64
  interval_cases k
  · simp only [pow_zero, Nat.mul_one, true_or, iff_true]
    exact Nat.mod_eq_of_lt hy
  all_goals
    constructor
    · intro h
      right
      omega
    · rintro (h | h)
      · exact absurd h (by decide)
      · subst h
        rfl

theorem mulUint64_twice (x m : Nat) : mulUint64 (mulUint64 x m) m = x * m ^ 2 % 2 ^ 64 := by
  unfold mulUint64
  rw [Nat.mod_mul_mod, pow_two, Nat.mul_assoc]

/-- C26 as stated fails: objects of 16777216 TB are accepted and normalized to 0 bytes, and the
second call on the normalized test case is rejected by the guard on the minimum size. -/
theorem checkTestCase_twice_rejects :
    (checkTestCase overflowingSizeTestCase).1 = none
    ∧ (checkTestCase overflowingSizeTestCase).2.Objects.SizeMin = 0
    ∧ (checkTestCase (checkTestCase overflowingSizeTestCase).2).1
        = some "Please set minimum size of Objects" := by
  refine ⟨rfl, rfl, rfl⟩

/-- C26 amended: for every accepted test case with unit multipliers `m`, `mw` and `mr`, the
second call of `checkTestCase` on the normalized test case is accepted exactly when the
normalized `SizeMin` and `SizeMax` are not 0 (they are 0 when the product is a multiple of
2^64); when it is accepted, the sizes are the original ones times `m^2`, `mw^2` and `mr^2`
modulo 2^64, and each size is left unchanged by the second call exactly when its multiplier
is 1 or its normalized value is 0. -/
theorem checkTestCase_twice (tc : TestCaseConfiguration) (h : (checkTestCase tc).1 = none) :
    ∃ m mw mr, getByteMultiplier tc.Objects.Unit = .ok m
      ∧ getByteMultiplier tc.Multipart.WriteUnit = .ok mw
      ∧ getByteMultiplier tc.Multipart.ReadUnit = .ok mr
      ∧ ((checkTestCase (checkTestCase tc).2).1 = none
          ↔ (checkTestCase tc).2.Objects.SizeMin ≠ 0 ∧ (checkTestCase tc).2.Objects.SizeMax ≠ 0)
      ∧ ((checkTestCase (checkTestCase tc).2).1 = none →
          (checkTestCase (checkTestCase tc).2).2.Objects.SizeMin
              = tc.Objects.SizeMin * m ^ 2 % 2 ^ 64
          ∧ (checkTestCase (checkTestCase tc).2).2.Objects.SizeMax
              = tc.Objects.SizeMax * m ^ 2 % 2 ^ 64
          ∧ (checkTestCase (checkTestCase tc).2).2.Multipart.WritePartSize
              = tc.Multipart.WritePartSize * mw ^ 2 % 2 ^ 64
          ∧ (checkTestCase (checkTestCase tc).2).2.Multipart.ReadPartSize
              = tc.Multipart.ReadPartSize * mr ^ 2 % 2 ^ 64
          ∧ ((checkTestCase (checkTestCase tc).2).2.Objects.SizeMin
                = (checkTestCase tc).2.Objects.SizeMin
              ↔ m = 1 ∨ (checkTestCase tc).2.Objects.SizeMin = 0)
          ∧ ((checkTestCase (checkTestCase tc).2).2.Objects.SizeMax
                = (checkTestCase tc).2.Objects.SizeMax
              ↔ m = 1 ∨ (checkTestCase tc).2.Objects.SizeMax = 0)
          ∧ ((checkTestCase (checkTestCase tc).2).2.Multipart.WritePartSize
                = (checkTestCase tc).2.Multipart.WritePartSize
              ↔ mw = 1 ∨ (checkTestCase tc).2.Multipart.WritePartSize = 0)
          ∧ ((checkTestCase (checkTestCase tc).2).2.Multipart.ReadPartSize
                = (checkTestCase tc).2.Multipart.ReadPartSize
              ↔ mr = 1 ∨ (checkTestCase tc).2.Multipart.ReadPartSize = 0)) := by
  obtain ⟨c1, c2, c3, c4, -, -, c7, d1, d2, d3, c8, m, mw, mr, h1, h2, h3, hres⟩ :=
    checkTestCase_accept tc h
  refine ⟨m, mw, mr, h1, h2, h3, ?_, ?_⟩
  · constructor
    · intro hacc
      obtain ⟨-, -, -, -, c5, c6, -⟩ := checkTestCase_accept _ hacc
      exact ⟨c5, c6⟩
    · rintro ⟨c5, c6⟩
      refine checkTestCase_of_guards _ m mw mr ?_ ?_ ?_ ?_ c5 c6 ?_ ?_ ?_ ?_ ?_ ?_ ?_ ?_
      all_goals rw [hres]
      · exact c1
      · exact c2
      · exact c3
      · exact c4
      · exact c7
      · exact d1
      · exact d2
      · exact d3
      · exact c8
      · exact h1
      · exact h2
      · exact h3
  · intro hacc
    obtain ⟨-, -, -, -, -, -, -, -, -, -, -, m1, mw1, mr1, g1, g2, g3, hres2⟩ :=
      checkTestCase_accept _ hacc
    rw [hres] at g1 g2 g3
    have e1 : m1 = m := Except.ok.inj (g1.symm.trans h1)
    have e2 : mw1 = mw := Except.ok.inj (g2.symm.trans h2)
    have e3 : mr1 = mr := Except.ok.inj (g3.symm.trans h3)
    subst e1 e2 e3
    have hlt : ∀ x k : Nat, mulUint64 x k < 2 ^ 64 := fun x k => Nat.mod_lt _ (by decide)
    rw [hres2]
    dsimp only
    rw [hres]
    dsimp only
    exact ⟨mulUint64_twice _ _, mulUint64_twice _ _, mulUint64_twice _ _, mulUint64_twice _ _,
      mulUint64_fixed _ _ _ h1 (hlt _ _), mulUint64_fixed _ _ _ h1 (hlt _ _),
      mulUint64_fixed _ _ _ h2 (hlt _ _), mulUint64_fixed _ _ _ h3 (hlt _ _)⟩

/-- Witness for C26 amended: 4 KB become 4096 bytes after one call and 4194304 after two; the
read part size, given in bytes, stays 3. -/
theorem checkTestCase_twice_witness :
    (checkTestCase exampleTestCase).2.Objects.SizeMin = 4096
    ∧ (checkTestCase (checkTestCase exampleTestCase).2).2.Objects.SizeMin = 4194304
    ∧ (checkTestCase (checkTestCase exampleTestCase).2).2.Multipart.ReadPartSize = 3
    ∧ ∃ m mw mr, getByteMultiplier exampleTestCase.Objects.Unit = .ok m
      ∧ getByteMultiplier exampleTestCase.Multipart.WriteUnit = .ok mw
      ∧ getByteMultiplier exampleTestCase.Multipart.ReadUnit = .ok mr
      ∧ (checkTestCase (checkTestCase exampleTestCase).2).2.Objects.SizeMin
          = exampleTestCase.Objects.SizeMin * m ^ 2 % 2 ^ 64 := by
  refine ⟨rfl, rfl, rfl, ?_⟩
  obtain ⟨m, mw, mr, h1, h2, h3, hacc, hval⟩ := checkTestCase_twice exampleTestCase rfl
  exact ⟨m, mw, mr, h1, h2, h3, (hval (hacc.mpr ⟨by decide, by decide⟩)).1⟩

/-! ### The draws of the work plan -/

theorem checkDistribution_none (distribution keyname : String)
    (h : checkDistribution distribution keyname = none) :
    distribution = "constant" ∨ distribution = "random" ∨ distribution = "sequential" := by
  unfold checkDistribution at h
  split at h
  · exact Or.inl rfl
  · exact Or.inr (Or.inl rfl)
  · exact Or.inr (Or.inr rfl)
  · cases h

/-- A draw with a valid distribution from a stored last value of 0. -/
theorem EvaluateDistribution_draw (min max increment random : Nat) (distribution : String) :
    (distribution = "constant" →
      EvaluateDistribution min max 0 increment distribution random = some (min, 0))
    ∧ (distribution = "random" → min = max →
      EvaluateDistribution min max 0 increment distribution random = none)
    ∧ (distribution = "random" → min < max → max < 2 ^ 64 →
      ∃ v, EvaluateDistribution min max 0 increment distribution random = some (v, 0)
        ∧ min ≤ v ∧ v < max)
    ∧ (distribution = "sequential" → increment < 2 ^ 64 →
      ∃ stored, EvaluateDistribution min max 0 increment distribution random
        = some (Nat.min increment max, stored)) := by
  refine ⟨?_, ?_, ?_, ?_⟩
  · rintro rfl
    rfl
  · rintro rfl rfl
    rw [EvaluateDistribution_random, subUint64_self, if_pos rfl]
  · rintro rfl hlt hmax
    rw [EvaluateDistribution_random]
    have hsub : subUint64 max min = max - min := by
      unfold subUint64
      rw [Nat.mod_eq_of_lt (by omega : min < 2 ^ 64)]
      omega
    rw [hsub, if_neg (by omega)]
    have hmod : random % (max - min) < max - min := Nat.mod_lt _ (by omega)
    refine ⟨_, rfl, ?_, ?_⟩
    · unfold addUint64
      rw [Nat.mod_eq_of_lt (by omega)]
      omega
    · unfold addUint64
      rw [Nat.mod_eq_of_lt (by omega)]
      omega
  · rintro rfl hinc
    rw [EvaluateDistribution_sequential]
    have hadd : addUint64 0 increment = increment := by
      unfold addUint64
      rw [Nat.zero_add]
      exact Nat.mod_eq_of_lt hinc
    rw [hadd]
    by_cases hgt : increment > max
    · rw [if_pos hgt]
      have hmin : Nat.min increment max = max := Nat.min_eq_right (by omega)
      exact ⟨0, by rw [hmin]⟩
    · rw [if_neg hgt]
      have hmin : Nat.min increment max = increment := Nat.min_eq_left (by omega)
      exact ⟨increment, by rw [hmin]⟩

/-- C25 as stated fails: a test case with `size_min = size_max = 4` KB and a random size
distribution is accepted, and the draw of the object size on the validated bounds panics
with a division by zero; its sequential draw of the object count with increment 1 returns 1,
which is below the minimum of 10. -/
theorem accepted_draw_panics :
    (checkTestCase fixedSizeRandomTestCase).1 = none
    ∧ EvaluateDistribution (checkTestCase fixedSizeRandomTestCase).2.Objects.SizeMin
        (checkTestCase fixedSizeRandomTestCase).2.Objects.SizeMax 0 1
        (checkTestCase fixedSizeRandomTestCase).2.Objects.SizeDistribution 2024 = none
    ∧ EvaluateDistribution (checkTestCase fixedSizeRandomTestCase).2.Objects.NumberMin
        (checkTestCase fixedSizeRandomTestCase).2.Objects.NumberMax 0 1
        (checkTestCase fixedSizeRandomTestCase).2.Objects.NumberDistribution 2024 = some (1, 1)
    ∧ (checkTestCase fixedSizeRandomTestCase).2.Objects.NumberMin = 10 := by
  refine ⟨rfl, ?_, ?_, rfl⟩
  · decide
  · decide

/-- C25 amended: for every accepted test case, each of the three draws on the validated
bounds (object size, object count, bucket count), from a stored last value of 0, has a
distribution that is `constant`, `random` or `sequential`; a constant draw returns `min`; a
random draw panics with a division by zero when `min == max` and returns `v` with
`min <= v < max` when `min < max`; a sequential draw with increment `i` returns the smaller
of `i` and `max`. -/
theorem accepted_draws (tc : TestCaseConfiguration) (h : (checkTestCase tc).1 = none)
    (increment random : Nat) :
    ∀ draw ∈ [((checkTestCase tc).2.Objects.SizeMin, (checkTestCase tc).2.Objects.SizeMax,
                (checkTestCase tc).2.Objects.SizeDistribution),
              ((checkTestCase tc).2.Objects.NumberMin, (checkTestCase tc).2.Objects.NumberMax,
                (checkTestCase tc).2.Objects.NumberDistribution),
              ((checkTestCase tc).2.Buckets.NumberMin, (checkTestCase tc).2.Buckets.NumberMax,
                (checkTestCase tc).2.Buckets.NumberDistribution)],
      (draw.2.2 = "constant" ∨ draw.2.2 = "random" ∨ draw.2.2 = "sequential")
      ∧ (draw.2.2 = "constant" →
        EvaluateDistribution draw.1 draw.2.1 0 increment draw.2.2 random = some (draw.1, 0))
      ∧ (draw.2.2 = "random" → draw.1 = draw.2.1 →
        EvaluateDistribution draw.1 draw.2.1 0 increment draw.2.2 random = none)
      ∧ (draw.2.2 = "random" → draw.1 < draw.2.1 → draw.2.1 < 2 ^ 64 →
        ∃ v, EvaluateDistribution draw.1 draw.2.1 0 increment draw.2.2 random = some (v, 0)
          ∧ draw.1 ≤ v ∧ v < draw.2.1)
      ∧ (draw.2.2 = "sequential" → increment < 2 ^ 64 →
        ∃ stored, EvaluateDistribution draw.1 draw.2.1 0 increment draw.2.2 random
          = some (Nat.min increment draw.2.1, stored)) := by
  obtain ⟨-, -, -, -, -, -, -, d1, d2, d3, -, m, mw, mr, -, -, -, hres⟩ :=
    checkTestCase_accept tc h
  rw [hres]
  intro draw hdraw
  simp only [List.mem_cons, List.mem_singleton, List.not_mem_nil, or_false] at hdraw
  rcases hdraw with rfl | rfl | rfl
  · exact ⟨checkDistribution_none _ _ d1, EvaluateDistribution_draw _ _ _ _ _⟩
  · exact ⟨checkDistribution_none _ _ d2, EvaluateDistribution_draw _ _ _ _ _⟩
  · exact ⟨checkDistribution_none _ _ d3, EvaluateDistribution_draw _ _ _ _ _⟩

/-- Witness for C25 amended: the object size of the example test case is a constant draw on
4096 to 8192 bytes and returns 4096. -/
theorem accepted_draws_witness :
    EvaluateDistribution 4096 8192 0 1 "constant" 7 = some (4096, 0) :=
  (accepted_draws exampleTestCase rfl 1 7
    ((checkTestCase exampleTestCase).2.Objects.SizeMin,
      (checkTestCase exampleTestCase).2.Objects.SizeMax,
      (checkTestCase exampleTestCase).2.Objects.SizeDistribution)
    (List.mem_cons_self _ _)).2.1 rfl

end Gosbench
